import Mathlib

/-!
Verification of the xenium consensus core (Go) against its specification.

This file shallowly embeds the chain engine of the repository: the SHA-256
based hashing primitives, the proof-of-history ticker, stake-weighted leader
selection, epoch snapshots, the state-transition function, fork choice with
the reorg guard, finality, equivocation handling and the block-production
pipeline of `core/blockchain.go`, `consensus/*.go` and the minimal
state-transition variant.

Modelling conventions:
* Go maps become association lists (`List (κ × α)`); a Go map read with its
  zero-value default becomes `lookupD`; writes become `insertA` (update in
  place or append).  Where Go iterates a map, the model iterates the list;
  theorems that depend on iteration order take a `Nodup` hypothesis, exactly
  the guarantee Go maps give (unique keys, arbitrary order).
* Go `uint64` arithmetic is `Nat` reduced mod `2^64` at each operation that
  can wrap; Go `int` (64-bit) arithmetic is `Int` wrapped into
  `[-2^63, 2^63)` at each operation that can wrap.  Guarded subtractions
  (checked `a ≥ b` first) use plain `Nat` subtraction, which agrees with the
  machine result in that range.
* Loops that walk the block DAG through parent pointers take fuel
  `Blocks.length + 1`; on an acyclic DAG (the only case in which the Go
  loops terminate) the fuel is never exhausted.
* ECDSA signing and verification (`crypto/ecdsa` + `crypto/rand`) are
  modelled as oracles: an abstract signing function (whose entropy makes Go
  signatures non-deterministic) and abstract boolean verifiers.  Everything
  hash-like (SHA-256, hex, digests, roots, the PoH chain, the leader draw)
  is computed concretely.
* Go strings compare as byte-wise lexicographic order of their UTF-8
  encodings; since UTF-8 preserves codepoint order, this is lexicographic
  order on codepoints, which is what `goStrLt` below computes.
-/

set_option maxRecDepth 100000

namespace Xenium

/-! ## 64-bit machine arithmetic on `Nat` / `Int` -/

/-- 2^64, the modulus of Go `uint64` arithmetic. -/
def U64 : Nat := 18446744073709551616

/-- 2^63, used to wrap Go `int` (64-bit signed) arithmetic. -/
def I63 : Int := 9223372036854775808

/-- Go `uint64` addition. -/
def addU64 (a b : Nat) : Nat := (a + b) % U64

/-- Go `uint64` multiplication. -/
def mulU64 (a b : Nat) : Nat := (a * b) % U64

/-- Go conversion `uint64(x)` of a signed 64-bit value (two's complement). -/
def toU64 (x : Int) : Nat := (x % (18446744073709551616 : Int)).toNat

/-- Wrap an unbounded integer into the Go `int` (two's complement) range. -/
def wrapI64 (x : Int) : Int := (x + I63) % (18446744073709551616 : Int) - I63

/-- Go `int` addition. -/
def addI64 (a b : Int) : Int := wrapI64 (a + b)

/-- Go `int` multiplication. -/
def mulI64 (a b : Int) : Int := wrapI64 (a * b)

/-! ## SHA-256 (FIPS 180-4) over byte lists -/

/-- 2^32, the modulus of 32-bit word arithmetic. -/
def M32 : Nat := 4294967296

/-- 32-bit addition. -/
def add32 (a b : Nat) : Nat := (a + b) % M32

/-- Right rotation of a 32-bit word by `n`. -/
def rotr32 (n a : Nat) : Nat := a / 2 ^ n + a % 2 ^ n * 2 ^ (32 - n)

/-- Right shift of a 32-bit word by `n`. -/
def shr32 (n a : Nat) : Nat := a / 2 ^ n

/-- Bitwise xor of 32-bit words. -/
def xor32 (a b : Nat) : Nat := Nat.xor a b

/-- Bitwise and of 32-bit words. -/
def and32 (a b : Nat) : Nat := Nat.land a b

/-- Bitwise complement of a 32-bit word. -/
def not32 (a : Nat) : Nat := 4294967295 - a

/-- SHA-256 σ₀. -/
def ssig0 (w : Nat) : Nat := xor32 (rotr32 7 w) (xor32 (rotr32 18 w) (shr32 3 w))

/-- SHA-256 σ₁. -/
def ssig1 (w : Nat) : Nat := xor32 (rotr32 17 w) (xor32 (rotr32 19 w) (shr32 10 w))

/-- SHA-256 Σ₀. -/
def bsig0 (a : Nat) : Nat := xor32 (rotr32 2 a) (xor32 (rotr32 13 a) (rotr32 22 a))

/-- SHA-256 Σ₁. -/
def bsig1 (e : Nat) : Nat := xor32 (rotr32 6 e) (xor32 (rotr32 11 e) (rotr32 25 e))

/-- SHA-256 choice function. -/
def chf (e f g : Nat) : Nat := xor32 (and32 e f) (and32 (not32 e) g)

/-- SHA-256 majority function. -/
def majf (a b c : Nat) : Nat := xor32 (and32 a b) (xor32 (and32 a c) (and32 b c))

/-- Round constants 0-7 of SHA-256 (decimal). -/
def kTab0 : List Nat :=
  [1116352408,
   1899447441,
   3049323471,
   3921009573,
   961987163,
   1508970993,
   2453635748,
   2870763221]

/-- Round constants 8-15 of SHA-256 (decimal). -/
def kTab1 : List Nat :=
  [3624381080,
   310598401,
   607225278,
   1426881987,
   1925078388,
   2162078206,
   2614888103,
   3248222580]

/-- Round constants 16-23 of SHA-256 (decimal). -/
def kTab2 : List Nat :=
  [3835390401,
   4022224774,
   264347078,
   604807628,
   770255983,
   1249150122,
   1555081692,
   1996064986]

/-- Round constants 24-31 of SHA-256 (decimal). -/
def kTab3 : List Nat :=
  [2554220882,
   2821834349,
   2952996808,
   3210313671,
   3336571891,
   3584528711,
   113926993,
   338241895]

/-- Round constants 32-39 of SHA-256 (decimal). -/
def kTab4 : List Nat :=
  [666307205,
   773529912,
   1294757372,
   1396182291,
   1695183700,
   1986661051,
   2177026350,
   2456956037]

/-- Round constants 40-47 of SHA-256 (decimal). -/
def kTab5 : List Nat :=
  [2730485921,
   2820302411,
   3259730800,
   3345764771,
   3516065817,
   3600352804,
   4094571909,
   275423344]

/-- Round constants 48-55 of SHA-256 (decimal). -/
def kTab6 : List Nat :=
  [430227734,
   506948616,
   659060556,
   883997877,
   958139571,
   1322822218,
   1537002063,
   1747873779]

/-- Round constants 56-63 of SHA-256 (decimal). -/
def kTab7 : List Nat :=
  [1955562222,
   2024104815,
   2227730452,
   2361852424,
   2428436474,
   2756734187,
   3204031479,
   3329325298]

/-- The 64 SHA-256 round constants. -/
def sha256K : List Nat :=
  kTab0 ++ kTab1 ++ kTab2 ++ kTab3 ++ kTab4 ++ kTab5 ++ kTab6 ++ kTab7

/-- The SHA-256 initial hash state (decimal). -/
def sha256H0 : List Nat :=
  [1779033703,
   3144134277,
   1013904242,
   2773480762,
   1359893119,
   2600822924,
   528734635,
   1541459225]

/-- Group bytes into big-endian 32-bit words. -/
def bytesToWordsBE : List Nat → List Nat
  | b0 :: b1 :: b2 :: b3 :: rest => (((b0 * 256 + b1) * 256 + b2) * 256 + b3) :: bytesToWordsBE rest
  | _ => []

/-- One message-schedule extension step, on the reversed word list. -/
def schedStep (r : List Nat) : List Nat :=
  add32 (add32 (ssig1 (r.getD 1 0)) (r.getD 6 0)) (add32 (ssig0 (r.getD 14 0)) (r.getD 15 0)) :: r

/-- Iterate the schedule extension. -/
def schedExtend : Nat → List Nat → List Nat
  | 0, r => r
  | n + 1, r => schedExtend n (schedStep r)

/-- Extend 16 message words to the 64-entry schedule. -/
def schedule (ws : List Nat) : List Nat := (schedExtend 48 ws.reverse).reverse

/-- One SHA-256 compression round on the 8-word working state. -/
def roundStep (st : List Nat) (kw : Nat × Nat) : List Nat :=
  match st with
  | [a, b, c, d, e, f, g, h] =>
    let t1 := add32 h (add32 (bsig1 e) (add32 (chf e f g) (add32 kw.1 kw.2)))
    let t2 := add32 (bsig0 a) (majf a b c)
    [add32 t1 t2, a, b, c, add32 d t1, e, f, g]
  | other => other

/-- Compress one padded 64-byte block into the hash state. -/
def compressBlock (h : List Nat) (blk : List Nat) : List Nat :=
  let ws := schedule (bytesToWordsBE blk)
  let fin := (sha256K.zip ws).foldl roundStep h
  List.zipWith add32 h fin

/-- Split a list into 64-byte chunks (fuelled). -/
def chunks64 : Nat → List Nat → List (List Nat)
  | 0, _ => []
  | _, [] => []
  | fuel + 1, l => l.take 64 :: chunks64 fuel (l.drop 64)

/-- Big-endian 8-byte encoding of a (length) value. -/
def be64 (n : Nat) : List Nat :=
  [n / 2 ^ 56 % 256, n / 2 ^ 48 % 256, n / 2 ^ 40 % 256, n / 2 ^ 32 % 256,
   n / 2 ^ 24 % 256, n / 2 ^ 16 % 256, n / 2 ^ 8 % 256, n % 256]

/-- SHA-256 message padding. -/
def sha256pad (msg : List Nat) : List Nat :=
  msg ++ 128 :: List.replicate ((64 - (msg.length + 9) % 64) % 64) 0 ++ be64 (msg.length * 8)

/-- Serialize the 8-word hash state into 32 big-endian bytes. -/
def wordsToBytesBE (ws : List Nat) : List Nat :=
  ws.foldr (fun w acc => w / 2 ^ 24 % 256 :: w / 2 ^ 16 % 256 :: w / 2 ^ 8 % 256 :: w % 256 :: acc) []

/-- SHA-256 of a byte list. -/
def sha256 (msg : List Nat) : List Nat :=
  let padded := sha256pad msg
  wordsToBytesBE ((chunks64 (padded.length + 1) padded).foldl compressBlock sha256H0)

/-! ## Hex, UTF-8 and decimal formatting -/

/-- The lowercase hex digits, as used by Go `encoding/hex`. -/
def hexDigits : List Char := "0123456789abcdef".data

/-- Hex encoding of a byte list (Go `hex.EncodeToString`). -/
def bytesToHex (l : List Nat) : String :=
  String.mk (l.foldr (fun b acc => hexDigits.getD (b / 16) '0' :: hexDigits.getD (b % 16) '0' :: acc) [])

/-- Value of one hex digit, `none` on a non-digit (Go `hex.DecodeString` errors). -/
def hexDigitVal (c : Char) : Option Nat :=
  let n := c.toNat
  if 48 ≤ n ∧ n ≤ 57 then some (n - 48)
  else if 97 ≤ n ∧ n ≤ 102 then some (n - 87)
  else if 65 ≤ n ∧ n ≤ 70 then some (n - 55)
  else none

/-- Hex decoding of a character list; `none` on odd length or bad digit. -/
def hexCharsToBytes : List Char → Option (List Nat)
  | [] => some []
  | [_] => none
  | hi :: lo :: rest =>
    match hexDigitVal hi, hexDigitVal lo, hexCharsToBytes rest with
    | some h, some l, some bs => some ((h * 16 + l) :: bs)
    | _, _, _ => none

/-- Hex decoding of a string (Go `hex.DecodeString`). -/
def hexToBytes (s : String) : Option (List Nat) := hexCharsToBytes s.data

/-- UTF-8 encoding of one codepoint, as a byte list. -/
def utf8Encode (c : Nat) : List Nat :=
  if c < 128 then [c]
  else if c < 2048 then [192 + c / 64, 128 + c % 64]
  else if c < 65536 then [224 + c / 4096, 128 + c / 64 % 64, 128 + c % 64]
  else [240 + c / 262144, 128 + c / 4096 % 64, 128 + c / 64 % 64, 128 + c % 64]

/-- The UTF-8 bytes of a string (Go `[]byte(s)`). -/
def strBytes (s : String) : List Nat := (s.data.map (fun c => utf8Encode c.toNat)).flatten

/-- SHA-256 of a string's UTF-8 bytes. -/
def sha256s (s : String) : List Nat := sha256 (strBytes s)

/-- Decimal digits of a positive `Nat`, least significant first (fuelled). -/
def natDigitsRev : Nat → Nat → List Char
  | 0, _ => []
  | _, 0 => []
  | fuel + 1, v => hexDigits.getD (v % 10) '0' :: natDigitsRev fuel (v / 10)

/-- Decimal string of a `Nat` (Go `strconv.FormatUint` and the repo's `itoa`). -/
def natToStr (v : Nat) : String :=
  if v = 0 then "0" else String.mk (natDigitsRev (v + 1) v).reverse

/-- Decimal string of an `Int` (Go `strconv.Itoa` / `strconv.FormatInt`). -/
def intToStr (v : Int) : String :=
  if v < 0 then "-" ++ natToStr (-v).toNat else natToStr v.toNat

/-! ## Go string ordering

Go compares strings as byte-wise lexicographic order of their UTF-8
encodings; UTF-8 preserves codepoint order, so this equals lexicographic
order on the codepoint sequences. -/

/-- Lexicographic strict order on codepoint lists. -/
def charsLt : List Char → List Char → Bool
  | [], [] => false
  | [], _ :: _ => true
  | _ :: _, [] => false
  | x :: xs, y :: ys =>
    if x.toNat < y.toNat then true
    else if y.toNat < x.toNat then false
    else charsLt xs ys

/-- Go `a < b` on strings. -/
def goStrLt (a b : String) : Bool := charsLt a.data b.data

/-- Go `a <= b` on strings. -/
def goStrLe (a b : String) : Bool := !goStrLt b a

/-- Insert a string into a `goStrLt`-ascending list (step of `sort.Strings`). -/
def insertStr (x : String) : List String → List String
  | [] => [x]
  | y :: ys => if goStrLt y x then y :: insertStr x ys else x :: y :: ys

/-- Ascending sort of strings, modelling Go `sort.Strings`. -/
def sortStrs : List String → List String
  | [] => []
  | x :: xs => insertStr x (sortStrs xs)

/-- Ascending order, as pairwise non-strict comparison. -/
def StrSorted (l : List String) : Prop := l.Pairwise (fun a b => goStrLt b a = false)

/-! ## Association lists, modelling Go maps -/

/-- Go map read (`m[k]` with presence flag). -/
def lookupA {κ α : Type} [DecidableEq κ] : List (κ × α) → κ → Option α
  | [], _ => none
  | (k, v) :: rest, key => if k = key then some v else lookupA rest key

/-- Go map read with the zero-value default. -/
def lookupD {κ α : Type} [DecidableEq κ] (m : List (κ × α)) (key : κ) (d : α) : α :=
  (lookupA m key).getD d

/-- Go map write `m[k] = v`. -/
def insertA {κ α : Type} [DecidableEq κ] : List (κ × α) → κ → α → List (κ × α)
  | [], key, v => [(key, v)]
  | (k, w) :: rest, key, v =>
    if k = key then (key, v) :: rest else (k, w) :: insertA rest key v

/-- Go map `delete(m, k)`. -/
def removeA {κ α : Type} [DecidableEq κ] : List (κ × α) → κ → List (κ × α)
  | [], _ => []
  | (k, w) :: rest, key =>
    if k = key then removeA rest key else (k, w) :: removeA rest key

/-! ## Domain data (`domain/*.go`) -/

/-- `domain.Transaction` (the richer variant used by the hashing code). -/
structure Transaction where
  fromAddr : String
  toAddr : String
  amount : Int
  fee : Int
  nonce : Nat
  pubKey : String
  signature : String
  hash : String
  deriving DecidableEq, Repr

/-- `domain.Block`.  The ECDSA signature is abstract bytes. -/
structure Block where
  index : Nat
  prevHash : String
  slot : Nat
  tick : Nat
  validator : String
  txRoot : String
  stateRoot : String
  pohHash : String
  signature : List Nat
  hash : String
  transactions : List Transaction
  deriving DecidableEq, Repr

/-- The Go zero value of `domain.Block` (what a missed map read yields). -/
def zeroBlock : Block :=
  { index := 0, prevHash := "", slot := 0, tick := 0, validator := "", txRoot := "",
    stateRoot := "", pohHash := "", signature := [], hash := "", transactions := [] }

/-- `domain.Validator`; the ECDSA private key is an abstract handle. -/
structure Validator where
  name : String
  stake : Int
  pubKey : String
  privKey : Option Nat
  lastSlot : Nat
  deriving DecidableEq, Repr

/-- `domain.ValidatorStats`. -/
structure ValidatorStats where
  missedSlots : Nat
  jailedUntilEpoch : Nat
  slashed : Bool
  deriving DecidableEq, Repr

/-- The Go zero value of `domain.ValidatorStats`. -/
def zeroStats : ValidatorStats := { missedSlots := 0, jailedUntilEpoch := 0, slashed := false }

/-! ## Consensus constants (`consensus` package) -/

/-- `consensus.MinStake`. -/
def MinStake : Int := 10

/-- `consensus.BlockReward`. -/
def BlockReward : Int := 1

/-- `consensus.SlashPenalty`. -/
def SlashPenalty : Int := 5

/-- `consensus.SlashPercent`. -/
def SlashPercent : Int := 2

/-- `consensus.MaxMissedSlots`. -/
def MaxMissedSlots : Nat := 3

/-- `consensus.SlotsPerEpoch`. -/
def SlotsPerEpoch : Nat := 50

/-- `consensus.JailEpochs`. -/
def JailEpochs : Nat := 2

/-- `consensus.TicksPerSlot`. -/
def TicksPerSlot : Nat := 20

/-! ## Proof of history (`consensus/poh.go`) -/

/-- `consensus.PoH`: current tick plus the 32-byte chain hash. -/
structure PoH where
  currentTick : Nat
  hash : List Nat
  deriving DecidableEq, Repr

/-- `consensus.HashPoH`: `H(prev || decimal(tick))`. -/
def HashPoH (prev : List Nat) (tick : Nat) : List Nat :=
  sha256 (prev ++ strBytes (natToStr tick))

/-- `consensus.HashPoHSeed`: `H("poh|" || decimal(nonce))`. -/
def HashPoHSeed (nonce : Int) : List Nat := sha256s ("poh|" ++ intToStr nonce)

/-- `consensus.PoHHashHex`. -/
def PoHHashHex (h : List Nat) : String := bytesToHex h

/-- `consensus.ParsePoHHashHex`: hex-decode and insist on 32 bytes. -/
def ParsePoHHashHex (s : String) : Option (List Nat) :=
  match hexToBytes s with
  | none => none
  | some raw => if raw.length = 32 then some raw else none

/-- One iteration of the `PoH.Tick` loop: increment, then hash with the new tick. -/
def pohTick1 (p : PoH) : PoH :=
  let t := addU64 p.currentTick 1
  { currentTick := t, hash := HashPoH p.hash t }

/-- `PoH.Tick(n)` (the returned pair is unused by the engine). -/
def pohTick (p : PoH) : Nat → PoH
  | 0 => p
  | n + 1 => pohTick (pohTick1 p) n

/-- `PoH.Slot()`: `current_tick / TicksPerSlot`. -/
def pohSlot (p : PoH) : Nat := p.currentTick / TicksPerSlot

/-! ## Digests and roots (`consensus/crypto.go`) -/

/-- `consensus.HashBlock`: the `|`-joined block digest, hex encoded. -/
def HashBlockF (index : Nat) (prevHash : String) (slot tick : Nat)
    (validator txRoot stateRoot pohHash : String) : String :=
  bytesToHex (sha256s (natToStr index ++ "|" ++ prevHash ++ "|" ++ natToStr slot ++ "|" ++
    natToStr tick ++ "|" ++ validator ++ "|" ++ txRoot ++ "|" ++ stateRoot ++ "|" ++ pohHash))

/-- The block digest of a block value's header fields. -/
def blockDigest (b : Block) : String :=
  HashBlockF b.index b.prevHash b.slot b.tick b.validator b.txRoot b.stateRoot b.pohHash

/-- `consensus.HashTx`: the `|`-joined transaction digest bytes. -/
def HashTx (tx : Transaction) : List Nat :=
  sha256s (tx.fromAddr ++ "|" ++ tx.toAddr ++ "|" ++ intToStr tx.amount ++ "|" ++
    intToStr tx.fee ++ "|" ++ natToStr tx.nonce ++ "|" ++ tx.pubKey)

/-- `consensus.TxRoot`: `H("")` when empty, else the hash of the concatenated digests. -/
def TxRoot (txs : List Transaction) : String :=
  if txs = [] then bytesToHex (sha256 [])
  else bytesToHex (sha256 ((txs.map HashTx).flatten))

/-- Modelled from the spec: the minimal-variant state root over the
`address → balance` world state is absent from `src` (only the
`map[string]domain.Account` variant survives there), yet `core/blockchain.go`
calls it.  Per §4.2 it sorts addresses lexicographically and hashes
`address:balance|nonce;` segments, with `H("")` for the empty state; the
minimal state carries no nonces, so the nonce field is the zero value. -/
def StateRootInt (state : List (String × Int)) : String :=
  if state = [] then bytesToHex (sha256 [])
  else
    bytesToHex (sha256 (((sortStrs (state.map (fun p => p.1))).map
      (fun k => strBytes (k ++ ":" ++ intToStr (lookupD state k 0) ++ "|0;"))).flatten))

/-- `domain.AddressFromPubKey`: hex SHA-256 of the decoded public-key bytes. -/
def AddressFromPubKey (pubKeyHex : String) : Option String :=
  (hexToBytes pubKeyHex).map (fun raw => bytesToHex (sha256 raw))

/-! ## State transition (minimal variant, `ApplyTransactions`) -/

/-- The world state: `address → balance`, a Go `map[string]int`. -/
abbrev StateMap : Type := List (String × Int)

/-- The state update of one loop iteration of `consensus.ApplyTransactions`:
decrement the sender, then increment the receiver. -/
def applyStep (s : StateMap) (tx : Transaction) : StateMap :=
  let s1 := insertA s tx.fromAddr (lookupD s tx.fromAddr 0 - tx.amount)
  insertA s1 tx.toAddr (addI64 (lookupD s1 tx.toAddr 0) tx.amount)

/-- The loop body of `consensus.ApplyTransactions`, carrying the index used
in error messages.  The copied map is the running accumulator. -/
def applyGo : StateMap → List Transaction → Nat → Except String StateMap
  | next, [], _ => .ok next
  | next, tx :: rest, i =>
    if tx.amount ≤ 0 then .error ("invalid amount at index " ++ natToStr i)
    else if tx.fromAddr = "" then .error ("missing sender at index " ++ natToStr i)
    else if lookupD next tx.fromAddr 0 < tx.amount then
      .error ("insufficient balance at index " ++ natToStr i)
    else applyGo (applyStep next tx) rest (i + 1)

/-- `consensus.ApplyTransactions` (the minimal `map[string]int` variant the
core calls): copy the state, then apply each transaction in order; the
first invalid transaction aborts the whole batch. -/
def ApplyTransactions (state : StateMap) (txs : List Transaction) : Except String StateMap :=
  applyGo state txs 0

/-! ## Validator registry (`consensus` package) -/

/-- `consensus.AddValidator`.  Returns the updated registry, stats and error. -/
def AddValidatorF (validators : List (String × Validator)) (stats : List (String × ValidatorStats))
    (name : String) (stake : Int) (pubKey : String) (priv : Option Nat) :
    List (String × Validator) × List (String × ValidatorStats) × Option String :=
  if name = "" then (validators, stats, some "validator name is required")
  else if stake ≤ 0 then (validators, stats, some "stake must be positive")
  else if pubKey = "" then (validators, stats, some "validator pubkey is required")
  else
    match lookupA validators name with
    | none =>
      if stake < MinStake then (validators, stats, some "stake below minimum")
      else
        (insertA validators name
          { name := name, stake := stake, pubKey := pubKey, privKey := priv, lastSlot := 0 },
         (match lookupA stats name with
          | none => insertA stats name zeroStats
          | some _ => stats), none)
    | some v =>
      (insertA validators name
        { v with stake := addI64 v.stake stake,
                 pubKey := if v.pubKey = "" then pubKey else v.pubKey,
                 privKey := if v.privKey = none then priv else v.privKey },
       stats, none)

/-- `consensus.RewardValidator`: add `BlockReward` when the entry exists. -/
def RewardValidatorF (validators : List (String × Validator)) (name : String) :
    List (String × Validator) :=
  match lookupA validators name with
  | none => validators
  | some v => insertA validators name { v with stake := addI64 v.stake BlockReward }

/-- `consensus.SlashValidator`: subtract; delete when wiped out or below
`MinStake`. -/
def SlashValidatorF (validators : List (String × Validator)) (name : String) (amount : Int) :
    List (String × Validator) :=
  if amount ≤ 0 then validators
  else
    match lookupA validators name with
    | none => validators
    | some v =>
      if v.stake ≤ amount then removeA validators name
      else
        if v.stake - amount < MinStake then removeA validators name
        else insertA validators name { v with stake := v.stake - amount }

/-- `consensus.SlashValidatorPercent`: `max(1, stake·percent/100)` then slash. -/
def SlashValidatorPercentF (validators : List (String × Validator)) (name : String)
    (percent : Int) : List (String × Validator) :=
  if percent ≤ 0 then validators
  else
    match lookupA validators name with
    | none => validators
    | some v =>
      let amount0 := Int.tdiv (mulI64 v.stake percent) 100
      SlashValidatorF validators name (if amount0 = 0 then 1 else amount0)

/-- `consensus.IsJailed`: the slot's epoch (in `SlotsPerEpoch` units) is
before the validator's jailed-until epoch. -/
def IsJailed (stats : List (String × ValidatorStats)) (name : String) (slot : Nat) : Bool :=
  match lookupA stats name with
  | none => false
  | some s => slot / SlotsPerEpoch < s.jailedUntilEpoch

/-! ## Leader selection (`consensus` package) -/

/-- Little-endian 8-byte encoding of a `uint64` (Go `binary.LittleEndian.PutUint64`). -/
def u64le (n : Nat) : List Nat :=
  [n % 256, n / 2 ^ 8 % 256, n / 2 ^ 16 % 256, n / 2 ^ 24 % 256,
   n / 2 ^ 32 % 256, n / 2 ^ 40 % 256, n / 2 ^ 48 % 256, n / 2 ^ 56 % 256]

/-- Read the first 8 bytes of a byte list as a little-endian `uint64`. -/
def leU64 (l : List Nat) : Nat :=
  l.getD 0 0 + l.getD 1 0 * 2 ^ 8 + l.getD 2 0 * 2 ^ 16 + l.getD 3 0 * 2 ^ 24 +
  l.getD 4 0 * 2 ^ 32 + l.getD 5 0 * 2 ^ 40 + l.getD 6 0 * 2 ^ 48 + l.getD 7 0 * 2 ^ 56

/-- `consensus.deterministicDraw`: hash the little-endian slot, read a
little-endian `uint64`, reduce modulo `maxv`.  The Go `int`/`uint64`
round-trips are the identity modulo `2^64`, so the value is `n % maxv`
directly; the engine only calls this with `maxv ≠ 0` (Go would panic on 0). -/
def deterministicDraw (slot : Nat) (maxv : Nat) : Nat :=
  leU64 (sha256 (u64le slot)) % maxv

/-- `consensus.sortedStakeNames`: the map's keys in ascending string order. -/
def sortedStakeNames (stakes : List (String × Nat)) : List String :=
  sortStrs (stakes.map (fun p => p.1))

/-- The accumulation walk of `consensus.LeaderFromSnapshot`. -/
def leaderWalk (stakes : List (String × Nat)) (draw : Nat) : Nat → List String → String
  | _, [] => "genesis"
  | running, n :: rest =>
    let r := addU64 running (lookupD stakes n 0)
    if draw < r then n else leaderWalk stakes draw r rest

/-- `consensus.LeaderFromSnapshot`: stake-weighted deterministic choice from
a frozen snapshot; the sentinel `"genesis"` when the (wrapped) total is 0. -/
def LeaderFromSnapshot (slot : Nat) (stakes : List (String × Nat)) : String :=
  let total := stakes.foldl (fun acc p => addU64 acc p.2) 0
  if total = 0 then "genesis"
  else leaderWalk stakes (deterministicDraw slot total) 0 (sortedStakeNames stakes)

/-- The repo's `itoa` applied to a Go `int`: `"0"` for zero, decimal digits
for positives, and the empty string for negatives (its loop never runs). -/
def goItoa (v : Int) : String :=
  if v = 0 then "0" else if v < 0 then "" else natToStr v.toNat

/-- `itoa(int(slot))` as used in error messages: the `uint64 → int`
conversion is two's complement. -/
def slotItoa (slot : Nat) : String := goItoa (wrapI64 (slot : Int))

/-! ## Chain engine data (`core/blockchain.go`) -/

/-- `core.ChainScore`. -/
structure ChainScore where
  slot : Nat
  cumulativeWeight : Nat
  hash : String
  deriving DecidableEq, Repr

/-- The Go zero value of `ChainScore` (an unknown tip scores to this). -/
def zeroChainScore : ChainScore := { slot := 0, cumulativeWeight := 0, hash := "" }

/-- `core.ChainConfig`. -/
structure ChainConfig where
  maxReorgDepth : Int
  finalitySlots : Nat
  minReorgWeightDeltaP : Int
  epochLength : Nat
  deterministicPoH : Bool
  pohSeed : Int
  deriving DecidableEq, Repr

/-- `core.ReorgMetrics` (uint64 counters). -/
structure ReorgMetrics where
  info : Nat
  warn : Nat
  error : Nat
  critical : Nat
  deriving DecidableEq, Repr

/-- `core.EquivocationProof`. -/
structure EquivocationProof where
  slot : Nat
  validator : String
  blockA : String
  blockB : String
  deriving DecidableEq, Repr

/-- `core.EpochSnapshot`. -/
structure EpochSnapshot where
  epoch : Nat
  totalStake : Nat
  validators : List (String × Nat)
  deriving DecidableEq, Repr

/-- `core.Blockchain`: the mutable engine state. -/
structure ChainState where
  chain : List Block
  blocks : List (String × Block)
  parents : List (String × String)
  canonicalTip : String
  validators : List (String × Validator)
  stats : List (String × ValidatorStats)
  poh : Option PoH
  state : StateMap
  genesis : StateMap
  slotProduced : List (Nat × String)
  slotProducers : List (Nat × List (String × String))
  equivocations : List EquivocationProof
  lastProcessedSlot : Nat
  finalizedSlot : Nat
  config : ChainConfig
  reorgStats : ReorgMetrics
  currentEpoch : Nat
  snapshots : List (Nat × EpochSnapshot)

/-- The engine's error values: ordinary `errors.New` strings, plus the
distinguished sentinel `core.ErrEquivocation`. -/
inductive Err where
  | msg (s : String)
  | equivocation
  deriving DecidableEq, Repr

/-! ## Epoch snapshots (`epochForSlot`, `ensureSnapshot`, …) -/

/-- `Blockchain.epochForSlot`. -/
def epochForSlot (st : ChainState) (slot : Nat) : Nat :=
  if st.config.epochLength = 0 then 0 else slot / st.config.epochLength

/-- One iteration of the registry loop in `ensureSnapshot`. -/
def snapAdd (epochSlot : Nat) (stats : List (String × ValidatorStats))
    (snap : EpochSnapshot) (v : Validator) : EpochSnapshot :=
  if v.stake < MinStake then snap
  else if IsJailed stats v.name epochSlot then snap
  else
    { snap with validators := insertA snap.validators v.name (toU64 v.stake),
                totalStake := addU64 snap.totalStake (toU64 v.stake) }

/-- The snapshot `ensureSnapshot` freezes for `epoch` from the live registry. -/
def buildSnapshot (st : ChainState) (epoch : Nat) : EpochSnapshot :=
  st.validators.foldl
    (fun snap p => snapAdd (mulU64 epoch st.config.epochLength) st.stats snap p.2)
    { epoch := epoch, totalStake := 0, validators := [] }

/-- `Blockchain.ensureSnapshot`: freeze lazily, never recompute. -/
def ensureSnapshot (st : ChainState) (epoch : Nat) : ChainState :=
  match lookupA st.snapshots epoch with
  | some _ => st
  | none =>
    { st with snapshots := insertA st.snapshots epoch (buildSnapshot st epoch),
              currentEpoch := epoch }

/-- `Blockchain.ensureSnapshotForSlot`. -/
def ensureSnapshotForSlot (st : ChainState) (slot : Nat) : ChainState :=
  ensureSnapshot st (epochForSlot st slot)

/-- `Blockchain.snapshotForSlot` (ensures, then reads). -/
def snapshotForSlot (st : ChainState) (slot : Nat) : ChainState × Option EpochSnapshot :=
  let st1 := ensureSnapshot st (epochForSlot st slot)
  (st1, lookupA st1.snapshots (epochForSlot st slot))

/-- `Blockchain.snapshotStake`. -/
def getSnapshotStake (st : ChainState) (slot : Nat) (validator : String) : ChainState × Nat :=
  match snapshotForSlot st slot with
  | (st1, none) => (st1, 0)
  | (st1, some snap) => (st1, lookupD snap.validators validator 0)

/-- `Blockchain.leaderForSlot`. -/
def leaderForSlot (st : ChainState) (slot : Nat) : ChainState × String :=
  match snapshotForSlot st slot with
  | (st1, none) => (st1, "genesis")
  | (st1, some snap) => (st1, LeaderFromSnapshot slot snap.validators)

/-- `Blockchain.chainTipSlot`. -/
def chainTipSlot (st : ChainState) : Nat :=
  match st.chain.getLast? with
  | none => 0
  | some b => b.slot

/-- `Blockchain.activeStake`: the frozen total at the canonical tip's slot. -/
def activeStake (st : ChainState) : ChainState × Nat :=
  match snapshotForSlot st (chainTipSlot st) with
  | (st1, none) => (st1, 0)
  | (st1, some snap) => (st1, snap.totalStake)

/-! ## Fork choice (`scoreTip`, `betterScore`, reorg guard) -/

/-- The ancestry walk of `Blockchain.scoreTip`, fuelled by the DAG size. -/
def scoreWalk : Nat → ChainState → Block → Nat → ChainState × Nat
  | 0, st, _, acc => (st, acc)
  | fuel + 1, st, cur, acc =>
    match getSnapshotStake st cur.slot cur.validator with
    | (st1, s) =>
      let acc1 := addU64 acc s
      if cur.prevHash = "GENESIS" then (st1, acc1)
      else
        match lookupA st1.blocks cur.prevHash with
        | none => (st1, acc1)
        | some parent => scoreWalk fuel st1 parent acc1

/-- `Blockchain.scoreTip`. -/
def scoreTip (st : ChainState) (tipHash : String) : ChainState × ChainScore :=
  match lookupA st.blocks tipHash with
  | none => (st, zeroChainScore)
  | some b =>
    match scoreWalk (st.blocks.length + 1) st b 0 with
    | (st1, w) => (st1, { slot := b.slot, cumulativeWeight := w, hash := b.hash })

/-- `core.betterScore`: weight desc, then slot desc, then hash asc. -/
def betterScore (a b : ChainScore) : Bool :=
  if a.cumulativeWeight ≠ b.cumulativeWeight then decide (b.cumulativeWeight < a.cumulativeWeight)
  else if a.slot ≠ b.slot then decide (b.slot < a.slot)
  else goStrLt a.hash b.hash

/-- `Blockchain.weightDeltaSatisfied`. -/
def weightDeltaSatisfied (st : ChainState) (oldWeight newWeight : Nat) : ChainState × Bool :=
  if st.config.minReorgWeightDeltaP ≤ 0 then (st, true)
  else if newWeight ≤ oldWeight then (st, false)
  else
    match activeStake st with
    | (st1, active) =>
      let minDelta0 := mulU64 active (toU64 st.config.minReorgWeightDeltaP) / 100
      let minDelta := if minDelta0 = 0 then 1 else minDelta0
      (st1, decide (addU64 oldWeight minDelta ≤ newWeight))

/-- `Blockchain.weightDeltaRequired` (used only for the rejection log line,
but it touches the snapshot map, so it is threaded faithfully). -/
def weightDeltaRequired (st : ChainState) (oldWeight newWeight : Nat) :
    ChainState × Nat × Nat :=
  match activeStake st with
  | (st1, active) =>
    let minDelta0 := mulU64 active (toU64 st.config.minReorgWeightDeltaP) / 100
    let minDelta := if minDelta0 = 0 then 1 else minDelta0
    (st1, minDelta, if oldWeight < newWeight then newWeight - oldWeight else 0)

/-- The tip-to-genesis walk of `Blockchain.chainFromTip`; `none` models the
Go error (missing block) and, conservatively, the divergence of the Go loop
on a cyclic parent graph. -/
def chainWalk : Nat → ChainState → String → List Block → Option (List Block)
  | 0, _, _, _ => none
  | fuel + 1, st, curHash, acc =>
    match lookupA st.blocks curHash with
    | none => none
    | some cur =>
      if cur.prevHash = "GENESIS" then some (cur :: acc)
      else chainWalk fuel st cur.prevHash (cur :: acc)

/-- `Blockchain.chainFromTip`: the root-first chain below a tip. -/
def chainFromTip (st : ChainState) (tipHash : String) : Option (List Block) :=
  if tipHash = "" then none else chainWalk (st.blocks.length + 1) st tipHash []

/-- The first index at which two chains disagree on hashes (`min` length if
they never do within the common prefix). -/
def findDiverge : List Block → List Block → Nat
  | a :: as, b :: bs => if a.hash = b.hash then findDiverge as bs + 1 else 0
  | _, _ => 0

/-- `core.computeReorgDepthAndSlot`. -/
def computeReorgDepthAndSlot (oldChain newChain : List Block) : Nat × Nat :=
  let diverge := findDiverge oldChain newChain
  (oldChain.length - diverge,
   if diverge < oldChain.length then (oldChain.getD diverge zeroBlock).slot
   else if diverge < newChain.length then (newChain.getD diverge zeroBlock).slot
   else 0)

/-! ## Canonical rebuild and finality -/

/-- The walk of `Blockchain.rebuildCanonicalChain` (silently stops at a
missing parent, unlike `chainFromTip`). -/
def rebuildWalk : Nat → ChainState → String → List Block → List Block
  | 0, _, _, acc => acc
  | fuel + 1, st, curHash, acc =>
    match lookupA st.blocks curHash with
    | none => acc
    | some cur =>
      if cur.prevHash = "GENESIS" then cur :: acc
      else rebuildWalk fuel st cur.prevHash (cur :: acc)

/-- `Blockchain.rebuildSlotMap`: per-slot producers of the canonical chain
past genesis. -/
def rebuildSlotMap (st : ChainState) : ChainState :=
  { st with slotProduced :=
      (st.chain.drop 1).foldl (fun m b => insertA m b.slot b.validator) [] }

/-- Replay block transactions over a state, propagating the first error. -/
def replayTxs : StateMap → List Block → Except String StateMap
  | s, [] => .ok s
  | s, b :: rest =>
    match ApplyTransactions s b.transactions with
    | .error e => .error e
    | .ok s' => replayTxs s' rest

/-- `Blockchain.rebuildStateFromCanonical`: replay from `Genesis`; on any
apply error the world state is left untouched. -/
def rebuildStateFromCanonical (st : ChainState) : ChainState :=
  match replayTxs st.genesis (st.chain.drop 1) with
  | .error _ => st
  | .ok s => { st with state := s }

/-- `Blockchain.rebuildCanonicalChain`. -/
def rebuildCanonicalChain (st : ChainState) : ChainState :=
  if st.canonicalTip = "" then { st with chain := [] }
  else
    rebuildStateFromCanonical (rebuildSlotMap
      { st with chain := rebuildWalk (st.blocks.length + 1) st st.canonicalTip [] })

/-- `Blockchain.updateFinality`: raise `finalized_slot` to
`tip_slot - FinalitySlots` when that is larger. -/
def updateFinality (st : ChainState) : ChainState :=
  let tipSlot := chainTipSlot st
  if tipSlot < st.config.finalitySlots then st
  else
    let finalized := tipSlot - st.config.finalitySlots
    if st.finalizedSlot < finalized then { st with finalizedSlot := finalized } else st

/-- `Blockchain.updateCanonical`: fork choice plus the reorg guard.  Returns
whether the tip moved. -/
def updateCanonical (st : ChainState) (tipHash : String) : ChainState × Bool :=
  if st.canonicalTip = "" then
    (updateFinality (rebuildCanonicalChain { st with canonicalTip := tipHash }), true)
  else
    match scoreTip st st.canonicalTip with
    | (st1, currentScore) =>
      match scoreTip st1 tipHash with
      | (st2, newScore) =>
        if betterScore newScore currentScore then
          match chainFromTip st2 tipHash with
          | none => (st2, false)
          | some newChain =>
            let rd := computeReorgDepthAndSlot st2.chain newChain
            if 0 < st2.finalizedSlot ∧ rd.2 ≤ st2.finalizedSlot then
              ({ st2 with reorgStats :=
                  { st2.reorgStats with critical := addU64 st2.reorgStats.critical 1 } }, false)
            else if st2.config.maxReorgDepth < (rd.1 : Int) then
              ({ st2 with reorgStats :=
                  { st2.reorgStats with error := addU64 st2.reorgStats.error 1 } }, false)
            else
              match weightDeltaSatisfied st2 currentScore.cumulativeWeight
                  newScore.cumulativeWeight with
              | (st3, ok) =>
                if ok then
                  let st4 :=
                    if 0 < rd.1 then
                      if 1 < rd.1 then
                        { st3 with reorgStats :=
                            { st3.reorgStats with warn := addU64 st3.reorgStats.warn 1 } }
                      else
                        { st3 with reorgStats :=
                            { st3.reorgStats with info := addU64 st3.reorgStats.info 1 } }
                    else st3
                  (updateFinality (rebuildStateFromCanonical (rebuildSlotMap
                    { st4 with canonicalTip := tipHash, chain := newChain })), true)
                else
                  match weightDeltaRequired st3 currentScore.cumulativeWeight
                      newScore.cumulativeWeight with
                  | (st4, _, _) =>
                    ({ st4 with reorgStats :=
                        { st4.reorgStats with error := addU64 st4.reorgStats.error 1 } }, false)
        else (st2, false)

/-! ## Insertion, equivocation, missed slots -/

/-- `Blockchain.insertBlock`. -/
def insertBlockF (st : ChainState) (block : Block) : ChainState :=
  { st with blocks := insertA st.blocks block.hash block,
            parents := insertA st.parents block.hash block.prevHash }

/-- `Blockchain.handleEquivocation`: record the proof, mark and slash the
validator, jail it. -/
def handleEquivocation (st : ChainState) (validator : String) (slot : Nat)
    (h1 h2 : String) : ChainState :=
  let s0 := lookupD st.stats validator zeroStats
  { st with
      equivocations := st.equivocations ++
        [{ slot := slot, validator := validator, blockA := h1, blockB := h2 }],
      stats := insertA st.stats validator
        { s0 with slashed := true,
                  jailedUntilEpoch := addU64 (slot / SlotsPerEpoch) JailEpochs },
      validators := SlashValidatorPercentF st.validators validator SlashPercent }

/-- `Blockchain.registerSlotProducer`: detect a second distinct block by the
same producer in the same slot. -/
def registerSlotProducer (st : ChainState) (block : Block) : ChainState × Option Err :=
  let slotMap := lookupD st.slotProducers block.slot []
  match lookupA slotMap block.validator with
  | some existing =>
    if existing ≠ block.hash then
      (handleEquivocation st block.validator block.slot existing block.hash,
       some .equivocation)
    else
      ({ st with slotProducers :=
          insertA st.slotProducers block.slot (insertA slotMap block.validator block.hash) },
       none)
  | none =>
    ({ st with slotProducers :=
        insertA st.slotProducers block.slot (insertA slotMap block.validator block.hash) },
     none)

/-- One slot of `Blockchain.processMissedSlots`. -/
def missedStep (st : ChainState) (slot : Nat) : ChainState :=
  match leaderForSlot st slot with
  | (st1, leader) =>
    if leader = "genesis" then st1
    else if lookupD st1.slotProduced slot "" ≠ leader then
      let s0 := lookupD st1.stats leader zeroStats
      let s1 := { s0 with missedSlots := addU64 s0.missedSlots 1 }
      if MaxMissedSlots < s1.missedSlots then
        { st1 with
            validators := SlashValidatorPercentF st1.validators leader SlashPercent,
            stats := insertA st1.stats leader
              { s1 with missedSlots := 0,
                        jailedUntilEpoch := addU64 (slot / SlotsPerEpoch) JailEpochs } }
      else { st1 with stats := insertA st1.stats leader s1 }
    else st1

/-- `Blockchain.processMissedSlots`. -/
def processMissedSlots (st : ChainState) (targetSlot : Nat) : ChainState :=
  if targetSlot ≤ st.lastProcessedSlot then st
  else
    { (List.range' (st.lastProcessedSlot + 1) (targetSlot - st.lastProcessedSlot)).foldl
        missedStep st with lastProcessedSlot := targetSlot }

/-! ## ECDSA oracles

`crypto/ecdsa` signing draws a fresh nonce from `crypto/rand`, so the DER
signature bytes are not a function of the message and key; verification is a
deterministic library routine.  Both are modelled as oracles; the concrete
Go implementation is one instantiation.  Hashes, hex, digests and roots stay
concrete. -/

/-- The signing side: `ecdsa.SignASN1(rand.Reader, priv, digest)`.  The
entropy consumed from `rand.Reader` is inside the oracle, which is why two
runs may carry different signing oracles. -/
structure SignOracle where
  sign : Nat → String → Except String (List Nat)

/-- The deterministic verification side: curve-point validity of an encoded
public key, `ecdsa.VerifyASN1` over a transaction digest, and
`ecdsa.VerifyASN1` over a block digest. -/
structure VerOracle where
  pubOk : String → Bool
  verifyTx : Transaction → Bool
  verifyBlockSig : String → String → List Nat → Bool

/-- `consensus.VerifyTransactionSignature` succeeds: all concrete checks
(presence, hex decodings, address derivation, recomputed digest) plus the
oracle checks (curve membership, ECDSA verify). -/
def txSigOk (V : VerOracle) (tx : Transaction) : Bool :=
  decide (tx.pubKey ≠ "") && decide (tx.signature ≠ "") &&
  (hexToBytes tx.pubKey).isSome && V.pubOk tx.pubKey &&
  decide (AddressFromPubKey tx.pubKey = some tx.fromAddr) &&
  (hexToBytes tx.signature).isSome &&
  decide (tx.hash ≠ "") && decide (tx.hash = bytesToHex (HashTx tx)) &&
  V.verifyTx tx

/-- The indexed loop of `consensus.VerifyTransactions`. -/
def verifyTransactionsAt (V : VerOracle) : List Transaction → Nat → Option Err
  | [], _ => none
  | tx :: rest, i =>
    if txSigOk V tx then verifyTransactionsAt V rest (i + 1)
    else some (.msg ("invalid transaction signature at index " ++ natToStr i))

/-- `consensus.VerifyTransactions`. -/
def VerifyTransactionsF (V : VerOracle) (txs : List Transaction) : Option Err :=
  verifyTransactionsAt V txs 0

/-- `consensus.VerifyBlockSignature`.  The two hex-library error strings are
modelled by fixed stand-in messages (their exact text comes from
`encoding/hex`, not from this repository). -/
def verifyBlockSignatureF (V : VerOracle) (block : Block) (pubKeyHex : String) : Option Err :=
  if pubKeyHex = "" then some (.msg "missing validator pubkey")
  else if (hexToBytes pubKeyHex).isNone then some (.msg "invalid validator pubkey hex")
  else if !V.pubOk pubKeyHex then some (.msg "invalid validator pubkey")
  else if block.signature = [] then some (.msg "missing block signature")
  else if !V.verifyBlockSig pubKeyHex (blockDigest block) block.signature then
    some (.msg "invalid block signature")
  else if block.hash ≠ blockDigest block then some (.msg "invalid block hash")
  else none

/-- `Blockchain.verifyBlockOnAccept`, threading the snapshot-map effect of
its `snapshotForSlot` call. -/
def verifyBlockOnAccept (V : VerOracle) (st : ChainState) (prev block : Block)
    (state : StateMap) : ChainState × Option Err :=
  if block.prevHash ≠ prev.hash then (st, some (.msg "invalid prev hash for block"))
  else
    match snapshotForSlot st block.slot with
    | (st1, none) => (st1, some (.msg "missing epoch snapshot for block"))
    | (st1, some snap) =>
      if LeaderFromSnapshot block.slot snap.validators ≠ block.validator then
        (st1, some (.msg ("wrong leader at slot " ++ slotItoa block.slot)))
      else
        match VerifyTransactionsF V block.transactions with
        | some e => (st1, some e)
        | none =>
          if TxRoot block.transactions ≠ block.txRoot then
            (st1, some (.msg "invalid tx root for block"))
          else
            match ApplyTransactions state block.transactions with
            | .error e => (st1, some (.msg e))
            | .ok nextState =>
              if StateRootInt nextState ≠ block.stateRoot then
                (st1, some (.msg "invalid state root for block"))
              else
                match lookupA st1.validators block.validator with
                | none => (st1, some (.msg "unknown validator for block"))
                | some v =>
                  match verifyBlockSignatureF V block v.pubKey with
                  | some e => (st1, some e)
                  | none => (st1, none)

/-! ## The production pipeline (`AddBlock`, `AddBlockExternal`) -/

/-- The fixed-penalty slash every production-time validation failure applies
to the drawn leader. -/
def slashLeader (st : ChainState) (validator : String) : ChainState :=
  { st with validators := SlashValidatorF st.validators validator SlashPenalty }

/-- The identical closing lines of `AddBlock` and `AddBlockExternal`:
register the producer (equivocation check), insert, re-run fork choice,
reward, process missed slots, and return the equivocation error if any. -/
def acceptAndFinalize (st : ChainState) (block : Block) (validator : String) :
    ChainState × Option Err :=
  match registerSlotProducer st block with
  | (st1, eqErr) =>
    match updateCanonical (insertBlockF st1 block) block.hash with
    | (st3, _) =>
      let st4 := { st3 with validators := RewardValidatorF st3.validators validator }
      (processMissedSlots st4 (chainTipSlot st4), eqErr)

/-- `Blockchain.AddBlock` after its guards and the PoH advance `p1`. -/
def addBlockCore (V : VerOracle) (S : SignOracle) (st : ChainState) (p1 : PoH)
    (txs : List Transaction) : ChainState × Option Err :=
  let prev := lookupD st.blocks st.canonicalTip zeroBlock
  let slot := pohSlot p1
  let st2 := ensureSnapshotForSlot { st with poh := some p1 } slot
  match leaderForSlot st2 slot with
      | (st3, validator) =>
        match VerifyTransactionsF V txs with
        | some e => (slashLeader st3 validator, some e)
        | none =>
          match ApplyTransactions st3.state txs with
          | .error e => (slashLeader st3 validator, some (.msg e))
          | .ok nextState =>
            let block0 : Block :=
              { index := addU64 prev.index 1, prevHash := prev.hash, slot := slot,
                tick := p1.currentTick, validator := validator, txRoot := TxRoot txs,
                stateRoot := StateRootInt nextState, pohHash := PoHHashHex p1.hash,
                signature := [], hash := "", transactions := txs }
            match lookupA st3.validators validator with
            | none => (slashLeader st3 validator, some (.msg "missing validator signing key"))
            | some v =>
              match v.privKey with
              | none => (slashLeader st3 validator, some (.msg "missing validator signing key"))
              | some k =>
                match S.sign k (blockDigest block0) with
                | .error e => (slashLeader st3 validator, some (.msg e))
                | .ok sig =>
                  let block := { block0 with signature := sig, hash := blockDigest block0 }
                  match verifyBlockOnAccept V st3 prev block st3.state with
                  | (st4, some e) => (slashLeader st4 validator, some e)
                  | (st4, none) => acceptAndFinalize st4 block validator

/-- `Blockchain.AddBlock`: produce and accept one block on the canonical
tip. -/
def AddBlock (V : VerOracle) (S : SignOracle) (st : ChainState)
    (txs : List Transaction) : ChainState × Option Err :=
  if st.validators = [] then (st, some (.msg "no validators available"))
  else
    match st.poh with
    | none => (st, some (.msg "poh not initialized"))
    | some p => addBlockCore V S st (pohTick p TicksPerSlot) txs

/-- `Blockchain.stateAtTip`: replay the chain below a tip from `Genesis`. -/
def stateAtTip (st : ChainState) (tipHash : String) : Except String StateMap :=
  if tipHash = "" then .error "empty tip hash"
  else
    match chainWalk (st.blocks.length + 1) st tipHash [] with
    | none => .error "missing block in chain"
    | some chain => replayTxs st.genesis (chain.drop 1)

/-- `Blockchain.AddBlockExternal` after its guards, the parent lookup and
the PoH advance `p1`. -/
def addBlockExtCore (V : VerOracle) (S : SignOracle) (st : ChainState)
    (prevHash : String) (parent : Block) (p1 : PoH) (txs : List Transaction) :
    ChainState × String × Option Err :=
  let slot := pohSlot p1
  let st2 := ensureSnapshotForSlot { st with poh := some p1 } slot
  match leaderForSlot st2 slot with
        | (st3, validator) =>
          match VerifyTransactionsF V txs with
          | some e => (slashLeader st3 validator, "", some e)
          | none =>
            match stateAtTip st3 prevHash with
            | .error e => (st3, "", some (.msg e))
            | .ok parentState =>
              match ApplyTransactions parentState txs with
              | .error e => (slashLeader st3 validator, "", some (.msg e))
              | .ok nextState =>
                let block0 : Block :=
                  { index := addU64 parent.index 1, prevHash := parent.hash, slot := slot,
                    tick := p1.currentTick, validator := validator, txRoot := TxRoot txs,
                    stateRoot := StateRootInt nextState, pohHash := PoHHashHex p1.hash,
                    signature := [], hash := "", transactions := txs }
                match lookupA st3.validators validator with
                | none =>
                  (slashLeader st3 validator, "", some (.msg "missing validator signing key"))
                | some v =>
                  match v.privKey with
                  | none =>
                    (slashLeader st3 validator, "", some (.msg "missing validator signing key"))
                  | some k =>
                    match S.sign k (blockDigest block0) with
                    | .error e => (slashLeader st3 validator, "", some (.msg e))
                    | .ok sig =>
                      let block := { block0 with signature := sig, hash := blockDigest block0 }
                      match verifyBlockOnAccept V st3 parent block parentState with
                      | (st4, some e) => (slashLeader st4 validator, "", some e)
                      | (st4, none) =>
                        match acceptAndFinalize st4 block validator with
                        | (st5, eqErr) => (st5, block.hash, eqErr)

/-- `Blockchain.AddBlockExternal`: same pipeline, parent chosen by hash and
pre-state replayed to that parent.  Returns the new block's hash (`""` on
failure) plus the error. -/
def AddBlockExternal (V : VerOracle) (S : SignOracle) (st : ChainState)
    (prevHash : String) (txs : List Transaction) : ChainState × String × Option Err :=
  if st.validators = [] then (st, "", some (.msg "no validators available"))
  else
    match st.poh with
    | none => (st, "", some (.msg "poh not initialized"))
    | some p =>
      match lookupA st.blocks prevHash with
      | none => (st, "", some (.msg "unknown parent hash"))
      | some parent => addBlockExtCore V S st prevHash parent (pohTick p TicksPerSlot) txs

/-! ## Construction and the remaining mutators -/

/-- `core.NewBlockchain`'s config defaulting. -/
def defaultConfig (cfg : ChainConfig) : ChainConfig :=
  let c1 := if cfg.maxReorgDepth = 0 then { cfg with maxReorgDepth := 2 } else cfg
  let c2 := if c1.finalitySlots = 0 then { c1 with finalitySlots := 2 } else c1
  if c2.epochLength = 0 then { c2 with epochLength := SlotsPerEpoch } else c2

/-- `Blockchain.createGenesisBlock`, given the `math/rand` draw `rand0`. -/
def createGenesisBlock (rand0 : Int) : Block :=
  let g0 : Block :=
    { index := 0, prevHash := "GENESIS", slot := 0, tick := 0, validator := "genesis",
      txRoot := TxRoot [], stateRoot := StateRootInt [],
      pohHash := PoHHashHex (HashPoHSeed rand0), signature := [], hash := "",
      transactions := [] }
  { g0 with hash := blockDigest g0 }

/-- `core.NewBlockchain`.  `R` is the pure function behind
`rand.New(rand.NewSource(seed)).Int63()` — a fixed pseudo-random generator
shared by every run — and `clockNano` the wall clock used only when
deterministic PoH is off. -/
def newBlockchain (R : Int → Int) (cfg : ChainConfig) (clockNano : Option Int) : ChainState :=
  let cfg' := defaultConfig cfg
  let seed : Int :=
    if cfg'.deterministicPoH then cfg'.pohSeed
    else match clockNano with
      | some t => t
      | none => 0
  let genesis := createGenesisBlock (R seed)
  let pohSeed :=
    match ParsePoHHashHex genesis.pohHash with
    | some b => b
    | none => List.replicate 32 0
  let st0 : ChainState :=
    { chain := [], blocks := [], parents := [], canonicalTip := "", validators := [],
      stats := [], poh := some { currentTick := 0, hash := pohSeed }, state := [],
      genesis := [], slotProduced := [], slotProducers := [], equivocations := [],
      lastProcessedSlot := 0, finalizedSlot := 0, config := cfg',
      reorgStats := { info := 0, warn := 0, error := 0, critical := 0 },
      currentEpoch := 0, snapshots := [] }
  updateFinality (rebuildCanonicalChain
    { insertBlockF st0 genesis with canonicalTip := genesis.hash })

/-- `Blockchain.SetBalance`. -/
def setBalance (st : ChainState) (address : String) (amount : Int) : ChainState :=
  if amount < 0 then st
  else
    let st1 := { st with state := insertA st.state address amount }
    if st1.chain.length ≤ 1 then { st1 with genesis := insertA st1.genesis address amount }
    else st1

/-- `Blockchain.AddValidator`. -/
def addValidatorB (st : ChainState) (name : String) (stake : Int) (pubKey : String)
    (priv : Option Nat) : ChainState × Option String :=
  match AddValidatorF st.validators st.stats name stake pubKey priv with
  | (vs, ss, e) => ({ st with validators := vs, stats := ss }, e)

/-- The chain states reachable through the engine's mutating operations,
quantified over the ECDSA oracles and all inputs. -/
inductive Reach : ChainState → Prop
  | init (R : Int → Int) (cfg : ChainConfig) (clockNano : Option Int) :
      Reach (newBlockchain R cfg clockNano)
  | addValidator {st} (name : String) (stake : Int) (pubKey : String) (priv : Option Nat) :
      Reach st → Reach (addValidatorB st name stake pubKey priv).1
  | setBal {st} (address : String) (amount : Int) :
      Reach st → Reach (setBalance st address amount)
  | addBlock {st} (V : VerOracle) (S : SignOracle) (txs : List Transaction) :
      Reach st → Reach (AddBlock V S st txs).1
  | addBlockExternal {st} (V : VerOracle) (S : SignOracle) (prevHash : String)
      (txs : List Transaction) :
      Reach st → Reach (AddBlockExternal V S st prevHash txs).1

deriving instance DecidableEq for Except

/-! ## C7: the state-transition function -/

/-- The claim's per-transaction rejection condition: non-positive amount,
empty sender, or insufficient running balance. -/
def txBad (s : StateMap) (tx : Transaction) : Prop :=
  tx.amount ≤ 0 ∨ tx.fromAddr = "" ∨ lookupD s tx.fromAddr 0 < tx.amount

instance (s : StateMap) (tx : Transaction) : Decidable (txBad s tx) := by
  unfold txBad; infer_instance

/-- The claim's failure condition: processing the transactions in order,
some transaction is rejected against the running balances. -/
def ApplyFails : StateMap → List Transaction → Prop
  | _, [] => False
  | s, tx :: rest => txBad s tx ∨ (¬ txBad s tx ∧ ApplyFails (applyStep s tx) rest)

instance instDecApplyFails : (s : StateMap) → (txs : List Transaction) →
    Decidable (ApplyFails s txs)
  | _, [] => isFalse (fun h => h)
  | s, tx :: rest =>
    have : Decidable (ApplyFails (applyStep s tx) rest) := instDecApplyFails _ rest
    inferInstanceAs (Decidable (_ ∨ _))

/-- The claim's success result: the input state with each transaction, in
order, debiting the sender and crediting the receiver. -/
def applyFold (s : StateMap) (txs : List Transaction) : StateMap :=
  txs.foldl applyStep s

/-- A small unsigned test transaction from `"a"` to `"b"`. -/
def txAB (amt : Int) : Transaction :=
  { fromAddr := "a", toAddr := "b", amount := amt, fee := 0, nonce := 0, pubKey := "",
    signature := "", hash := "" }


/-! ## C4 support: leader-selection specification -/

/-- The draw `LeaderFromSnapshot` uses: the deterministic draw modulo the
wrapped stake total. -/
def drawOf (slot : Nat) (stakes : List (String × Nat)) : Nat :=
  deterministicDraw slot (stakes.foldl (fun a p => addU64 a p.2) 0)

/-- Running (uint64-wrapped) cumulative stakes along a name list. -/
def prefixSums (stakes : List (String × Nat)) : List String → Nat → List (String × Nat)
  | [], _ => []
  | n :: rest, acc =>
    (n, addU64 acc (lookupD stakes n 0)) ::
      prefixSums stakes rest (addU64 acc (lookupD stakes n 0))

/-- The claim's description of the non-zero-total case, amended to uint64
arithmetic: the first validator name in lexicographic order at which the
running cumulative stake strictly exceeds the draw. -/
def leaderSpec (slot : Nat) (stakes : List (String × Nat)) : Option String :=
  ((prefixSums stakes (sortedStakeNames stakes) 0).find?
      (fun q => decide (drawOf slot stakes < q.2))).map (fun q => q.1)

/-- Running cumulative stakes in unbounded arithmetic (the claim's literal
reading, with no uint64 wrap). -/
def prefixSumsPlain (stakes : List (String × Nat)) : List String → Nat → List (String × Nat)
  | [], _ => []
  | n :: rest, acc =>
    (n, acc + lookupD stakes n 0) :: prefixSumsPlain stakes rest (acc + lookupD stakes n 0)

/-- The leader rule exactly as the claim states it, in unbounded integer
arithmetic: sentinel iff the plain sum of stakes is zero, otherwise the
first name in lexicographic order whose plain cumulative stake exceeds
`u64(H(le64(slot))) mod total`. -/
def leaderClaimPlain (slot : Nat) (stakes : List (String × Nat)) : String :=
  let total := (stakes.map (fun p => p.2)).sum
  if total = 0 then "genesis"
  else
    match (prefixSumsPlain stakes (sortedStakeNames stakes) 0).find?
        (fun q => decide (leU64 (sha256 (u64le slot)) % total < q.2)) with
    | some q => q.1
    | none => "genesis"

/-- Two stakes of `2^63` each: their uint64 sum wraps to zero. -/
def wrapStakes : List (String × Nat) :=
  [("a", 9223372036854775808), ("b", 9223372036854775808)]

/-! ## Snapshot evolution relations -/

/-- Stored snapshots survive into a later state (the engine never rewrites
an existing epoch's snapshot). -/
def snapsPreserved (st st' : ChainState) : Prop :=
  ∀ e s, lookupA st.snapshots e = some s → lookupA st'.snapshots e = some s

/-- The effect of the `ensureSnapshot` family: only the snapshot map and the
current-epoch marker move, and every new snapshot is the one frozen from the
starting state's registry. -/
def EnsureEvolve (st st' : ChainState) : Prop :=
  (∃ sn ce, st' = { st with snapshots := sn, currentEpoch := ce }) ∧
    ∀ e, lookupA st'.snapshots e = lookupA st.snapshots e ∨
      (lookupA st.snapshots e = none ∧
        lookupA st'.snapshots e = some (buildSnapshot st e))

/-! ## C5 support: snapshot membership -/

/-- The eligibility test of the `ensureSnapshot` loop: enough stake and not
jailed at the epoch's first slot. -/
def snapEligible (st : ChainState) (epoch : Nat) (v : Validator) : Bool :=
  decide (MinStake ≤ v.stake) &&
    !IsJailed st.stats v.name (mulU64 epoch st.config.epochLength)

/-- The registry entries `ensureSnapshot` would include for an epoch. -/
def eligVals (st : ChainState) (epoch : Nat) : List Validator :=
  (st.validators.map (fun p => p.2)).filter (snapEligible st epoch)

/-- An all-empty engine state with the test configuration (deterministic
PoH, defaults as in the repo's tests), used to build concrete states. -/
def testConfig : ChainConfig :=
  { maxReorgDepth := 2, finalitySlots := 2, minReorgWeightDeltaP := 10,
    epochLength := 50, deterministicPoH := true, pohSeed := 1 }

/-- A blank chain state (not reachable; a scaffold for concrete witnesses). -/
def baseState : ChainState :=
  { chain := [], blocks := [], parents := [], canonicalTip := "", validators := [],
    stats := [], poh := none, state := [], genesis := [], slotProduced := [],
    slotProducers := [], equivocations := [], lastProcessedSlot := 0, finalizedSlot := 0,
    config := testConfig, reorgStats := { info := 0, warn := 0, error := 0, critical := 0 },
    currentEpoch := 0, snapshots := [] }

/-- A validator record for concrete states. -/
def mkValidator (name : String) (stake : Int) (priv : Option Nat) : Validator :=
  { name := name, stake := stake, pubKey := "aa", privKey := priv, lastSlot := 0 }

/-- A state with `EpochLength = 100` and one validator jailed until epoch 2:
the claim's jail test and the code's disagree on it at epoch 1. -/
def stJail : ChainState :=
  { baseState with
      config := { testConfig with epochLength := 100 },
      validators := [("v", mkValidator "v" 10 none)],
      stats := [("v", { missedSlots := 0, jailedUntilEpoch := 2, slashed := false })] }

/-- A one-block chain used as a concrete fork-choice input. -/
def blkC1 : Block :=
  { index := 1, prevHash := "", slot := 1, tick := 20, validator := "v", txRoot := "",
    stateRoot := "", pohHash := "", signature := [], hash := "ha", transactions := [] }

/-- A state with a nonempty canonical tip for concrete fork-choice runs. -/
def stC1 : ChainState :=
  { baseState with
      canonicalTip := "ha",
      chain := [blkC1],
      blocks := [("ha", blkC1)],
      parents := [("ha", "")] }

/-- Blocks of a two-branch DAG where the longer branch wins a reorg. -/
def blkA1 : Block :=
  { index := 1, prevHash := "GENESIS", slot := 1, tick := 20, validator := "v", txRoot := "",
    stateRoot := "", pohHash := "", signature := [], hash := "a1", transactions := [] }

def blkB1 : Block :=
  { index := 1, prevHash := "GENESIS", slot := 2, tick := 40, validator := "v", txRoot := "",
    stateRoot := "", pohHash := "", signature := [], hash := "b1", transactions := [] }

def blkB2 : Block :=
  { index := 2, prevHash := "b1", slot := 3, tick := 60, validator := "v", txRoot := "",
    stateRoot := "", pohHash := "", signature := [], hash := "b2", transactions := [] }

/-- A state whose canonical one-block chain loses to a two-block branch:
`updateCanonical` accepts the reorg through the weight-delta guard. -/
def stC3 : ChainState :=
  { baseState with
      canonicalTip := "a1",
      chain := [blkA1],
      blocks := [("a1", blkA1), ("b1", blkB1), ("b2", blkB2)],
      parents := [("a1", "GENESIS"), ("b1", "GENESIS"), ("b2", "b1")],
      validators := [("v", mkValidator "v" 100 none)],
      stats := [("v", zeroStats)] }

/-- The result state leaves the PoH register exactly as in `st`. -/
def pohKept (st st' : ChainState) : Prop := st'.poh = st.poh

/-- An oracle pair that accepts everything (one possible ECDSA behaviour). -/
def okVer : VerOracle :=
  { pubOk := fun _ => true, verifyTx := fun _ => true, verifyBlockSig := fun _ _ _ => true }

def okSign : SignOracle := { sign := fun _ _ => .ok [1] }

/-- A concrete PoH register. -/
def pohW : PoH := { currentTick := 0, hash := [] }

/-- A state that passes the `AddBlock` entry guards. -/
def stC10 : ChainState :=
  { baseState with validators := [("v", mkValidator "v" 100 none)], poh := some pohW }

/-- The result state keeps the block DAG, the equivocation log and the stats
map of `st`. -/
def obsKept (st st' : ChainState) : Prop :=
  st'.blocks = st.blocks ∧ st'.equivocations = st.equivocations ∧ st'.stats = st.stats

/-- A block whose producer already signed a different hash in its slot. -/
def blkC6 : Block :=
  { index := 2, prevHash := "ha", slot := 1, tick := 40, validator := "v", txRoot := "",
    stateRoot := "", pohHash := "", signature := [], hash := "hy", transactions := [] }

/-- A state that already recorded `"v"` as producer of slot 1 with hash
`"hx"`. -/
def stC6 : ChainState :=
  { baseState with
      slotProducers := [(1, [("v", "hx")])],
      validators := [("v", mkValidator "v" 100 none)],
      stats := [("v", zeroStats)] }

/-- The PoH register after each of the 20 ticks of one slot from `pohW`
(staging literals for the concrete run below). -/
def pohT1 : PoH := { currentTick := 1, hash := [107, 134, 178, 115, 255, 52, 252, 225, 157, 107, 128, 78, 255, 90, 63, 87, 71, 173, 164, 234, 162, 47, 29, 73, 192, 30, 82, 221, 183, 135, 91, 75] }

def pohT2 : PoH := { currentTick := 2, hash := [162, 153, 114, 218, 104, 217, 48, 243, 189, 64, 250, 156, 21, 1, 55, 199, 128, 207, 85, 244, 215, 24, 115, 53, 169, 244, 185, 4, 55, 54, 240, 42] }

def pohT3 : PoH := { currentTick := 3, hash := [159, 105, 218, 46, 148, 117, 237, 164, 28, 143, 61, 43, 38, 75, 133, 46, 235, 10, 224, 121, 103, 73, 225, 110, 155, 16, 206, 134, 39, 144, 57, 113] }

def pohT4 : PoH := { currentTick := 4, hash := [135, 192, 150, 146, 185, 103, 168, 104, 17, 123, 82, 99, 101, 233, 27, 135, 118, 204, 192, 190, 85, 253, 14, 134, 191, 40, 222, 170, 134, 97, 159, 67] }

def pohT5 : PoH := { currentTick := 5, hash := [187, 156, 221, 173, 173, 71, 208, 195, 102, 147, 92, 253, 116, 197, 246, 125, 227, 245, 146, 110, 169, 168, 103, 230, 222, 167, 245, 77, 24, 86, 236, 206] }

def pohT6 : PoH := { currentTick := 6, hash := [250, 181, 166, 204, 106, 154, 145, 36, 47, 148, 130, 113, 203, 56, 212, 165, 26, 149, 191, 50, 105, 93, 190, 224, 27, 213, 156, 248, 200, 121, 197, 211] }

def pohT7 : PoH := { currentTick := 7, hash := [18, 165, 171, 156, 109, 147, 6, 219, 143, 0, 47, 8, 250, 201, 7, 2, 178, 70, 146, 109, 208, 28, 39, 246, 29, 228, 110, 225, 107, 86, 133, 60] }

def pohT8 : PoH := { currentTick := 8, hash := [155, 105, 172, 100, 128, 121, 12, 58, 27, 79, 68, 127, 131, 244, 183, 169, 126, 176, 243, 10, 34, 114, 71, 91, 16, 69, 214, 226, 220, 175, 100, 23] }

def pohT9 : PoH := { currentTick := 9, hash := [18, 56, 11, 194, 16, 30, 51, 233, 238, 151, 182, 216, 99, 215, 147, 53, 136, 224, 97, 195, 159, 220, 202, 83, 60, 227, 18, 176, 5, 138, 145, 103] }

def pohT10 : PoH := { currentTick := 10, hash := [97, 193, 88, 246, 153, 176, 97, 86, 233, 250, 15, 170, 113, 71, 134, 44, 175, 106, 46, 19, 48, 104, 225, 252, 58, 70, 198, 118, 245, 162, 227, 204] }

def pohT11 : PoH := { currentTick := 11, hash := [50, 114, 190, 18, 130, 78, 90, 107, 36, 190, 62, 188, 238, 63, 50, 112, 108, 98, 169, 158, 72, 249, 87, 162, 195, 182, 155, 119, 219, 251, 171, 138] }

def pohT12 : PoH := { currentTick := 12, hash := [6, 217, 134, 225, 11, 195, 198, 213, 57, 249, 188, 17, 86, 127, 207, 95, 85, 66, 4, 64, 234, 7, 230, 218, 12, 75, 222, 157, 57, 206, 125, 120] }

def pohT13 : PoH := { currentTick := 13, hash := [202, 171, 139, 89, 28, 2, 253, 237, 204, 231, 92, 110, 177, 195, 20, 136, 246, 135, 51, 58, 237, 39, 189, 36, 233, 249, 133, 75, 69, 94, 82, 219] }

def pohT14 : PoH := { currentTick := 14, hash := [17, 188, 247, 49, 50, 92, 112, 128, 204, 42, 154, 201, 3, 28, 28, 210, 167, 176, 193, 154, 103, 135, 95, 3, 155, 234, 72, 80, 147, 32, 77, 128] }

def pohT15 : PoH := { currentTick := 15, hash := [224, 126, 159, 160, 148, 82, 169, 33, 220, 67, 175, 43, 192, 119, 159, 38, 164, 1, 245, 64, 170, 192, 144, 254, 200, 235, 144, 61, 209, 171, 221, 213] }

def pohT16 : PoH := { currentTick := 16, hash := [215, 5, 36, 5, 224, 235, 116, 51, 154, 141, 206, 160, 232, 236, 167, 96, 82, 251, 128, 120, 217, 146, 204, 7, 34, 183, 127, 68, 150, 196, 43, 248] }

def pohT17 : PoH := { currentTick := 17, hash := [243, 160, 201, 140, 254, 59, 116, 233, 221, 250, 84, 210, 79, 64, 59, 211, 141, 50, 194, 136, 105, 215, 17, 187, 211, 111, 160, 77, 97, 173, 25, 232] }

def pohT18 : PoH := { currentTick := 18, hash := [92, 25, 131, 192, 202, 198, 1, 85, 76, 35, 183, 230, 232, 31, 237, 180, 62, 68, 212, 191, 201, 167, 159, 49, 15, 224, 236, 115, 224, 185, 247, 249] }

def pohT19 : PoH := { currentTick := 19, hash := [39, 52, 71, 187, 160, 214, 196, 233, 115, 114, 93, 133, 191, 28, 206, 25, 137, 206, 75, 244, 24, 147, 180, 168, 136, 150, 134, 128, 14, 141, 137, 140] }

def pohT20 : PoH := { currentTick := 20, hash := [191, 218, 132, 236, 136, 73, 44, 110, 113, 209, 30, 194, 177, 31, 143, 114, 83, 199, 216, 97, 129, 7, 6, 36, 176, 85, 157, 192, 169, 6, 236, 71] }

/-- A state whose slot-1 producer map already names `"v"` with another hash:
producing one block equivocates. -/
def stC9 : ChainState :=
  { baseState with
      validators := [("v", mkValidator "v" 100 (some 1))],
      stats := [("v", zeroStats)],
      poh := some pohW,
      slotProducers := [(1, [("v", "zz")])] }

/-- The finalized slot never moves backwards between the two states. -/
def fsMono (st st' : ChainState) : Prop := st.finalizedSlot ≤ st'.finalizedSlot

/-- Drop a block's ECDSA signature bytes (the only field `rand.Reader` can
influence). -/
def eraseB (b : Block) : Block := { b with signature := [] }

/-- Drop every stored signature from a chain state. -/
def eraseS (st : ChainState) : ChainState :=
  { st with blocks := st.blocks.map (fun p => (p.1, eraseB p.2)),
            chain := st.chain.map eraseB }

/-- Two states agree everywhere except possibly in stored signature bytes. -/
def ES (a b : ChainState) : Prop := eraseS a = eraseS b

/-- A signing oracle that always succeeds with a nonempty signature (the
honest `ecdsa.SignASN1` behaviour). -/
def SignOk (S : SignOracle) : Prop :=
  ∀ k d, ∃ sig, S.sign k d = Except.ok sig ∧ sig ≠ []

/-- A second accept-everything signer whose entropy differs from `okSign`. -/
def okSign2 : SignOracle := { sign := fun _ _ => .ok [2] }

/-- A fresh production-ready state for comparing two runs. -/
def stC8 : ChainState :=
  { baseState with
      validators := [("v", mkValidator "v" 100 (some 1))],
      stats := [("v", zeroStats)],
      poh := some pohW }

/-- One engine call of a run (the transaction inputs of the claim). -/
inductive Op where
  | addValidator (name : String) (stake : Int) (pubKey : String) (priv : Option Nat)
  | setBal (address : String) (amount : Int)
  | addBlock (txs : List Transaction)
  | addBlockExternal (prevHash : String) (txs : List Transaction)

/-- Replay a list of engine calls. -/
def runOps (V : VerOracle) (S : SignOracle) : ChainState → List Op → ChainState
  | st, [] => st
  | st, Op.addValidator n s p k :: rest => runOps V S ((addValidatorB st n s p k).1) rest
  | st, Op.setBal a m :: rest => runOps V S (setBalance st a m) rest
  | st, Op.addBlock txs :: rest => runOps V S ((AddBlock V S st txs).1) rest
  | st, Op.addBlockExternal ph txs :: rest =>
      runOps V S ((AddBlockExternal V S st ph txs).1) rest

/-! # Theorems -/

/-! ### Order facts for `charsLt` / `goStrLt` -/

theorem charsLt_irrefl : ∀ l : List Char, charsLt l l = false := by
  intro l
  induction l with
  | nil => rfl
  | cons a as ih => simp [charsLt, ih]

theorem charsLt_asymm : ∀ l₁ l₂ : List Char, charsLt l₁ l₂ = true → charsLt l₂ l₁ = false := by
  intro l₁
  induction l₁ with
  | nil => intro l₂ h; cases l₂ <;> simp_all [charsLt]
  | cons a as ih =>
    intro l₂ h
    cases l₂ with
    | nil => simp_all [charsLt]
    | cons b bs =>
      by_cases hab : a.toNat < b.toNat
      · have : ¬ b.toNat < a.toNat := by omega
        simp [charsLt, hab, this]
      · by_cases hba : b.toNat < a.toNat
        · simp [charsLt, hab, hba] at h
        · simp [charsLt, hab, hba] at h ⊢
          exact ih bs h

theorem charsLt_connex : ∀ m1 m2 : List Char, charsLt m1 m2 = false → charsLt m2 m1 = false → m1 = m2 := by
  intro m1
  induction m1 with
  | nil => intro m2 h _; cases m2 <;> simp_all [charsLt]
  | cons a as ih =>
    intro l₂ h h'
    cases l₂ with
    | nil => simp_all [charsLt]
    | cons b bs =>
      by_cases hab : a.toNat < b.toNat
      · simp [charsLt, hab] at h
      · by_cases hba : b.toNat < a.toNat
        · simp [charsLt, hba, hab] at h'
        · have hn : a.toNat = b.toNat := by omega
          have hab' : a = b := Char.ext (UInt32.toNat.inj hn)
          simp [charsLt, hab, hba] at h h'
          exact by rw [hab', ih bs h h']

theorem charsLt_trans : ∀ l₁ l₂ l₃ : List Char, charsLt l₁ l₂ = true → charsLt l₂ l₃ = true → charsLt l₁ l₃ = true := by
  intro l₁
  induction l₁ with
  | nil =>
    intro l₂ l₃ h h'
    cases l₂ with
    | nil => simp_all [charsLt]
    | cons b bs => cases l₃ <;> simp_all [charsLt]
  | cons a as ih =>
    intro l₂ l₃ h h'
    cases l₂ with
    | nil => simp_all [charsLt]
    | cons b bs =>
      cases l₃ with
      | nil => simp_all [charsLt]
      | cons c cs =>
        by_cases hab : a.toNat < b.toNat <;> by_cases hbc : b.toNat < c.toNat
        · have hac : a.toNat < c.toNat := by omega
          simp [charsLt, hac]
        · by_cases hcb : c.toNat < b.toNat
          · simp [charsLt, hbc, hcb] at h'
          · have : b.toNat = c.toNat := by omega
            have hac : a.toNat < c.toNat := by omega
            simp [charsLt, hac]
        · by_cases hba : b.toNat < a.toNat
          · simp [charsLt, hab, hba] at h
          · have : a.toNat = b.toNat := by omega
            have hac : a.toNat < c.toNat := by omega
            simp [charsLt, hac]
        · by_cases hba : b.toNat < a.toNat
          · simp [charsLt, hab, hba] at h
          · by_cases hcb : c.toNat < b.toNat
            · simp [charsLt, hbc, hcb] at h'
            · have hac1 : ¬ a.toNat < c.toNat := by omega
              have hac2 : ¬ c.toNat < a.toNat := by omega
              simp [charsLt, hab, hba, hbc, hcb, hac1, hac2] at h h' ⊢
              exact ih bs cs h h'

theorem goStrLt_irrefl (s : String) : goStrLt s s = false := charsLt_irrefl s.data

theorem goStrLt_asymm {a b : String} (h : goStrLt a b = true) : goStrLt b a = false :=
  charsLt_asymm a.data b.data h

theorem goStrLt_connex {a b : String} (h : goStrLt a b = false) (h' : goStrLt b a = false) : a = b := by
  cases a with
  | mk da =>
    cases b with
    | mk db => exact congrArg String.mk (charsLt_connex da db h h')

theorem goStrLt_trans {a b c : String} (h : goStrLt a b = true) (h' : goStrLt b c = true) :
    goStrLt a c = true :=
  charsLt_trans a.data b.data c.data h h'

/-! ### Sorting facts -/

theorem insertStr_perm (x : String) : ∀ l : List String, List.Perm (insertStr x l) (x :: l) := by
  intro l
  induction l with
  | nil => simp [insertStr]
  | cons y ys ih =>
    by_cases h : goStrLt y x = true
    · simp only [insertStr, h, if_true]
      exact List.Perm.trans (List.Perm.cons y ih) (List.Perm.swap x y ys)
    · simp [insertStr, h]

theorem sortStrs_perm : ∀ l : List String, List.Perm (sortStrs l) l := by
  intro l
  induction l with
  | nil => simp [sortStrs]
  | cons x xs ih =>
    exact List.Perm.trans (insertStr_perm x (sortStrs xs)) (List.Perm.cons x ih)


theorem insertStr_sorted (x : String) :
    ∀ l : List String, StrSorted l → StrSorted (insertStr x l) := by
  intro l
  induction l with
  | nil => intro _; simp [insertStr, StrSorted]
  | cons y ys ih =>
    intro hs
    rcases (List.pairwise_cons.mp hs) with ⟨hy, hys⟩
    by_cases h : goStrLt y x = true
    · simp only [insertStr, h, if_true]
      refine List.pairwise_cons.mpr ⟨?_, ih hys⟩
      intro z hz
      rcases List.mem_cons.mp ((insertStr_perm x ys).mem_iff.mp hz) with hz' | hz'
      · subst hz'; exact goStrLt_asymm h
      · exact hy z hz'
    · simp only [insertStr, h, if_false]
      refine List.pairwise_cons.mpr ⟨?_, hs⟩
      intro z hz
      rcases List.mem_cons.mp hz with hz' | hz'
      · subst hz'; simpa using h
      · have hyz : goStrLt z y = false := hy z hz'
        by_cases hzx : goStrLt z x = true
        · by_cases hxy : goStrLt x y = true
          · exact absurd (goStrLt_trans hzx hxy) (by simp [hyz])
          · have hxy' : x = y := goStrLt_connex (by simpa using hxy) (by simpa using h)
            subst hxy'
            simp [hyz] at hzx
        · simpa using hzx

theorem sortStrs_sorted : ∀ l : List String, StrSorted (sortStrs l) := by
  intro l
  induction l with
  | nil => simp [sortStrs, StrSorted]
  | cons x xs ih => exact insertStr_sorted x (sortStrs xs) ih

/-- A `Nodup` ascending list is strictly ascending. -/
theorem strSorted_nodup_strict {l : List String} (hs : StrSorted l) (hn : l.Nodup) :
    l.Pairwise (fun a b => goStrLt a b = true) := by
  induction l with
  | nil => simp
  | cons x xs ih =>
    rcases List.pairwise_cons.mp hs with ⟨hx, hxs⟩
    rcases List.pairwise_cons.mp hn with ⟨hx', hxs'⟩
    refine List.pairwise_cons.mpr ⟨?_, ih hxs hxs'⟩
    intro z hz
    have h1 : goStrLt z x = false := hx z hz
    have h2 : x ≠ z := hx' z hz
    by_cases h3 : goStrLt x z = true
    · exact h3
    · exact absurd (goStrLt_connex (by simpa using h3) h1) h2

/-- Strictly ascending permutations are equal. -/
theorem strict_sorted_perm_eq :
    ∀ u1 u2 : List String, List.Perm u1 u2 →
      u1.Pairwise (fun a b => goStrLt a b = true) →
      u2.Pairwise (fun a b => goStrLt a b = true) → u1 = u2 := by
  intro u1
  induction u1 with
  | nil => intro l₂ hp _ _; simpa using hp.symm.eq_nil
  | cons x xs ih =>
    intro l₂ hp h₁ h₂
    cases l₂ with
    | nil => simpa using hp.eq_nil
    | cons y ys =>
      rcases List.pairwise_cons.mp h₁ with ⟨hx, hxs⟩
      rcases List.pairwise_cons.mp h₂ with ⟨hy, hys⟩
      have hxy : x = y := by
        have hxmem : x ∈ y :: ys := hp.mem_iff.mp (by simp)
        have hymem : y ∈ x :: xs := hp.symm.mem_iff.mp (by simp)
        rcases List.mem_cons.mp hxmem with h | h
        · exact h
        · rcases List.mem_cons.mp hymem with h' | h'
          · exact h'.symm
          · have hlt1 : goStrLt y x = true := hy x h
            have hlt2 : goStrLt x y = true := hx y h'
            have := goStrLt_asymm hlt1
            simp [hlt2] at this
      subst hxy
      have hp' : List.Perm xs ys := (List.perm_cons x).mp hp
      exact congrArg (List.cons x) (ih ys hp' hxs hys)

/-! ### Sanity checks: SHA-256 test vectors and formatting -/

theorem sha256_empty_vector :
    bytesToHex (sha256 []) = "e3b0c44298fc1c149afbf4c8996fb92427ae41e4649b934ca495991b7852b855" := by
  decide

theorem sha256_abc_vector :
    bytesToHex (sha256 (strBytes "abc")) = "ba7816bf8f01cfea414140de5dae2223b00361a396177a9cb410ff61f20015ad" := by
  decide

theorem natToStr_digits : natToStr 90210 = "90210" := by decide

theorem intToStr_neg : intToStr (-42) = "-42" := by decide

/-! ## Association-list lemmas -/

theorem lookupA_insertA_self {κ α : Type} [DecidableEq κ] (m : List (κ × α)) (k : κ) (v : α) :
    lookupA (insertA m k v) k = some v := by
  induction m with
  | nil => simp [insertA, lookupA]
  | cons p rest ih =>
    by_cases h : p.1 = k
    · simp [insertA, h, lookupA]
    · simp only [insertA]
      rw [show (p.1, p.2) = p from rfl]
      simp [h, lookupA, ih]

theorem lookupA_insertA_ne {κ α : Type} [DecidableEq κ] (m : List (κ × α)) (k k' : κ) (v : α)
    (h : k ≠ k') : lookupA (insertA m k v) k' = lookupA m k' := by
  induction m with
  | nil => simp [insertA, lookupA, h]
  | cons p rest ih =>
    by_cases hp : p.1 = k
    · simp [insertA, hp, lookupA, h]
    · by_cases hp' : p.1 = k'
      · subst hp'
        simp [insertA, hp, lookupA]
      · simp only [insertA]
        rw [show (p.1, p.2) = p from rfl]
        simp [hp, lookupA, hp', ih]

theorem applyGo_error_iff :
    ∀ (txs : List Transaction) (s : StateMap) (i : Nat),
      (∃ e, applyGo s txs i = .error e) ↔ ApplyFails s txs := by
  intro txs
  induction txs with
  | nil =>
    intro s i
    simp [applyGo, ApplyFails]
  | cons tx rest ih =>
    intro s i
    by_cases h1 : tx.amount ≤ 0
    · simp [applyGo, h1, ApplyFails, txBad]
    · by_cases h2 : tx.fromAddr = ""
      · simp [applyGo, h1, h2, ApplyFails, txBad]
      · by_cases h3 : lookupD s tx.fromAddr 0 < tx.amount
        · simp [applyGo, h1, h2, h3, ApplyFails, txBad]
        · have hb : ¬ txBad s tx := by simp [txBad, h1, h2, h3]
          simp only [applyGo, if_neg h1, if_neg h2, if_neg h3, ApplyFails]
          rw [ih (applyStep s tx) (i + 1)]
          constructor
          · intro h; exact Or.inr ⟨hb, h⟩
          · intro h
            rcases h with h | ⟨_, h⟩
            · exact absurd h hb
            · exact h

theorem applyGo_ok_eq :
    ∀ (txs : List Transaction) (s : StateMap) (i : Nat) (r : StateMap),
      applyGo s txs i = .ok r → r = applyFold s txs := by
  intro txs
  induction txs with
  | nil =>
    intro s i r h
    simpa [applyGo, applyFold] using h.symm
  | cons tx rest ih =>
    intro s i r h
    by_cases h1 : tx.amount ≤ 0
    · simp [applyGo, h1] at h
    · by_cases h2 : tx.fromAddr = ""
      · simp [applyGo, h1, h2] at h
      · by_cases h3 : lookupD s tx.fromAddr 0 < tx.amount
        · simp [applyGo, h1, h2, h3] at h
        · simp only [applyGo, if_neg h1, if_neg h2, if_neg h3] at h
          simpa [applyFold] using ih (applyStep s tx) (i + 1) r h

/-- C7 — `ApplyTransactions` is a pure function on an explicit state value
(the Go code first copies its input map, so the caller's map is never
mutated; in this embedding purity is intrinsic and the returned state is
expressed in terms of the input).  It fails exactly when some transaction,
processed in order against the running balances, has non-positive amount,
an empty sender, or a sender balance below its amount; failure returns only
an error (no partial state is observable), and success returns the fold of
the debit/credit step over the batch. -/
theorem apply_transactions_spec (s : StateMap) (txs : List Transaction) :
    ((∃ e, ApplyTransactions s txs = .error e) ↔ ApplyFails s txs) ∧
      (∀ r, ApplyTransactions s txs = .ok r → r = applyFold s txs) :=
  ⟨applyGo_error_iff txs s 0, fun r h => applyGo_ok_eq txs s 0 r h⟩

/-- Witness for C7 at a concrete input: a two-transaction batch where the
second transaction overdraws, so the whole batch fails, and a concrete
successful batch equal to the fold. -/
theorem apply_transactions_spec_witness :
    (∃ e, ApplyTransactions [("a", 5)] [txAB 3, txAB 3] = .error e) ∧
      ApplyTransactions [("a", 5)] [txAB 3] = .ok (applyFold [("a", 5)] [txAB 3]) := by
  constructor
  · exact (apply_transactions_spec [("a", 5)] [txAB 3, txAB 3]).1.mpr (by decide)
  · have h := (apply_transactions_spec [("a", 5)] [txAB 3]).2
      (insertA (insertA [("a", 5)] "a" 2) "b" 3) (by decide)
    rw [show ApplyTransactions [("a", 5)] [txAB 3] =
      .ok (insertA (insertA [("a", 5)] "a" 2) "b" 3) from by decide, h]

/-! ## C4: leader selection -/

theorem foldl_addU64_eq (l : List Nat) :
    ∀ acc, acc < U64 → l.foldl addU64 acc = (acc + l.sum) % U64 := by
  induction l with
  | nil =>
    intro acc h
    simpa using (Nat.mod_eq_of_lt h).symm
  | cons x t ih =>
    intro acc h
    have hU : 0 < U64 := by decide
    have := ih ((acc + x) % U64) (Nat.mod_lt _ hU)
    simp only [List.foldl_cons, addU64, this, List.sum_cons]
    rw [Nat.mod_add_mod]
    ring_nf

/-- The wrapped stake total equals the plain sum reduced mod `2^64`. -/
theorem stakeTotal_eq (stakes : List (String × Nat)) :
    stakes.foldl (fun a p => addU64 a p.2) 0 = (stakes.map (fun p => p.2)).sum % U64 := by
  have h : stakes.foldl (fun a p => addU64 a p.2) 0 =
      (stakes.map (fun p => p.2)).foldl addU64 0 := by
    rw [List.foldl_map]
  rw [h, foldl_addU64_eq _ 0 (by decide)]
  simp

/-- Looking up each key of a `Nodup`-keyed association list yields its own
value. -/
theorem lookup_self_values :
    ∀ (l : List (String × Nat)), (l.map (fun p => p.1)).Nodup →
      l.map (fun p => lookupD l p.1 0) = l.map (fun p => p.2) := by
  intro l
  induction l with
  | nil => intro _; rfl
  | cons q t ih =>
    intro hnd
    rcases List.pairwise_cons.mp hnd with ⟨hq, ht⟩
    have hstep : t.map (fun p => lookupD (q :: t) p.1 0) = t.map (fun p => lookupD t p.1 0) := by
      apply List.map_congr_left
      intro p hp
      have hne : q.1 ≠ p.1 := hq p.1 (List.mem_map_of_mem _ hp)
      simp [lookupD, lookupA, hne]
    simp only [List.map_cons, hstep, ih ht]
    simp [lookupD, lookupA]

/-- Association-list lookup is permutation-invariant under distinct keys. -/
theorem lookupA_perm {α : Type} :
    ∀ {l₁ l₂ : List (String × α)}, l₁.Perm l₂ → (l₁.map (fun p => p.1)).Nodup →
      ∀ k, lookupA l₁ k = lookupA l₂ k := by
  intro l₁ l₂ h
  induction h with
  | nil => intro _ k; rfl
  | cons p h ih =>
    intro hnd k
    rcases List.pairwise_cons.mp hnd with ⟨_, ht⟩
    by_cases hk : p.1 = k
    · simp [lookupA, hk]
    · simp [lookupA, hk, ih ht k]
  | swap p q l =>
    intro hnd k
    have hpq : q.1 ≠ p.1 := by
      rcases List.pairwise_cons.mp hnd with ⟨hq, _⟩
      exact hq p.1 (by simp)
    by_cases h1 : q.1 = k
    · have hp : ¬ p.1 = k := fun hh => hpq (by rw [h1, hh])
      simp [lookupA, h1, hp]
    · by_cases h2 : p.1 = k
      · simp [lookupA, h1, h2]
      · simp [lookupA, h1, h2]
  | trans h₁ h₂ ih₁ ih₂ =>
    intro hnd k
    have hnd₂ := ((h₁.map (fun p => p.1)).nodup_iff).mp hnd
    rw [ih₁ hnd k, ih₂ hnd₂ k]

/-- `leaderWalk` is the positional reading of the prefix-sum search. -/
theorem leaderWalk_eq_find (stakes : List (String × Nat)) (draw : Nat) :
    ∀ (names : List String) (acc : Nat),
      leaderWalk stakes draw acc names =
        ((prefixSums stakes names acc).find? (fun q => decide (draw < q.2))).elim
          "genesis" (fun q => q.1) := by
  intro names
  induction names with
  | nil => intro acc; rfl
  | cons n rest ih =>
    intro acc
    by_cases h : draw < addU64 acc (lookupD stakes n 0)
    · simp [leaderWalk, prefixSums, List.find?, h]
    · simp [leaderWalk, prefixSums, List.find?, h, ih]

/-- If the search fails then the draw is at least every prefix sum,
including the final one. -/
theorem find?_none_ge (stakes : List (String × Nat)) (draw : Nat) :
    ∀ (names : List String) (acc : Nat), ¬ draw < acc →
      (prefixSums stakes names acc).find? (fun q => decide (draw < q.2)) = none →
      ¬ draw < names.foldl (fun a n => addU64 a (lookupD stakes n 0)) acc := by
  intro names
  induction names with
  | nil => intro acc h _; simpa using h
  | cons n rest ih =>
    intro acc _ hfind
    rw [show prefixSums stakes (n :: rest) acc =
      (n, addU64 acc (lookupD stakes n 0)) ::
        prefixSums stakes rest (addU64 acc (lookupD stakes n 0)) from rfl] at hfind
    by_cases h : draw < addU64 acc (lookupD stakes n 0)
    · rw [List.find?_cons_of_pos _ (by simpa using h)] at hfind
      exact absurd hfind (by simp)
    · rw [List.find?_cons_of_neg _ (by simpa using h)] at hfind
      simpa [List.foldl_cons] using ih (addU64 acc (lookupD stakes n 0)) h hfind

/-- The final prefix sum over the sorted names equals the wrapped total,
given distinct keys. -/
theorem sorted_fold_eq_total (stakes : List (String × Nat))
    (hnd : (stakes.map (fun p => p.1)).Nodup) :
    (sortedStakeNames stakes).foldl (fun a n => addU64 a (lookupD stakes n 0)) 0 =
      stakes.foldl (fun a p => addU64 a p.2) 0 := by
  have hperm : (sortedStakeNames stakes).Perm (stakes.map (fun p => p.1)) :=
    sortStrs_perm _
  have hmap : ((sortedStakeNames stakes).map (fun n => lookupD stakes n 0)).Perm
      ((stakes.map (fun p => p.1)).map (fun n => lookupD stakes n 0)) :=
    hperm.map _
  have hvals : (stakes.map (fun p => p.1)).map (fun n => lookupD stakes n 0) =
      stakes.map (fun p => p.2) := by
    rw [List.map_map]
    exact lookup_self_values stakes hnd
  have h1 : (sortedStakeNames stakes).foldl (fun a n => addU64 a (lookupD stakes n 0)) 0 =
      ((sortedStakeNames stakes).map (fun n => lookupD stakes n 0)).foldl addU64 0 := by
    rw [List.foldl_map]
  have h2 : ((sortedStakeNames stakes).map (fun n => lookupD stakes n 0)).sum =
      (stakes.map (fun p => p.2)).sum := by
    rw [← hvals]
    exact hmap.sum_eq
  rw [h1, foldl_addU64_eq _ 0 (by decide), stakeTotal_eq]
  simp only [Nat.zero_add]
  rw [h2]

/-- `leaderWalk` congruence in the stake map: only lookups matter. -/
theorem leaderWalk_congr (s₁ s₂ : List (String × Nat)) (draw : Nat)
    (h : ∀ n, lookupD s₁ n 0 = lookupD s₂ n 0) :
    ∀ (names : List String) (acc : Nat),
      leaderWalk s₁ draw acc names = leaderWalk s₂ draw acc names := by
  intro names
  induction names with
  | nil => intro acc; rfl
  | cons n rest ih =>
    intro acc
    simp only [leaderWalk, h n]
    by_cases hlt : draw < addU64 acc (lookupD s₂ n 0)
    · simp [hlt]
    · simp [hlt, ih]

/-- C4 — amended: `LeaderFromSnapshot` computes its total, draw and running
cumulative stakes in uint64 (mod `2^64`) arithmetic.  With distinct map keys
(the guarantee a Go map gives): when the wrapped total is zero the sentinel
`"genesis"` is returned; when it is non-zero the result is the first
validator name in lexicographic order whose running cumulative stake
strictly exceeds the draw (and such a name always exists); and the result is
invariant under permutation of the map entries, i.e. it depends only on the
slot and the map contents, never on iteration order. -/
theorem leader_from_snapshot_spec (slot : Nat) (stakes : List (String × Nat))
    (hnd : (stakes.map (fun p => p.1)).Nodup) :
    ((stakes.map (fun p => p.2)).sum % U64 = 0 → LeaderFromSnapshot slot stakes = "genesis") ∧
      ((stakes.map (fun p => p.2)).sum % U64 ≠ 0 →
        ∃ name, leaderSpec slot stakes = some name ∧
          LeaderFromSnapshot slot stakes = name) ∧
      (∀ stakes', stakes.Perm stakes' →
        LeaderFromSnapshot slot stakes = LeaderFromSnapshot slot stakes') := by
  refine ⟨?_, ?_, ?_⟩
  · intro h0
    unfold LeaderFromSnapshot
    rw [stakeTotal_eq, h0]
    simp
  · intro hne
    have htot : stakes.foldl (fun a p => addU64 a p.2) 0 ≠ 0 := by
      rw [stakeTotal_eq]; exact hne
    have hwalk := leaderWalk_eq_find stakes (drawOf slot stakes) (sortedStakeNames stakes) 0
    rcases hfind : (prefixSums stakes (sortedStakeNames stakes) 0).find?
        (fun q => decide (drawOf slot stakes < q.2)) with _ | q
    · exfalso
      have hge := find?_none_ge stakes (drawOf slot stakes) (sortedStakeNames stakes) 0
        (by simp) hfind
      rw [sorted_fold_eq_total stakes hnd] at hge
      have hdr : drawOf slot stakes < stakes.foldl (fun a p => addU64 a p.2) 0 := by
        unfold drawOf deterministicDraw
        exact Nat.mod_lt _ (Nat.pos_of_ne_zero htot)
      exact hge hdr
    · refine ⟨q.1, ?_, ?_⟩
      · simp [leaderSpec, hfind]
      · unfold LeaderFromSnapshot
        rw [if_neg htot]
        have : drawOf slot stakes =
            deterministicDraw slot (stakes.foldl (fun a p => addU64 a p.2) 0) := rfl
        rw [← this, hwalk, hfind]
        rfl
  · intro stakes' hperm
    have hnd' : (stakes'.map (fun p => p.1)).Nodup :=
      ((hperm.map (fun p => p.1)).nodup_iff).mp hnd
    have htot : stakes.foldl (fun a p => addU64 a p.2) 0 =
        stakes'.foldl (fun a p => addU64 a p.2) 0 := by
      rw [stakeTotal_eq, stakeTotal_eq, (hperm.map (fun p => p.2)).sum_eq]
    have hsorted : sortedStakeNames stakes = sortedStakeNames stakes' := by
      have h1 : (sortedStakeNames stakes).Perm (sortedStakeNames stakes') := by
        exact (sortStrs_perm _).trans ((hperm.map (fun p => p.1)).trans
          (sortStrs_perm _).symm)
      exact strict_sorted_perm_eq _ _ h1
        (strSorted_nodup_strict (sortStrs_sorted _)
          (((sortStrs_perm _).nodup_iff).mpr hnd))
        (strSorted_nodup_strict (sortStrs_sorted _)
          (((sortStrs_perm _).nodup_iff).mpr hnd'))
    have hlook : ∀ n, lookupD stakes n 0 = lookupD stakes' n 0 := by
      intro n
      unfold lookupD
      rw [lookupA_perm hperm hnd n]
    unfold LeaderFromSnapshot
    rw [htot, hsorted]
    by_cases hz : stakes'.foldl (fun a p => addU64 a p.2) 0 = 0
    · simp [hz]
    · rw [if_neg hz, if_neg hz]
      exact leaderWalk_congr stakes stakes' _ hlook (sortedStakeNames stakes') 0

/-- Witness for C4 at a concrete input: distinct keys, a non-zero total, the
spec search result, and invariance under a concrete permutation. -/
theorem leader_from_snapshot_spec_witness :
    (∃ name, leaderSpec 5 [("a", 10), ("b", 20)] = some name ∧
        LeaderFromSnapshot 5 [("a", 10), ("b", 20)] = name) ∧
      LeaderFromSnapshot 5 [("a", 10), ("b", 20)] =
        LeaderFromSnapshot 5 [("b", 20), ("a", 10)] := by
  constructor
  · exact (leader_from_snapshot_spec 5 [("a", 10), ("b", 20)] (by decide)).2.1 (by decide)
  · exact (leader_from_snapshot_spec 5 [("a", 10), ("b", 20)] (by decide)).2.2
      [("b", 20), ("a", 10)] (List.Perm.swap _ _ _)

/-- Counterexample to C4 as stated: with two stakes of `2^63`, the plain sum
is non-zero yet `LeaderFromSnapshot` returns the sentinel, because its
uint64 total wraps to zero; the claim's literal (unbounded-arithmetic) rule
would elect a validator. -/
theorem leader_from_snapshot_wrap_counterexample :
    (wrapStakes.map (fun p => p.2)).sum ≠ 0 ∧
      LeaderFromSnapshot 0 wrapStakes = "genesis" ∧
      leaderClaimPlain 0 wrapStakes ≠ "genesis" := by
  refine ⟨by decide, by decide, by decide⟩

/-! ## The `EnsureEvolve` family -/

theorem ensureEvolve_refl (st : ChainState) : EnsureEvolve st st :=
  ⟨⟨st.snapshots, st.currentEpoch, rfl⟩, fun _ => Or.inl rfl⟩

theorem buildSnapshot_congr {st st' : ChainState} (e : Nat)
    (hv : st'.validators = st.validators) (hs : st'.stats = st.stats)
    (hc : st'.config = st.config) : buildSnapshot st' e = buildSnapshot st e := by
  unfold buildSnapshot
  rw [hv, hs, hc]

theorem ensureEvolve_validators {st st' : ChainState} (h : EnsureEvolve st st') :
    st'.validators = st.validators := by
  obtain ⟨⟨sn, ce, rfl⟩, _⟩ := h
  rfl

theorem ensureEvolve_stats {st st' : ChainState} (h : EnsureEvolve st st') :
    st'.stats = st.stats := by
  obtain ⟨⟨sn, ce, rfl⟩, _⟩ := h
  rfl

theorem ensureEvolve_config {st st' : ChainState} (h : EnsureEvolve st st') :
    st'.config = st.config := by
  obtain ⟨⟨sn, ce, rfl⟩, _⟩ := h
  rfl

theorem ensureEvolve_chain {st st' : ChainState} (h : EnsureEvolve st st') :
    st'.chain = st.chain := by
  obtain ⟨⟨sn, ce, rfl⟩, _⟩ := h
  rfl

theorem ensureEvolve_canonicalTip {st st' : ChainState} (h : EnsureEvolve st st') :
    st'.canonicalTip = st.canonicalTip := by
  obtain ⟨⟨sn, ce, rfl⟩, _⟩ := h
  rfl

theorem ensureEvolve_blocks {st st' : ChainState} (h : EnsureEvolve st st') :
    st'.blocks = st.blocks := by
  obtain ⟨⟨sn, ce, rfl⟩, _⟩ := h
  rfl

theorem ensureEvolve_finalizedSlot {st st' : ChainState} (h : EnsureEvolve st st') :
    st'.finalizedSlot = st.finalizedSlot := by
  obtain ⟨⟨sn, ce, rfl⟩, _⟩ := h
  rfl

theorem ensureEvolve_trans {a b c : ChainState} (h₁ : EnsureEvolve a b)
    (h₂ : EnsureEvolve b c) : EnsureEvolve a c := by
  have hbuild : ∀ e, buildSnapshot b e = buildSnapshot a e := fun e =>
    buildSnapshot_congr e (ensureEvolve_validators h₁) (ensureEvolve_stats h₁)
      (ensureEvolve_config h₁)
  obtain ⟨⟨sn₁, ce₁, hb⟩, d₁⟩ := h₁
  obtain ⟨⟨sn₂, ce₂, hc⟩, d₂⟩ := h₂
  constructor
  · refine ⟨sn₂, ce₂, ?_⟩
    rw [hc, hb]
  · intro e
    rcases d₂ e with h | ⟨hn, hs⟩
    · rcases d₁ e with h' | ⟨hn', hs'⟩
      · exact Or.inl (h.trans h')
      · exact Or.inr ⟨hn', h.trans hs'⟩
    · rcases d₁ e with h' | ⟨hn', hs'⟩
      · exact Or.inr ⟨h' ▸ hn, by rw [hs, hbuild e]⟩
      · rw [hs'] at hn
        exact absurd hn (by simp)

theorem ensureEvolve_ensureSnapshot (st : ChainState) (e : Nat) :
    EnsureEvolve st (ensureSnapshot st e) := by
  unfold ensureSnapshot
  rcases h : lookupA st.snapshots e with _ | s
  · refine ⟨⟨insertA st.snapshots e (buildSnapshot st e), e, rfl⟩, ?_⟩
    intro e'
    by_cases he : e = e'
    · subst he
      exact Or.inr ⟨h, by simpa using lookupA_insertA_self st.snapshots e (buildSnapshot st e)⟩
    · exact Or.inl (by simpa using lookupA_insertA_ne st.snapshots e e' (buildSnapshot st e) he)
  · exact ensureEvolve_refl st

theorem snapshotForSlot_fst (st : ChainState) (slot : Nat) :
    (snapshotForSlot st slot).1 = ensureSnapshot st (epochForSlot st slot) := rfl

theorem ensureEvolve_snapshotForSlot (st : ChainState) (slot : Nat) :
    EnsureEvolve st (snapshotForSlot st slot).1 :=
  ensureEvolve_ensureSnapshot st (epochForSlot st slot)

theorem getSnapshotStake_fst (st : ChainState) (slot : Nat) (v : String) :
    (getSnapshotStake st slot v).1 = (snapshotForSlot st slot).1 := by
  unfold getSnapshotStake
  rcases h : snapshotForSlot st slot with ⟨st₁, osnap⟩
  cases osnap <;> simp

theorem ensureEvolve_getSnapshotStake (st : ChainState) (slot : Nat) (v : String) :
    EnsureEvolve st (getSnapshotStake st slot v).1 := by
  rw [getSnapshotStake_fst]
  exact ensureEvolve_snapshotForSlot st slot

theorem leaderForSlot_fst (st : ChainState) (slot : Nat) :
    (leaderForSlot st slot).1 = (snapshotForSlot st slot).1 := by
  unfold leaderForSlot
  rcases h : snapshotForSlot st slot with ⟨st₁, osnap⟩
  cases osnap <;> simp

theorem ensureEvolve_leaderForSlot (st : ChainState) (slot : Nat) :
    EnsureEvolve st (leaderForSlot st slot).1 := by
  rw [leaderForSlot_fst]
  exact ensureEvolve_snapshotForSlot st slot

theorem ensureEvolve_scoreWalk :
    ∀ (fuel : Nat) (st : ChainState) (cur : Block) (acc : Nat),
      EnsureEvolve st (scoreWalk fuel st cur acc).1 := by
  intro fuel
  induction fuel with
  | zero => intro st cur acc; exact ensureEvolve_refl st
  | succ n ih =>
    intro st cur acc
    unfold scoreWalk
    rcases hg : getSnapshotStake st cur.slot cur.validator with ⟨st₁, s⟩
    have h₁ : EnsureEvolve st st₁ := by
      have := ensureEvolve_getSnapshotStake st cur.slot cur.validator
      rwa [hg] at this
    by_cases hp : cur.prevHash = "GENESIS"
    · simpa [hp] using h₁
    · simp only [hp, if_neg, ite_false]
      rcases hl : lookupA st₁.blocks cur.prevHash with _ | parent
      · simpa [hl] using h₁
      · simpa [hl] using ensureEvolve_trans h₁ (ih st₁ parent (addU64 acc s))

theorem ensureEvolve_scoreTip (st : ChainState) (tipHash : String) :
    EnsureEvolve st (scoreTip st tipHash).1 := by
  unfold scoreTip
  rcases hb : lookupA st.blocks tipHash with _ | b
  · exact ensureEvolve_refl st
  · have h := ensureEvolve_scoreWalk (st.blocks.length + 1) st b 0
    rcases hw : scoreWalk (st.blocks.length + 1) st b 0 with ⟨st₁, w⟩
    rw [hw] at h
    simp only [hw]
    exact h

theorem activeStake_fst (st : ChainState) :
    (activeStake st).1 = (snapshotForSlot st (chainTipSlot st)).1 := by
  unfold activeStake
  rcases h : snapshotForSlot st (chainTipSlot st) with ⟨st₁, osnap⟩
  cases osnap <;> simp

theorem ensureEvolve_activeStake (st : ChainState) :
    EnsureEvolve st (activeStake st).1 := by
  rw [activeStake_fst]
  exact ensureEvolve_snapshotForSlot st (chainTipSlot st)

theorem weightDeltaSatisfied_fst (st : ChainState) (ow nw : Nat) :
    EnsureEvolve st (weightDeltaSatisfied st ow nw).1 := by
  unfold weightDeltaSatisfied
  by_cases h1 : st.config.minReorgWeightDeltaP ≤ 0
  · simpa [h1] using ensureEvolve_refl st
  · by_cases h2 : nw ≤ ow
    · simpa [h1, h2] using ensureEvolve_refl st
    · rcases ha : activeStake st with ⟨st₁, active⟩
      have := ensureEvolve_activeStake st
      rw [ha] at this
      simpa [h1, h2, ha] using this

theorem weightDeltaRequired_fst (st : ChainState) (ow nw : Nat) :
    EnsureEvolve st (weightDeltaRequired st ow nw).1 := by
  unfold weightDeltaRequired
  rcases ha : activeStake st with ⟨st₁, active⟩
  have := ensureEvolve_activeStake st
  rw [ha] at this
  simpa using this

/-- The snapshot `snapshotForSlot` hands back: the stored one, or the one
frozen on the spot. -/
theorem snapshotForSlot_snd (st : ChainState) (slot : Nat) :
    (snapshotForSlot st slot).2 =
      some (match lookupA st.snapshots (epochForSlot st slot) with
            | some s => s
            | none => buildSnapshot st (epochForSlot st slot)) := by
  unfold snapshotForSlot ensureSnapshot
  rcases h : lookupA st.snapshots (epochForSlot st slot) with _ | s
  · simpa [h] using lookupA_insertA_self st.snapshots (epochForSlot st slot)
      (buildSnapshot st (epochForSlot st slot))
  · simp [h]

/-- The value `activeStake` returns, in closed form. -/
theorem activeStake_snd (st : ChainState) :
    (activeStake st).2 =
      (match lookupA st.snapshots (epochForSlot st (chainTipSlot st)) with
       | some s => s
       | none => buildSnapshot st (epochForSlot st (chainTipSlot st))).totalStake := by
  unfold activeStake
  rcases h : snapshotForSlot st (chainTipSlot st) with ⟨st₁, osnap⟩
  have h2 := snapshotForSlot_snd st (chainTipSlot st)
  rw [h] at h2
  simp only at h2
  subst h2
  simp

/-- `activeStake` yields the same total before and after snapshot-only
evolution: the frozen totals never move and fresh freezes agree. -/
theorem activeStake_congr {st st' : ChainState} (h : EnsureEvolve st st') :
    (activeStake st').2 = (activeStake st).2 := by
  have hchain := ensureEvolve_chain h
  have hconf := ensureEvolve_config h
  have hts : chainTipSlot st' = chainTipSlot st := by unfold chainTipSlot; rw [hchain]
  have hep : epochForSlot st' (chainTipSlot st) = epochForSlot st (chainTipSlot st) := by
    unfold epochForSlot; rw [hconf]
  have hbuild : buildSnapshot st' (epochForSlot st (chainTipSlot st)) =
      buildSnapshot st (epochForSlot st (chainTipSlot st)) :=
    buildSnapshot_congr _ (ensureEvolve_validators h) (ensureEvolve_stats h) hconf
  rw [activeStake_snd, activeStake_snd, hts, hep]
  rcases h.2 (epochForSlot st (chainTipSlot st)) with hd | ⟨hn, hs⟩
  · rw [hd]
    rcases lookupA st.snapshots (epochForSlot st (chainTipSlot st)) with _ | s
    · simpa using congrArg EpochSnapshot.totalStake hbuild
    · rfl
  · rw [hn, hs]

theorem snapsPreserved_of_evolve {st st' : ChainState} (h : EnsureEvolve st st') :
    snapsPreserved st st' := by
  intro e s hs
  rcases h.2 e with hd | ⟨hn, _⟩
  · rw [hd]; exact hs
  · rw [hn] at hs; exact absurd hs (by simp)

/-! ## Snapshot preservation across every operation -/

theorem snapsPreserved_refl (st : ChainState) : snapsPreserved st st := fun _ _ h => h

theorem snapsPreserved_trans {a b c : ChainState} (h₁ : snapsPreserved a b)
    (h₂ : snapsPreserved b c) : snapsPreserved a c :=
  fun e s hs => h₂ e s (h₁ e s hs)

theorem snapsPreserved_of_eq {st st' : ChainState} (h : st'.snapshots = st.snapshots) :
    snapsPreserved st st' := by
  intro e s hs
  rw [h]
  exact hs

theorem rebuildStateFromCanonical_snapshots (st : ChainState) :
    (rebuildStateFromCanonical st).snapshots = st.snapshots := by
  unfold rebuildStateFromCanonical
  rcases replayTxs st.genesis (st.chain.drop 1) with e | s <;> rfl

theorem rebuildCanonicalChain_snapshots (st : ChainState) :
    (rebuildCanonicalChain st).snapshots = st.snapshots := by
  unfold rebuildCanonicalChain
  by_cases h : st.canonicalTip = ""
  · simp [h]
  · simp only [h, if_false, ite_false]
    rw [rebuildStateFromCanonical_snapshots]
    rfl

theorem updateFinality_snapshots (st : ChainState) :
    (updateFinality st).snapshots = st.snapshots := by
  unfold updateFinality
  by_cases h : chainTipSlot st < st.config.finalitySlots
  · simp [h]
  · by_cases h2 : st.finalizedSlot < chainTipSlot st - st.config.finalitySlots <;>
      simp [h, h2]

theorem sp_updateCanonical (st : ChainState) (tipHash : String) :
    snapsPreserved st (updateCanonical st tipHash).1 := by
  unfold updateCanonical
  by_cases h0 : st.canonicalTip = ""
  · simp only [h0, if_true, ite_true]
    apply snapsPreserved_of_eq
    rw [updateFinality_snapshots, rebuildCanonicalChain_snapshots]
  · simp only [h0, if_false, ite_false]
    have e1 := ensureEvolve_scoreTip st st.canonicalTip
    rcases h1 : scoreTip st st.canonicalTip with ⟨st1, currentScore⟩
    rw [h1] at e1
    have e2 := ensureEvolve_scoreTip st1 tipHash
    rcases h2 : scoreTip st1 tipHash with ⟨st2, newScore⟩
    rw [h2] at e2
    have sp2 : snapsPreserved st st2 := snapsPreserved_of_evolve (ensureEvolve_trans e1 e2)
    by_cases hbs : betterScore newScore currentScore
    · simp only [hbs, if_true, ite_true]
      rcases hc : chainFromTip st2 tipHash with _ | newChain
      · exact sp2
      · simp only []
        by_cases hf : 0 < st2.finalizedSlot ∧
            (computeReorgDepthAndSlot st2.chain newChain).2 ≤ st2.finalizedSlot
        · simpa [hf] using snapsPreserved_trans sp2 (snapsPreserved_of_eq rfl)
        · simp only [hf, if_false, ite_false]
          by_cases hd : st2.config.maxReorgDepth <
              ((computeReorgDepthAndSlot st2.chain newChain).1 : Int)
          · simpa [hd] using snapsPreserved_trans sp2 (snapsPreserved_of_eq rfl)
          · simp only [hd, if_false, ite_false]
            have e3 := weightDeltaSatisfied_fst st2 currentScore.cumulativeWeight
              newScore.cumulativeWeight
            rcases h3 : weightDeltaSatisfied st2 currentScore.cumulativeWeight
                newScore.cumulativeWeight with ⟨st3, ok⟩
            rw [h3] at e3
            have sp3 : snapsPreserved st st3 :=
              snapsPreserved_trans sp2 (snapsPreserved_of_evolve e3)
            by_cases hok : ok
            · simp only [hok, if_true, ite_true]
              apply snapsPreserved_trans sp3
              apply snapsPreserved_of_eq
              rw [updateFinality_snapshots, rebuildStateFromCanonical_snapshots]
              by_cases hr1 : 0 < (computeReorgDepthAndSlot st2.chain newChain).1
              · by_cases hr2 : 1 < (computeReorgDepthAndSlot st2.chain newChain).1 <;>
                  simp [hr1, hr2, rebuildSlotMap]
              · simp [hr1, rebuildSlotMap]
            · simp only [hok, if_false, ite_false]
              have e4 := weightDeltaRequired_fst st3 currentScore.cumulativeWeight
                newScore.cumulativeWeight
              rcases h4 : weightDeltaRequired st3 currentScore.cumulativeWeight
                  newScore.cumulativeWeight with ⟨st4, rest⟩
              rw [h4] at e4
              exact snapsPreserved_trans sp3
                (snapsPreserved_trans (snapsPreserved_of_evolve e4) (snapsPreserved_of_eq rfl))
    · simp only [hbs, if_false, ite_false]
      exact sp2

theorem registerSlotProducer_snapshots (st : ChainState) (block : Block) :
    (registerSlotProducer st block).1.snapshots = st.snapshots := by
  simp only [registerSlotProducer]
  rcases h : lookupA (lookupD st.slotProducers block.slot []) block.validator with _ | ex
  · simp [h]
  · simp only [h]
    by_cases he : ex = block.hash
    · simp [he]
    · simp [he, handleEquivocation]

theorem sp_missedStep (st : ChainState) (slot : Nat) :
    snapsPreserved st (missedStep st slot) := by
  suffices H : ∀ st', missedStep st slot = st' → snapsPreserved st st' from H _ rfl
  intro st' h
  simp only [missedStep] at h
  have sp1 : snapsPreserved st (leaderForSlot st slot).1 :=
    snapsPreserved_of_evolve (ensureEvolve_leaderForSlot st slot)
  split at h
  · rw [← h]
    exact sp1
  · split at h
    · split at h
      · rw [← h]
        exact snapsPreserved_trans sp1 (snapsPreserved_of_eq rfl)
      · rw [← h]
        exact snapsPreserved_trans sp1 (snapsPreserved_of_eq rfl)
    · rw [← h]
      exact sp1

theorem sp_foldl_missed :
    ∀ (l : List Nat) (st : ChainState), snapsPreserved st (l.foldl missedStep st) := by
  intro l
  induction l with
  | nil => intro st; exact snapsPreserved_refl st
  | cons x xs ih =>
    intro st
    exact snapsPreserved_trans (sp_missedStep st x) (ih (missedStep st x))

theorem sp_processMissedSlots (st : ChainState) (target : Nat) :
    snapsPreserved st (processMissedSlots st target) := by
  simp only [processMissedSlots]
  by_cases h : target ≤ st.lastProcessedSlot
  · simpa [h] using snapsPreserved_refl st
  · simp only [h, if_false, ite_false]
    exact snapsPreserved_trans
      (sp_foldl_missed (List.range' (st.lastProcessedSlot + 1) (target - st.lastProcessedSlot)) st)
      (snapsPreserved_of_eq rfl)

theorem sp_acceptAndFinalize (st : ChainState) (block : Block) (validator : String) :
    snapsPreserved st (acceptAndFinalize st block validator).1 := by
  simp only [acceptAndFinalize]
  have hr := registerSlotProducer_snapshots st block
  rcases h1 : registerSlotProducer st block with ⟨st1, eqErr⟩
  rw [h1] at hr
  have sp1 : snapsPreserved st st1 := snapsPreserved_of_eq hr
  have sp3 := sp_updateCanonical (insertBlockF st1 block) block.hash
  rcases h3 : updateCanonical (insertBlockF st1 block) block.hash with ⟨st3, moved⟩
  rw [h3] at sp3
  refine snapsPreserved_trans sp1 (snapsPreserved_trans
    (@snapsPreserved_of_eq st1 (insertBlockF st1 block) rfl)
    (snapsPreserved_trans sp3 (snapsPreserved_trans
      (@snapsPreserved_of_eq st3
        { st3 with validators := RewardValidatorF st3.validators validator } rfl)
      (sp_processMissedSlots _ _))))

theorem verifyBlockOnAccept_fst (V : VerOracle) (st : ChainState) (prev block : Block)
    (state : StateMap) (st' : ChainState) (o : Option Err)
    (h : verifyBlockOnAccept V st prev block state = (st', o)) :
    st' = st ∨ st' = (snapshotForSlot st block.slot).1 := by
  unfold verifyBlockOnAccept at h
  split at h
  · exact Or.inl (by cases h; rfl)
  · split at h
    next x st1 heq =>
      exact Or.inr (by cases h; rw [heq])
    next x st1 snap heq =>
      have hst1 : st1 = (snapshotForSlot st block.slot).1 := by rw [heq]
      split at h
      · exact Or.inr (by cases h; rw [hst1])
      · split at h
        · exact Or.inr (by cases h; rw [hst1])
        · split at h
          · exact Or.inr (by cases h; rw [hst1])
          · split at h
            · exact Or.inr (by cases h; rw [hst1])
            · split at h
              · exact Or.inr (by cases h; rw [hst1])
              · split at h
                · exact Or.inr (by cases h; rw [hst1])
                · split at h
                  · exact Or.inr (by cases h; rw [hst1])
                  · exact Or.inr (by cases h; rw [hst1])

theorem sp_verifyBlockOnAccept (V : VerOracle) (st : ChainState) (prev block : Block)
    (state : StateMap) : snapsPreserved st (verifyBlockOnAccept V st prev block state).1 := by
  rcases h : verifyBlockOnAccept V st prev block state with ⟨st', o⟩
  rcases verifyBlockOnAccept_fst V st prev block state st' o h with h1 | h1 <;>
    rw [show ((st', o).1) = st' from rfl, h1]
  · exact snapsPreserved_refl st
  · exact snapsPreserved_of_evolve (ensureEvolve_snapshotForSlot st block.slot)

theorem sp_leaderEnsure (st : ChainState) (p1 : PoH) :
    snapsPreserved st
      (leaderForSlot (ensureSnapshotForSlot { st with poh := some p1 } (pohSlot p1))
        (pohSlot p1)).1 :=
  snapsPreserved_trans
    (snapsPreserved_trans (@snapsPreserved_of_eq st { st with poh := some p1 } rfl)
      (snapsPreserved_of_evolve (ensureEvolve_ensureSnapshot { st with poh := some p1 }
        (epochForSlot { st with poh := some p1 } (pohSlot p1)))))
    (snapsPreserved_of_evolve (ensureEvolve_leaderForSlot
      (ensureSnapshotForSlot { st with poh := some p1 } (pohSlot p1)) (pohSlot p1)))

theorem sp_addBlockCore (V : VerOracle) (S : SignOracle) (st : ChainState) (p1 : PoH)
    (txs : List Transaction) : snapsPreserved st (addBlockCore V S st p1 txs).1 := by
  rcases h : addBlockCore V S st p1 txs with ⟨st', o⟩
  rw [show ((st', o).1) = st' from rfl]
  simp only [addBlockCore] at h
  have sp3 := sp_leaderEnsure st p1
  have spS : ∀ v, snapsPreserved st
      (slashLeader (leaderForSlot (ensureSnapshotForSlot { st with poh := some p1 }
        (pohSlot p1)) (pohSlot p1)).1 v) :=
    fun v => snapsPreserved_trans sp3 (snapsPreserved_of_eq rfl)
  split at h
  · cases h
    exact spS _
  · split at h
    · cases h
      exact spS _
    next nextState heqA =>
      split at h
      · cases h
        exact spS _
      next v heqV =>
        split at h
        · cases h
          exact spS _
        next k heqK =>
          split at h
          · cases h
            exact spS _
          next sig heqS =>
            split at h
            next st4 e4 heq4 =>
              cases h
              have hsp4 : snapsPreserved
                  (leaderForSlot (ensureSnapshotForSlot { st with poh := some p1 }
                    (pohSlot p1)) (pohSlot p1)).1 st4 := by
                rcases verifyBlockOnAccept_fst V _ _ _ _ st4 (some e4) heq4 with h1 | h1 <;>
                  rw [h1]
                · exact snapsPreserved_refl _
                · exact snapsPreserved_of_evolve (ensureEvolve_snapshotForSlot _ _)
              exact snapsPreserved_trans sp3 (snapsPreserved_trans hsp4
                (snapsPreserved_of_eq rfl))
            next st4 heq4 =>
              have hsp4 : snapsPreserved
                  (leaderForSlot (ensureSnapshotForSlot { st with poh := some p1 }
                    (pohSlot p1)) (pohSlot p1)).1 st4 := by
                rcases verifyBlockOnAccept_fst V _ _ _ _ st4 none heq4 with h1 | h1 <;>
                  rw [h1]
                · exact snapsPreserved_refl _
                · exact snapsPreserved_of_evolve (ensureEvolve_snapshotForSlot _ _)
              have sp5 : snapsPreserved st4 st' := by
                rw [show st' = ((st', o).1) from rfl, ← h]
                exact sp_acceptAndFinalize _ _ _
              exact snapsPreserved_trans sp3 (snapsPreserved_trans hsp4 sp5)

theorem sp_AddBlock (V : VerOracle) (S : SignOracle) (st : ChainState)
    (txs : List Transaction) : snapsPreserved st (AddBlock V S st txs).1 := by
  simp only [AddBlock]
  by_cases h0 : st.validators = []
  · simpa [h0] using snapsPreserved_refl st
  · simp only [h0, if_false, ite_false]
    rcases st.poh with _ | p
    · exact snapsPreserved_refl st
    · exact sp_addBlockCore V S st (pohTick p TicksPerSlot) txs

theorem sp_addBlockExtCore (V : VerOracle) (S : SignOracle) (st : ChainState)
    (prevHash : String) (parent : Block) (p1 : PoH) (txs : List Transaction) :
    snapsPreserved st (addBlockExtCore V S st prevHash parent p1 txs).1 := by
  rcases h : addBlockExtCore V S st prevHash parent p1 txs with ⟨st', rest⟩
  rw [show ((st', rest).1) = st' from rfl]
  simp only [addBlockExtCore] at h
  have sp3 := sp_leaderEnsure st p1
  have spS : ∀ v, snapsPreserved st
      (slashLeader (leaderForSlot (ensureSnapshotForSlot { st with poh := some p1 }
        (pohSlot p1)) (pohSlot p1)).1 v) :=
    fun v => snapsPreserved_trans sp3 (snapsPreserved_of_eq rfl)
  split at h
  · cases h
    exact spS _
  · split at h
    · cases h
      exact sp3
    next parentState heqP =>
      split at h
      · cases h
        exact spS _
      next nextState heqA =>
        split at h
        · cases h
          exact spS _
        next v heqV =>
          split at h
          · cases h
            exact spS _
          next k heqK =>
            split at h
            · cases h
              exact spS _
            next sig heqS =>
              split at h
              next st4 e4 heq4 =>
                cases h
                have hsp4 : snapsPreserved
                    (leaderForSlot (ensureSnapshotForSlot { st with poh := some p1 }
                      (pohSlot p1)) (pohSlot p1)).1 st4 := by
                  rcases verifyBlockOnAccept_fst V _ _ _ _ st4 (some e4) heq4 with h1 | h1 <;>
                    rw [h1]
                  · exact snapsPreserved_refl _
                  · exact snapsPreserved_of_evolve (ensureEvolve_snapshotForSlot _ _)
                exact snapsPreserved_trans sp3 (snapsPreserved_trans hsp4
                  (snapsPreserved_of_eq rfl))
              next st4 heq4 =>
                have hsp4 : snapsPreserved
                    (leaderForSlot (ensureSnapshotForSlot { st with poh := some p1 }
                      (pohSlot p1)) (pohSlot p1)).1 st4 := by
                  rcases verifyBlockOnAccept_fst V _ _ _ _ st4 none heq4 with h1 | h1 <;>
                    rw [h1]
                  · exact snapsPreserved_refl _
                  · exact snapsPreserved_of_evolve (ensureEvolve_snapshotForSlot _ _)
                cases h
                exact snapsPreserved_trans sp3 (snapsPreserved_trans hsp4
                  (sp_acceptAndFinalize _ _ _))

theorem sp_AddBlockExternal (V : VerOracle) (S : SignOracle) (st : ChainState)
    (prevHash : String) (txs : List Transaction) :
    snapsPreserved st (AddBlockExternal V S st prevHash txs).1 := by
  simp only [AddBlockExternal]
  by_cases h0 : st.validators = []
  · simpa [h0] using snapsPreserved_refl st
  · simp only [h0, if_false, ite_false]
    rcases st.poh with _ | p
    · exact snapsPreserved_refl st
    · rcases lookupA st.blocks prevHash with _ | parent
      · exact snapsPreserved_refl st
      · exact sp_addBlockExtCore V S st prevHash parent (pohTick p TicksPerSlot) txs

theorem sp_setBalance (st : ChainState) (address : String) (amount : Int) :
    snapsPreserved st (setBalance st address amount) := by
  unfold setBalance
  by_cases h : amount < 0
  · simpa [h] using snapsPreserved_refl st
  · by_cases h2 : ({ st with state := insertA st.state address amount } : ChainState).chain.length ≤ 1 <;>
      simp [h, h2] <;> exact snapsPreserved_of_eq rfl

theorem sp_addValidatorB (st : ChainState) (name : String) (stake : Int) (pubKey : String)
    (priv : Option Nat) : snapsPreserved st (addValidatorB st name stake pubKey priv).1 := by
  unfold addValidatorB
  rcases AddValidatorF st.validators st.stats name stake pubKey priv with ⟨vs, ss, e⟩
  exact snapsPreserved_of_eq rfl

/-! ## C5: epoch snapshots -/

theorem lookupA_none_of_not_mem {κ α : Type} [DecidableEq κ] (l : List (κ × α)) (k : κ)
    (h : k ∉ l.map Prod.fst) : lookupA l k = none := by
  induction l with
  | nil => rfl
  | cons p rest ih =>
    simp only [List.map_cons, List.mem_cons, not_or] at h
    have hne : p.1 ≠ k := fun he => h.1 he.symm
    simpa [lookupA, hne] using ih h.2

theorem snapAdd_validators_lookup (es : Nat) (stats : List (String × ValidatorStats))
    (snap : EpochSnapshot) (v : Validator) (n : String) :
    lookupA (snapAdd es stats snap v).validators n =
      if v.name = n ∧ MinStake ≤ v.stake ∧ IsJailed stats v.name es = false
      then some (toU64 v.stake) else lookupA snap.validators n := by
  unfold snapAdd
  by_cases hs : v.stake < MinStake
  · have h1 : ¬ MinStake ≤ v.stake := not_le.mpr hs
    simp [hs, h1]
  · by_cases hj : IsJailed stats v.name es
    · simp [hs, hj]
    · by_cases hn : v.name = n
      · subst hn
        simp [hs, hj, not_lt.mp hs, lookupA_insertA_self]
      · simp [hs, hj, hn, lookupA_insertA_ne _ _ _ _ hn]

theorem snapAdd_totalStake (es : Nat) (stats : List (String × ValidatorStats))
    (snap : EpochSnapshot) (v : Validator) :
    (snapAdd es stats snap v).totalStake =
      if (decide (MinStake ≤ v.stake) && !IsJailed stats v.name es) = true
      then addU64 snap.totalStake (toU64 v.stake) else snap.totalStake := by
  unfold snapAdd
  by_cases hs : v.stake < MinStake
  · have h1 : ¬ MinStake ≤ v.stake := not_le.mpr hs
    simp [hs, h1]
  · by_cases hj : IsJailed stats v.name es
    · simp [hs, hj]
    · simp [hs, hj, not_lt.mp hs]

theorem buildFold_lookup (es : Nat) (stats : List (String × ValidatorStats)) :
    ∀ (l : List (String × Validator)) (acc : EpochSnapshot) (n : String),
      (∀ p ∈ l, p.2.name = p.1) → (l.map Prod.fst).Nodup →
      lookupA ((l.foldl (fun snap p => snapAdd es stats snap p.2) acc).validators) n =
        (match lookupA l n with
         | some v =>
           if MinStake ≤ v.stake ∧ IsJailed stats v.name es = false
           then some (toU64 v.stake) else lookupA acc.validators n
         | none => lookupA acc.validators n) := by
  intro l
  induction l with
  | nil =>
    intro acc n _ _
    rfl
  | cons p rest ih =>
    intro acc n hWF hND
    have hname : p.2.name = p.1 := hWF p (List.mem_cons_self p rest)
    have hWF2 : ∀ q ∈ rest, q.2.name = q.1 := fun q hq => hWF q (List.mem_cons_of_mem p hq)
    have hND2 : (rest.map Prod.fst).Nodup := (List.nodup_cons.mp (by simpa using hND)).2
    have hout : p.1 ∉ rest.map Prod.fst := (List.nodup_cons.mp (by simpa using hND)).1
    rw [List.foldl_cons, ih (snapAdd es stats acc p.2) n hWF2 hND2]
    have hacc : lookupA (snapAdd es stats acc p.2).validators n =
        (if p.2.name = n ∧ MinStake ≤ p.2.stake ∧ IsJailed stats p.2.name es = false
         then some (toU64 p.2.stake) else lookupA acc.validators n) :=
      snapAdd_validators_lookup es stats acc p.2 n
    by_cases hn : p.1 = n
    · subst hn
      have hrest : lookupA rest p.1 = none := lookupA_none_of_not_mem rest p.1 hout
      rw [hrest]
      rw [hacc, hname]
      simp [lookupA, hname]
    · have hne2 : p.2.name ≠ n := by
        rw [hname]
        exact hn
      rw [hacc]
      rw [if_neg (fun hc => hne2 hc.1)]
      have hcons : lookupA (p :: rest) n = lookupA rest n := by
        simp [lookupA, hn]
      rw [hcons]

theorem buildFold_total (es : Nat) (stats : List (String × ValidatorStats)) :
    ∀ (l : List (String × Validator)) (acc : EpochSnapshot),
      (l.foldl (fun snap p => snapAdd es stats snap p.2) acc).totalStake =
        ((l.map (fun p => p.2)).filter
          (fun v => decide (MinStake ≤ v.stake) && !IsJailed stats v.name es)).foldl
          (fun t v => addU64 t (toU64 v.stake)) acc.totalStake := by
  intro l
  induction l with
  | nil =>
    intro acc
    rfl
  | cons p rest ih =>
    intro acc
    rw [List.foldl_cons, ih (snapAdd es stats acc p.2)]
    rw [snapAdd_totalStake]
    by_cases hp : (decide (MinStake ≤ p.2.stake) && !IsJailed stats p.2.name es) = true
    · simp only [List.map_cons, List.filter_cons, hp, if_pos, List.foldl_cons]
    · simp only [List.map_cons, List.filter_cons]
      rw [if_neg hp, if_neg hp]

theorem buildSnapshot_lookup (st : ChainState) (E : Nat) (n : String)
    (hWF : ∀ p ∈ st.validators, p.2.name = p.1)
    (hND : (st.validators.map Prod.fst).Nodup) :
    lookupA (buildSnapshot st E).validators n =
      (match lookupA st.validators n with
       | some v => if snapEligible st E v = true then some (toU64 v.stake) else none
       | none => none) := by
  unfold buildSnapshot
  rw [buildFold_lookup (mulU64 E st.config.epochLength) st.stats st.validators _ n hWF hND]
  cases h : lookupA st.validators n with
  | none => rfl
  | some v =>
    have he : snapEligible st E v = true ↔
        (MinStake ≤ v.stake ∧ IsJailed st.stats v.name (mulU64 E st.config.epochLength) = false) := by
      simp [snapEligible, Bool.and_eq_true, Bool.not_eq_true']
    by_cases hc : MinStake ≤ v.stake ∧ IsJailed st.stats v.name (mulU64 E st.config.epochLength) = false
    · have h1 := he.mpr hc
      simp [hc, h1]
    · have h2 : ¬ snapEligible st E v = true := fun hh => hc (he.mp hh)
      simp [hc, h2, lookupA]

theorem buildSnapshot_total (st : ChainState) (E : Nat) :
    (buildSnapshot st E).totalStake =
      (eligVals st E).foldl (fun t v => addU64 t (toU64 v.stake)) 0 := by
  unfold buildSnapshot eligVals
  rw [buildFold_total (mulU64 E st.config.epochLength) st.stats st.validators]
  rfl

theorem ensureSnapshot_noop (st : ChainState) (E : Nat) (s : EpochSnapshot)
    (h : lookupA st.snapshots E = some s) : ensureSnapshot st E = st := by
  unfold ensureSnapshot
  rw [h]

theorem ensureSnapshot_creates (st : ChainState) (E : Nat)
    (h : lookupA st.snapshots E = none) :
    lookupA (ensureSnapshot st E).snapshots E = some (buildSnapshot st E) := by
  unfold ensureSnapshot
  rw [h]
  exact lookupA_insertA_self st.snapshots E (buildSnapshot st E)

theorem ensureSnapshot_idem (st : ChainState) (E : Nat) :
    ensureSnapshot (ensureSnapshot st E) E = ensureSnapshot st E := by
  cases h : lookupA st.snapshots E with
  | some s => rw [ensureSnapshot_noop st E s h, ensureSnapshot_noop st E s h]
  | none => exact ensureSnapshot_noop _ E _ (ensureSnapshot_creates st E h)

/-- C5: `ensureSnapshot E` is a no-op when a snapshot for `E` is stored and
idempotent in general; on first call it freezes `buildSnapshot st E`, whose
validator map holds exactly the registered validators with `MinStake ≤ stake`
that are not jailed at slot `E * EpochLength` mod 2^64 (the code tests
`IsJailed` at that slot, i.e. `(E * EpochLength / SlotsPerEpoch) <
JailedUntilEpoch`, not `E < JailedUntilEpoch` as the claim words it), each
mapped to its uint64 stake, with `TotalStake` the uint64 sum of the included
stakes; and stored snapshots survive every subsequent `AddBlock` /
`AddBlockExternal` / `SetBalance` / `AddValidator`. -/
theorem ensure_snapshot_spec (st : ChainState) (E : Nat)
    (hWF : ∀ p ∈ st.validators, p.2.name = p.1)
    (hND : (st.validators.map Prod.fst).Nodup) :
    (∀ s, lookupA st.snapshots E = some s → ensureSnapshot st E = st) ∧
    (lookupA st.snapshots E = none →
      lookupA (ensureSnapshot st E).snapshots E = some (buildSnapshot st E)) ∧
    (ensureSnapshot (ensureSnapshot st E) E = ensureSnapshot st E) ∧
    (∀ n, lookupA (buildSnapshot st E).validators n =
      (match lookupA st.validators n with
       | some v => if snapEligible st E v = true then some (toU64 v.stake) else none
       | none => none)) ∧
    ((buildSnapshot st E).totalStake =
      (eligVals st E).foldl (fun t v => addU64 t (toU64 v.stake)) 0) ∧
    (∀ V S txs, snapsPreserved st (AddBlock V S st txs).1) ∧
    (∀ V S prevHash txs, snapsPreserved st (AddBlockExternal V S st prevHash txs).1) ∧
    (∀ address amount, snapsPreserved st (setBalance st address amount)) ∧
    (∀ name stake pubKey priv, snapsPreserved st (addValidatorB st name stake pubKey priv).1) :=
  ⟨fun s h => ensureSnapshot_noop st E s h,
   fun h => ensureSnapshot_creates st E h,
   ensureSnapshot_idem st E,
   fun n => buildSnapshot_lookup st E n hWF hND,
   buildSnapshot_total st E,
   fun V S txs => sp_AddBlock V S st txs,
   fun V S prevHash txs => sp_AddBlockExternal V S st prevHash txs,
   fun address amount => sp_setBalance st address amount,
   fun name stake pubKey priv => sp_addValidatorB st name stake pubKey priv⟩

/-- C5 witness: the theorem applied to the concrete one-validator state
`stJail` at epoch `1`, whose registry is well-keyed. -/
theorem ensure_snapshot_spec_witness :
    (∀ p ∈ stJail.validators, p.2.name = p.1) ∧
    ((stJail.validators.map Prod.fst).Nodup) ∧
    (lookupA stJail.snapshots 1 = none →
      lookupA (ensureSnapshot stJail 1).snapshots 1 = some (buildSnapshot stJail 1)) :=
  ⟨by decide, by decide, (ensure_snapshot_spec stJail 1 (by decide) (by decide)).2.1⟩

/-- C5 counterexample: with `EpochLength = 100`, a validator jailed until epoch
`2` is included in the epoch-`1` snapshot even though `1 < 2`, because the code
tests `IsJailed` at slot `1 * 100`, whose `SlotsPerEpoch`-derived epoch is `2`;
the claim's rule "excluded iff `E < JailedUntilEpoch`" fails for this
configured `EpochLength`. -/
theorem ensure_snapshot_jail_counterexample :
    lookupA stJail.snapshots 1 = none ∧
    (1 : Nat) < (lookupD stJail.stats "v" zeroStats).jailedUntilEpoch ∧
    lookupA (ensureSnapshot stJail 1).snapshots 1 = some (buildSnapshot stJail 1) ∧
    lookupA (buildSnapshot stJail 1).validators "v" = some 10 := by
  refine ⟨rfl, by decide, ?_, by decide⟩
  exact ensureSnapshot_creates stJail 1 rfl

/-! ## C1: fork-choice comparison and the canonical-tip guard -/

theorem betterScore_iff (a b : ChainScore) :
    betterScore a b = true ↔
      (b.cumulativeWeight < a.cumulativeWeight ∨
       (a.cumulativeWeight = b.cumulativeWeight ∧ b.slot < a.slot) ∨
       (a.cumulativeWeight = b.cumulativeWeight ∧ a.slot = b.slot ∧
        goStrLt a.hash b.hash = true)) := by
  unfold betterScore
  by_cases hw : a.cumulativeWeight = b.cumulativeWeight
  · by_cases hs : a.slot = b.slot
    · simp [hw, hs, lt_irrefl]
    · simp [hw, hs]
  · simp [hw]

theorem betterScore_self (a : ChainScore) : betterScore a a = false := by
  unfold betterScore
  simp [goStrLt, charsLt_irrefl]

theorem updateCanonical_keeps (st : ChainState) (tipHash : String)
    (h0 : ¬ st.canonicalTip = "")
    (hnb : betterScore (scoreTip (scoreTip st st.canonicalTip).1 tipHash).2
      (scoreTip st st.canonicalTip).2 = false) :
    (updateCanonical st tipHash).2 = false ∧
    (updateCanonical st tipHash).1.canonicalTip = st.canonicalTip := by
  suffices H : ∀ r, updateCanonical st tipHash = r →
      r.2 = false ∧ r.1.canonicalTip = st.canonicalTip from H _ rfl
  intro r h
  unfold updateCanonical at h
  rw [if_neg h0] at h
  split at h
  next st1 currentScore h1 =>
    split at h
    next st2 newScore h2 =>
      have hnb2 : betterScore newScore currentScore = false := by
        rw [h1] at hnb
        rw [show ((st1, currentScore).1) = st1 from rfl,
            show ((st1, currentScore).2) = currentScore from rfl] at hnb
        rw [h2] at hnb
        exact hnb
      simp only [hnb2, Bool.false_eq_true, if_false, ite_false] at h
      cases h
      refine ⟨rfl, ?_⟩
      have e1 := ensureEvolve_scoreTip st st.canonicalTip
      rw [h1] at e1
      have e2 := ensureEvolve_scoreTip st1 tipHash
      rw [h2] at e2
      show st2.canonicalTip = st.canonicalTip
      have c1 : st1.canonicalTip = st.canonicalTip := ensureEvolve_canonicalTip e1
      have c2 : st2.canonicalTip = st1.canonicalTip := ensureEvolve_canonicalTip e2
      exact c2.trans c1

/-- C1: `betterScore a b` holds iff `a` beats `b` lexicographically on
(cumulative weight descending, tip slot descending, tip hash ascending in Go
string order); it is irreflexive, and when the candidate tip's score does not
beat the current canonical tip's score `updateCanonical` reports no change and
leaves the canonical tip exactly as it was. -/
theorem better_score_spec (a b : ChainScore) (st : ChainState) (tipHash : String)
    (h0 : ¬ st.canonicalTip = "")
    (hnb : betterScore (scoreTip (scoreTip st st.canonicalTip).1 tipHash).2
      (scoreTip st st.canonicalTip).2 = false) :
    (betterScore a b = true ↔
      (b.cumulativeWeight < a.cumulativeWeight ∨
       (a.cumulativeWeight = b.cumulativeWeight ∧ b.slot < a.slot) ∨
       (a.cumulativeWeight = b.cumulativeWeight ∧ a.slot = b.slot ∧
        goStrLt a.hash b.hash = true))) ∧
    betterScore a a = false ∧
    (updateCanonical st tipHash).2 = false ∧
    (updateCanonical st tipHash).1.canonicalTip = st.canonicalTip :=
  ⟨betterScore_iff a b, betterScore_self a, (updateCanonical_keeps st tipHash h0 hnb).1,
   (updateCanonical_keeps st tipHash h0 hnb).2⟩

/-- C1 witness: on the concrete one-block state `stC1`, re-offering the
canonical tip itself scores equal, is rejected, and the tip is kept. -/
theorem better_score_spec_witness :
    (¬ stC1.canonicalTip = "") ∧
    (betterScore (scoreTip (scoreTip stC1 stC1.canonicalTip).1 "ha").2
      (scoreTip stC1 stC1.canonicalTip).2 = false) ∧
    (updateCanonical stC1 "ha").2 = false ∧
    (updateCanonical stC1 "ha").1.canonicalTip = stC1.canonicalTip :=
  ⟨by decide, by decide,
   (better_score_spec zeroChainScore zeroChainScore stC1 "ha" (by decide) (by decide)).2.2.1,
   (better_score_spec zeroChainScore zeroChainScore stC1 "ha" (by decide) (by decide)).2.2.2⟩

/-! ## C3: the reorg weight-delta guard -/

theorem max_one_ite (x : Nat) : (if x = 0 then 1 else x) = max 1 x := by
  by_cases h : x = 0
  · simp [h]
  · have : 1 ≤ x := Nat.one_le_iff_ne_zero.mpr h
    simp [h, Nat.max_eq_right this]

theorem weightDeltaSatisfied_true (st : ChainState) (oldW newW : Nat)
    (hP : 0 < st.config.minReorgWeightDeltaP)
    (h : (weightDeltaSatisfied st oldW newW).2 = true) :
    addU64 oldW
      (max 1 (mulU64 (activeStake st).2 (toU64 st.config.minReorgWeightDeltaP) / 100))
      ≤ newW := by
  unfold weightDeltaSatisfied at h
  rw [if_neg (not_le.mpr hP)] at h
  by_cases hle : newW ≤ oldW
  · rw [if_pos hle] at h
    simp at h
  · rw [if_neg hle] at h
    rcases ha : activeStake st with ⟨st1, active⟩
    rw [ha] at h
    simp only [decide_eq_true_eq] at h
    rw [max_one_ite] at h
    exact h

theorem updateCanonical_delta (st : ChainState) (tipHash : String)
    (st1 st2 : ChainState) (cur new : ChainScore)
    (h0 : ¬ st.canonicalTip = "")
    (h1 : scoreTip st st.canonicalTip = (st1, cur))
    (h2 : scoreTip st1 tipHash = (st2, new))
    (hP : 0 < st2.config.minReorgWeightDeltaP)
    (hacc : (updateCanonical st tipHash).2 = true) :
    addU64 cur.cumulativeWeight
      (max 1 (mulU64 (activeStake st2).2 (toU64 st2.config.minReorgWeightDeltaP) / 100))
      ≤ new.cumulativeWeight := by
  rcases hr : updateCanonical st tipHash with ⟨st', b⟩
  rw [hr] at hacc
  unfold updateCanonical at hr
  rw [if_neg h0] at hr
  split at hr
  next st1x curx heq1 =>
    rw [h1] at heq1
    cases heq1
    split at hr
    next st2x newx heq2 =>
      rw [h2] at heq2
      cases heq2
      by_cases hb : betterScore new cur = true
      · rw [if_pos hb] at hr
        split at hr
        · cases hr
          simp at hacc
        next newChain heqC =>
          simp only [] at hr
          by_cases g1 : 0 < st2.finalizedSlot ∧
              (computeReorgDepthAndSlot st2.chain newChain).2 ≤ st2.finalizedSlot
          · rw [if_pos g1] at hr
            cases hr
            simp at hacc
          · rw [if_neg g1] at hr
            by_cases g2 : st2.config.maxReorgDepth <
                ((computeReorgDepthAndSlot st2.chain newChain).1 : Int)
            · rw [if_pos g2] at hr
              cases hr
              simp at hacc
            · rw [if_neg g2] at hr
              by_cases hW : (weightDeltaSatisfied st2 cur.cumulativeWeight
                  new.cumulativeWeight).2 = true
              · exact weightDeltaSatisfied_true st2 _ _ hP hW
              · rw [if_neg hW] at hr
                cases hr
                simp at hacc
      · rw [if_neg (fun hh => hb hh)] at hr
        cases hr
        simp at hacc

/-- C3: whenever `updateCanonical` moves a nonempty canonical tip and
`MinReorgWeightDeltaP > 0`, the new cumulative weight is at least the old one
plus `max 1 (active * MinReorgWeightDeltaP / 100)` where `active` is the
snapshot `TotalStake` the check reads for the current canonical tip's slot at
check time; under the stated no-overflow bounds the uint64 guard arithmetic
coincides with plain integer arithmetic. -/
theorem reorg_weight_delta_spec (st : ChainState) (tipHash : String)
    (st1 st2 : ChainState) (cur new : ChainScore)
    (h0 : ¬ st.canonicalTip = "")
    (h1 : scoreTip st st.canonicalTip = (st1, cur))
    (h2 : scoreTip st1 tipHash = (st2, new))
    (hP : 0 < st2.config.minReorgWeightDeltaP)
    (hacc : (updateCanonical st tipHash).2 = true)
    (hm : (activeStake st2).2 * toU64 st2.config.minReorgWeightDeltaP < U64)
    (ha : cur.cumulativeWeight +
      max 1 ((activeStake st2).2 * toU64 st2.config.minReorgWeightDeltaP / 100) < U64) :
    cur.cumulativeWeight +
      max 1 ((activeStake st2).2 * toU64 st2.config.minReorgWeightDeltaP / 100)
      ≤ new.cumulativeWeight := by
  have h := updateCanonical_delta st tipHash st1 st2 cur new h0 h1 h2 hP hacc
  have e1 : mulU64 (activeStake st2).2 (toU64 st2.config.minReorgWeightDeltaP) =
      (activeStake st2).2 * toU64 st2.config.minReorgWeightDeltaP :=
    Nat.mod_eq_of_lt hm
  rw [e1] at h
  unfold addU64 at h
  rw [Nat.mod_eq_of_lt ha] at h
  exact h

/-- C3 witness: the concrete reorg in `stC3` (stake 100, delta 10 percent) is
accepted and the theorem applies to it. -/
theorem reorg_weight_delta_spec_witness :
    (¬ stC3.canonicalTip = "") ∧
    (0 < ((scoreTip (scoreTip stC3 stC3.canonicalTip).1 "b2").1).config.minReorgWeightDeltaP) ∧
    ((updateCanonical stC3 "b2").2 = true) ∧
    ((scoreTip stC3 stC3.canonicalTip).2).cumulativeWeight +
      max 1 ((activeStake ((scoreTip (scoreTip stC3 stC3.canonicalTip).1 "b2").1)).2 *
        toU64 ((scoreTip (scoreTip stC3 stC3.canonicalTip).1 "b2").1).config.minReorgWeightDeltaP
          / 100)
      ≤ ((scoreTip (scoreTip stC3 stC3.canonicalTip).1 "b2").2).cumulativeWeight :=
  ⟨by decide, by decide, by decide,
   reorg_weight_delta_spec stC3 "b2" (scoreTip stC3 stC3.canonicalTip).1
     (scoreTip (scoreTip stC3 stC3.canonicalTip).1 "b2").1
     (scoreTip stC3 stC3.canonicalTip).2
     (scoreTip (scoreTip stC3 stC3.canonicalTip).1 "b2").2
     (by decide) rfl rfl (by decide) (by decide) (by decide) (by decide)⟩

/-! ## C10: the PoH advance is unconditional and permanent -/

theorem ensureEvolve_poh {st st' : ChainState} (h : EnsureEvolve st st') :
    st'.poh = st.poh := by
  obtain ⟨⟨sn, ce, rfl⟩, _⟩ := h
  rfl

theorem pk_refl (st : ChainState) : pohKept st st := rfl

theorem pk_trans {a b c : ChainState} (h₁ : pohKept a b) (h₂ : pohKept b c) : pohKept a c :=
  h₂.trans h₁

theorem pk_of_eq {st st' : ChainState} (h : st'.poh = st.poh) : pohKept st st' := h

theorem pk_evolve {st st' : ChainState} (h : EnsureEvolve st st') : pohKept st st' :=
  ensureEvolve_poh h

theorem updateFinality_poh (st : ChainState) : (updateFinality st).poh = st.poh := by
  unfold updateFinality
  by_cases h : chainTipSlot st < st.config.finalitySlots
  · simp [h]
  · by_cases h2 : st.finalizedSlot < chainTipSlot st - st.config.finalitySlots <;>
      simp [h, h2]

theorem rebuildStateFromCanonical_poh (st : ChainState) :
    (rebuildStateFromCanonical st).poh = st.poh := by
  unfold rebuildStateFromCanonical
  rcases replayTxs st.genesis (st.chain.drop 1) with e | s <;> rfl

theorem rebuildCanonicalChain_poh (st : ChainState) :
    (rebuildCanonicalChain st).poh = st.poh := by
  unfold rebuildCanonicalChain
  by_cases h : st.canonicalTip = ""
  · simp [h]
  · simp only [h, if_false, ite_false]
    rw [rebuildStateFromCanonical_poh]
    rfl

theorem registerSlotProducer_poh (st : ChainState) (block : Block) :
    (registerSlotProducer st block).1.poh = st.poh := by
  simp only [registerSlotProducer]
  rcases h : lookupA (lookupD st.slotProducers block.slot []) block.validator with _ | ex
  · simp [h]
  · simp only [h]
    by_cases he : ex = block.hash
    · simp [he]
    · simp [he, handleEquivocation]

theorem pk_updateCanonical (st : ChainState) (tipHash : String) :
    pohKept st (updateCanonical st tipHash).1 := by
  unfold updateCanonical
  by_cases h0 : st.canonicalTip = ""
  · simp only [h0, if_true, ite_true]
    apply pk_of_eq
    rw [updateFinality_poh, rebuildCanonicalChain_poh]
  · simp only [h0, if_false, ite_false]
    have e1 := ensureEvolve_scoreTip st st.canonicalTip
    rcases h1 : scoreTip st st.canonicalTip with ⟨st1, currentScore⟩
    rw [h1] at e1
    have e2 := ensureEvolve_scoreTip st1 tipHash
    rcases h2 : scoreTip st1 tipHash with ⟨st2, newScore⟩
    rw [h2] at e2
    have sp2 : pohKept st st2 := pk_evolve (ensureEvolve_trans e1 e2)
    by_cases hbs : betterScore newScore currentScore
    · simp only [hbs, if_true, ite_true]
      rcases hc : chainFromTip st2 tipHash with _ | newChain
      · exact sp2
      · simp only []
        by_cases hf : 0 < st2.finalizedSlot ∧
            (computeReorgDepthAndSlot st2.chain newChain).2 ≤ st2.finalizedSlot
        · simpa [hf] using pk_trans sp2 (pk_of_eq rfl)
        · simp only [hf, if_false, ite_false]
          by_cases hd : st2.config.maxReorgDepth <
              ((computeReorgDepthAndSlot st2.chain newChain).1 : Int)
          · simpa [hd] using pk_trans sp2 (pk_of_eq rfl)
          · simp only [hd, if_false, ite_false]
            have e3 := weightDeltaSatisfied_fst st2 currentScore.cumulativeWeight
              newScore.cumulativeWeight
            rcases h3 : weightDeltaSatisfied st2 currentScore.cumulativeWeight
                newScore.cumulativeWeight with ⟨st3, ok⟩
            rw [h3] at e3
            have sp3 : pohKept st st3 := pk_trans sp2 (pk_evolve e3)
            by_cases hok : ok
            · simp only [hok, if_true, ite_true]
              apply pk_trans sp3
              apply pk_of_eq
              rw [updateFinality_poh, rebuildStateFromCanonical_poh]
              by_cases hr1 : 0 < (computeReorgDepthAndSlot st2.chain newChain).1
              · by_cases hr2 : 1 < (computeReorgDepthAndSlot st2.chain newChain).1 <;>
                  simp [hr1, hr2, rebuildSlotMap]
              · simp [hr1, rebuildSlotMap]
            · simp only [hok, if_false, ite_false]
              have e4 := weightDeltaRequired_fst st3 currentScore.cumulativeWeight
                newScore.cumulativeWeight
              rcases h4 : weightDeltaRequired st3 currentScore.cumulativeWeight
                  newScore.cumulativeWeight with ⟨st4, rest⟩
              rw [h4] at e4
              exact pk_trans sp3 (pk_trans (pk_evolve e4) (pk_of_eq rfl))
    · simp only [hbs, if_false, ite_false]
      exact sp2

theorem pk_missedStep (st : ChainState) (slot : Nat) :
    pohKept st (missedStep st slot) := by
  suffices H : ∀ st', missedStep st slot = st' → pohKept st st' from H _ rfl
  intro st' h
  simp only [missedStep] at h
  have sp1 : pohKept st (leaderForSlot st slot).1 :=
    pk_evolve (ensureEvolve_leaderForSlot st slot)
  split at h
  · rw [← h]
    exact sp1
  · split at h
    · split at h
      · rw [← h]
        exact pk_trans sp1 (pk_of_eq rfl)
      · rw [← h]
        exact pk_trans sp1 (pk_of_eq rfl)
    · rw [← h]
      exact sp1

theorem pk_foldl_missed :
    ∀ (l : List Nat) (st : ChainState), pohKept st (l.foldl missedStep st) := by
  intro l
  induction l with
  | nil => intro st; exact pk_refl st
  | cons x xs ih =>
    intro st
    exact pk_trans (pk_missedStep st x) (ih (missedStep st x))

theorem pk_processMissedSlots (st : ChainState) (target : Nat) :
    pohKept st (processMissedSlots st target) := by
  simp only [processMissedSlots]
  by_cases h : target ≤ st.lastProcessedSlot
  · simpa [h] using pk_refl st
  · simp only [h, if_false, ite_false]
    exact pk_trans
      (pk_foldl_missed (List.range' (st.lastProcessedSlot + 1) (target - st.lastProcessedSlot)) st)
      (pk_of_eq rfl)

theorem pk_acceptAndFinalize (st : ChainState) (block : Block) (validator : String) :
    pohKept st (acceptAndFinalize st block validator).1 := by
  simp only [acceptAndFinalize]
  have hr := registerSlotProducer_poh st block
  rcases h1 : registerSlotProducer st block with ⟨st1, eqErr⟩
  rw [h1] at hr
  have sp1 : pohKept st st1 := pk_of_eq hr
  have sp3 := pk_updateCanonical (insertBlockF st1 block) block.hash
  rcases h3 : updateCanonical (insertBlockF st1 block) block.hash with ⟨st3, moved⟩
  rw [h3] at sp3
  refine pk_trans sp1 (pk_trans
    (@pk_of_eq st1 (insertBlockF st1 block) rfl)
    (pk_trans sp3 (pk_trans
      (@pk_of_eq st3
        { st3 with validators := RewardValidatorF st3.validators validator } rfl)
      (pk_processMissedSlots _ _))))

theorem pk_leaderEnsure (st : ChainState) (p1 : PoH) :
    pohKept { st with poh := some p1 }
      (leaderForSlot (ensureSnapshotForSlot { st with poh := some p1 } (pohSlot p1))
        (pohSlot p1)).1 :=
  pk_trans
    (pk_evolve (ensureEvolve_ensureSnapshot { st with poh := some p1 }
      (epochForSlot { st with poh := some p1 } (pohSlot p1))))
    (pk_evolve (ensureEvolve_leaderForSlot
      (ensureSnapshotForSlot { st with poh := some p1 } (pohSlot p1)) (pohSlot p1)))

theorem addBlockCore_poh (V : VerOracle) (S : SignOracle) (st : ChainState) (p1 : PoH)
    (txs : List Transaction) : ((addBlockCore V S st p1 txs).1).poh = some p1 := by
  suffices H : pohKept { st with poh := some p1 } (addBlockCore V S st p1 txs).1 from H
  rcases h : addBlockCore V S st p1 txs with ⟨st', o⟩
  rw [show ((st', o).1) = st' from rfl]
  simp only [addBlockCore] at h
  have sp3 := pk_leaderEnsure st p1
  have spS : ∀ v, pohKept { st with poh := some p1 }
      (slashLeader (leaderForSlot (ensureSnapshotForSlot { st with poh := some p1 }
        (pohSlot p1)) (pohSlot p1)).1 v) :=
    fun v => pk_trans sp3 (pk_of_eq rfl)
  split at h
  · cases h
    exact spS _
  · split at h
    · cases h
      exact spS _
    next nextState heqA =>
      split at h
      · cases h
        exact spS _
      next v heqV =>
        split at h
        · cases h
          exact spS _
        next k heqK =>
          split at h
          · cases h
            exact spS _
          next sig heqS =>
            split at h
            next st4 e4 heq4 =>
              cases h
              have hsp4 : pohKept
                  (leaderForSlot (ensureSnapshotForSlot { st with poh := some p1 }
                    (pohSlot p1)) (pohSlot p1)).1 st4 := by
                rcases verifyBlockOnAccept_fst V _ _ _ _ st4 (some e4) heq4 with h1 | h1 <;>
                  rw [h1]
                · exact pk_refl _
                · exact pk_evolve (ensureEvolve_snapshotForSlot _ _)
              exact pk_trans sp3 (pk_trans hsp4 (pk_of_eq rfl))
            next st4 heq4 =>
              have hsp4 : pohKept
                  (leaderForSlot (ensureSnapshotForSlot { st with poh := some p1 }
                    (pohSlot p1)) (pohSlot p1)).1 st4 := by
                rcases verifyBlockOnAccept_fst V _ _ _ _ st4 none heq4 with h1 | h1 <;>
                  rw [h1]
                · exact pk_refl _
                · exact pk_evolve (ensureEvolve_snapshotForSlot _ _)
              have sp5 : pohKept st4 st' := by
                rw [show st' = ((st', o).1) from rfl, ← h]
                exact pk_acceptAndFinalize _ _ _
              exact pk_trans sp3 (pk_trans hsp4 sp5)

theorem addBlockExtCore_poh (V : VerOracle) (S : SignOracle) (st : ChainState)
    (prevHash : String) (parent : Block) (p1 : PoH) (txs : List Transaction) :
    ((addBlockExtCore V S st prevHash parent p1 txs).1).poh = some p1 := by
  suffices H : pohKept { st with poh := some p1 }
      (addBlockExtCore V S st prevHash parent p1 txs).1 from H
  rcases h : addBlockExtCore V S st prevHash parent p1 txs with ⟨st', rest⟩
  rw [show ((st', rest).1) = st' from rfl]
  simp only [addBlockExtCore] at h
  have sp3 := pk_leaderEnsure st p1
  have spS : ∀ v, pohKept { st with poh := some p1 }
      (slashLeader (leaderForSlot (ensureSnapshotForSlot { st with poh := some p1 }
        (pohSlot p1)) (pohSlot p1)).1 v) :=
    fun v => pk_trans sp3 (pk_of_eq rfl)
  split at h
  · cases h
    exact spS _
  · split at h
    · cases h
      exact sp3
    next parentState heqP =>
      split at h
      · cases h
        exact spS _
      next nextState heqA =>
        split at h
        · cases h
          exact spS _
        next v heqV =>
          split at h
          · cases h
            exact spS _
          next k heqK =>
            split at h
            · cases h
              exact spS _
            next sig heqS =>
              split at h
              next st4 e4 heq4 =>
                cases h
                have hsp4 : pohKept
                    (leaderForSlot (ensureSnapshotForSlot { st with poh := some p1 }
                      (pohSlot p1)) (pohSlot p1)).1 st4 := by
                  rcases verifyBlockOnAccept_fst V _ _ _ _ st4 (some e4) heq4 with h1 | h1 <;>
                    rw [h1]
                  · exact pk_refl _
                  · exact pk_evolve (ensureEvolve_snapshotForSlot _ _)
                exact pk_trans sp3 (pk_trans hsp4 (pk_of_eq rfl))
              next st4 heq4 =>
                have hsp4 : pohKept
                    (leaderForSlot (ensureSnapshotForSlot { st with poh := some p1 }
                      (pohSlot p1)) (pohSlot p1)).1 st4 := by
                  rcases verifyBlockOnAccept_fst V _ _ _ _ st4 none heq4 with h1 | h1 <;>
                    rw [h1]
                  · exact pk_refl _
                  · exact pk_evolve (ensureEvolve_snapshotForSlot _ _)
                cases h
                exact pk_trans sp3 (pk_trans hsp4 (pk_acceptAndFinalize _ _ _))

theorem pohTick_currentTick (n : Nat) :
    ∀ p : PoH, p.currentTick + n < U64 →
      (pohTick p n).currentTick = p.currentTick + n := by
  induction n with
  | zero => intro p _; rfl
  | succ m ih =>
    intro p h
    show (pohTick (pohTick1 p) m).currentTick = p.currentTick + (m + 1)
    have h1 : (pohTick1 p).currentTick = p.currentTick + 1 := by
      show addU64 p.currentTick 1 = p.currentTick + 1
      unfold addU64
      exact Nat.mod_eq_of_lt (by omega)
    rw [ih (pohTick1 p) (by rw [h1]; omega), h1]
    omega

/-- C10: past the entry guards, `AddBlock` (and `AddBlockExternal` with a
known parent) leaves the PoH register at exactly `pohTick p TicksPerSlot` on
every path, success or failure, so a failed attempt still consumes the
slot's ticks; with tick room the tick counter grows by exactly
`TicksPerSlot`. -/
theorem poh_advance_spec (V : VerOracle) (S : SignOracle) (st : ChainState)
    (txs : List Transaction) (prevHash : String) (p : PoH)
    (hv : ¬ st.validators = [])
    (hp : st.poh = some p) :
    ((AddBlock V S st txs).1).poh = some (pohTick p TicksPerSlot) ∧
    (∀ parent, lookupA st.blocks prevHash = some parent →
      ((AddBlockExternal V S st prevHash txs).1).poh = some (pohTick p TicksPerSlot)) ∧
    (p.currentTick + TicksPerSlot < U64 →
      (pohTick p TicksPerSlot).currentTick = p.currentTick + TicksPerSlot) := by
  refine ⟨?_, ?_, fun h => pohTick_currentTick TicksPerSlot p h⟩
  · unfold AddBlock
    rw [if_neg hv, hp]
    exact addBlockCore_poh V S st (pohTick p TicksPerSlot) txs
  · intro parent hpar
    unfold AddBlockExternal
    rw [if_neg hv, hp]
    simp only [hpar]
    exact addBlockExtCore_poh V S st prevHash parent (pohTick p TicksPerSlot) txs

/-- C10 witness: the concrete guarded state `stC10`. -/
theorem poh_advance_spec_witness :
    (¬ stC10.validators = []) ∧ stC10.poh = some pohW ∧
    ((AddBlock okVer okSign stC10 []).1).poh = some (pohTick pohW TicksPerSlot) :=
  ⟨by decide, rfl,
   (poh_advance_spec okVer okSign stC10 [] "" pohW (by decide) rfl).1⟩

/-! ## C6: equivocation detection and punishment -/

theorem ensureEvolve_equivocations {st st' : ChainState} (h : EnsureEvolve st st') :
    st'.equivocations = st.equivocations := by
  obtain ⟨⟨sn, ce, rfl⟩, _⟩ := h
  rfl

theorem ok_refl (st : ChainState) : obsKept st st := ⟨rfl, rfl, rfl⟩

theorem ok_trans {a b c : ChainState} (h₁ : obsKept a b) (h₂ : obsKept b c) : obsKept a c := by
  obtain ⟨u1, u2, u3⟩ := h₁
  obtain ⟨w1, w2, w3⟩ := h₂
  exact ⟨w1.trans u1, w2.trans u2, w3.trans u3⟩

theorem ok_evolve {st st' : ChainState} (h : EnsureEvolve st st') : obsKept st st' :=
  ⟨ensureEvolve_blocks h, ensureEvolve_equivocations h, ensureEvolve_stats h⟩

theorem obs_updateFinality (st : ChainState) : obsKept st (updateFinality st) := by
  unfold updateFinality
  by_cases h : chainTipSlot st < st.config.finalitySlots
  · simpa [h] using ok_refl st
  · by_cases h2 : st.finalizedSlot < chainTipSlot st - st.config.finalitySlots
    · simp only [h, h2, if_false, if_true, ite_false, ite_true]
      exact ⟨rfl, rfl, rfl⟩
    · simpa [h, h2] using ok_refl st

theorem obs_rebuildState (st : ChainState) : obsKept st (rebuildStateFromCanonical st) := by
  unfold rebuildStateFromCanonical
  rcases replayTxs st.genesis (st.chain.drop 1) with e | s
  · exact ok_refl st
  · exact ⟨rfl, rfl, rfl⟩

theorem obs_rebuildChain (st : ChainState) : obsKept st (rebuildCanonicalChain st) := by
  unfold rebuildCanonicalChain
  by_cases h : st.canonicalTip = ""
  · simp only [h, if_true, ite_true]
    exact ⟨rfl, rfl, rfl⟩
  · simp only [h, if_false, ite_false]
    exact ok_trans (⟨rfl, rfl, rfl⟩ : obsKept st
        (rebuildSlotMap { st with chain := rebuildWalk (st.blocks.length + 1) st st.canonicalTip [] }))
      (obs_rebuildState _)

theorem ok_updateCanonical (st : ChainState) (tipHash : String) :
    obsKept st (updateCanonical st tipHash).1 := by
  unfold updateCanonical
  by_cases h0 : st.canonicalTip = ""
  · simp only [h0, if_true, ite_true]
    exact ok_trans (⟨rfl, rfl, rfl⟩ : obsKept st { st with canonicalTip := tipHash })
      (ok_trans (obs_rebuildChain _) (obs_updateFinality _))
  · simp only [h0, if_false, ite_false]
    have e1 := ensureEvolve_scoreTip st st.canonicalTip
    rcases h1 : scoreTip st st.canonicalTip with ⟨st1, currentScore⟩
    rw [h1] at e1
    have e2 := ensureEvolve_scoreTip st1 tipHash
    rcases h2 : scoreTip st1 tipHash with ⟨st2, newScore⟩
    rw [h2] at e2
    have sp2 : obsKept st st2 := ok_evolve (ensureEvolve_trans e1 e2)
    by_cases hbs : betterScore newScore currentScore
    · simp only [hbs, if_true, ite_true]
      rcases hc : chainFromTip st2 tipHash with _ | newChain
      · exact sp2
      · simp only []
        by_cases hf : 0 < st2.finalizedSlot ∧
            (computeReorgDepthAndSlot st2.chain newChain).2 ≤ st2.finalizedSlot
        · simp only [hf, if_true, ite_true]
          exact ok_trans sp2 ⟨rfl, rfl, rfl⟩
        · simp only [hf, if_false, ite_false]
          by_cases hd : st2.config.maxReorgDepth <
              ((computeReorgDepthAndSlot st2.chain newChain).1 : Int)
          · simp only [hd, if_true, ite_true]
            exact ok_trans sp2 ⟨rfl, rfl, rfl⟩
          · simp only [hd, if_false, ite_false]
            have e3 := weightDeltaSatisfied_fst st2 currentScore.cumulativeWeight
              newScore.cumulativeWeight
            rcases h3 : weightDeltaSatisfied st2 currentScore.cumulativeWeight
                newScore.cumulativeWeight with ⟨st3, okb⟩
            rw [h3] at e3
            have sp3 : obsKept st st3 := ok_trans sp2 (ok_evolve e3)
            by_cases hok : okb
            · simp only [hok, if_true, ite_true]
              refine ok_trans sp3 (ok_trans ?_
                (ok_trans (obs_rebuildState _) (obs_updateFinality _)))
              by_cases hr1 : 0 < (computeReorgDepthAndSlot st2.chain newChain).1
              · by_cases hr2 : 1 < (computeReorgDepthAndSlot st2.chain newChain).1 <;>
                  exact ⟨by simp [hr1, hr2, rebuildSlotMap], by simp [hr1, hr2, rebuildSlotMap],
                    by simp [hr1, hr2, rebuildSlotMap]⟩
              · exact ⟨by simp [hr1, rebuildSlotMap], by simp [hr1, rebuildSlotMap],
                  by simp [hr1, rebuildSlotMap]⟩
            · simp only [hok, if_false, ite_false]
              have e4 := weightDeltaRequired_fst st3 currentScore.cumulativeWeight
                newScore.cumulativeWeight
              rcases h4 : weightDeltaRequired st3 currentScore.cumulativeWeight
                  newScore.cumulativeWeight with ⟨st4, rest⟩
              rw [h4] at e4
              exact ok_trans sp3 (ok_trans (ok_evolve e4) ⟨rfl, rfl, rfl⟩)
    · simp only [hbs, if_false, ite_false]
      exact sp2

theorem missedStep_blocks_equiv (st : ChainState) (slot : Nat) :
    (missedStep st slot).blocks = st.blocks ∧
    (missedStep st slot).equivocations = st.equivocations := by
  suffices H : ∀ st', missedStep st slot = st' →
      st'.blocks = st.blocks ∧ st'.equivocations = st.equivocations from H _ rfl
  intro st' h
  simp only [missedStep] at h
  have e := ensureEvolve_leaderForSlot st slot
  have hb := ensureEvolve_blocks e
  have hq := ensureEvolve_equivocations e
  split at h
  · rw [← h]
    exact ⟨hb, hq⟩
  · split at h
    · split at h
      · rw [← h]
        exact ⟨hb, hq⟩
      · rw [← h]
        exact ⟨hb, hq⟩
    · rw [← h]
      exact ⟨hb, hq⟩

theorem missedStep_slashed (st : ChainState) (slot : Nat) (v : String) :
    (lookupD (missedStep st slot).stats v zeroStats).slashed =
      (lookupD st.stats v zeroStats).slashed := by
  suffices H : ∀ st', missedStep st slot = st' →
      (lookupD st'.stats v zeroStats).slashed = (lookupD st.stats v zeroStats).slashed from
    H _ rfl
  intro st' h
  simp only [missedStep] at h
  have e := ensureEvolve_leaderForSlot st slot
  have hs : ((leaderForSlot st slot).1).stats = st.stats := ensureEvolve_stats e
  split at h
  · rw [← h, hs]
  · split at h
    · split at h
      · rw [← h]
        by_cases hv : (leaderForSlot st slot).2 = v
        · subst hv
          simp only [lookupD, lookupA_insertA_self, Option.getD_some, hs]
        · show (lookupD (insertA _ _ _) v zeroStats).slashed = _
          unfold lookupD
          rw [lookupA_insertA_ne _ _ _ _ hv, hs]
      · rw [← h]
        by_cases hv : (leaderForSlot st slot).2 = v
        · subst hv
          simp only [lookupD, lookupA_insertA_self, Option.getD_some, hs]
        · show (lookupD (insertA _ _ _) v zeroStats).slashed = _
          unfold lookupD
          rw [lookupA_insertA_ne _ _ _ _ hv, hs]
    · rw [← h, hs]

theorem foldl_missed_obs :
    ∀ (l : List Nat) (st : ChainState) (v : String),
      (l.foldl missedStep st).blocks = st.blocks ∧
      (l.foldl missedStep st).equivocations = st.equivocations ∧
      (lookupD (l.foldl missedStep st).stats v zeroStats).slashed =
        (lookupD st.stats v zeroStats).slashed := by
  intro l
  induction l with
  | nil => intro st v; exact ⟨rfl, rfl, rfl⟩
  | cons x xs ih =>
    intro st v
    rcases ih (missedStep st x) v with ⟨hb, hq, hsl⟩
    rcases missedStep_blocks_equiv st x with ⟨hb0, hq0⟩
    exact ⟨hb.trans hb0, hq.trans hq0, hsl.trans (missedStep_slashed st x v)⟩

theorem processMissedSlots_obs (st : ChainState) (target : Nat) (v : String) :
    (processMissedSlots st target).blocks = st.blocks ∧
    (processMissedSlots st target).equivocations = st.equivocations ∧
    (lookupD (processMissedSlots st target).stats v zeroStats).slashed =
      (lookupD st.stats v zeroStats).slashed := by
  simp only [processMissedSlots]
  by_cases h : target ≤ st.lastProcessedSlot
  · simp [h]
  · simp only [h, if_false, ite_false]
    rcases foldl_missed_obs
        (List.range' (st.lastProcessedSlot + 1) (target - st.lastProcessedSlot)) st v with
      ⟨hb, hq, hsl⟩
    exact ⟨hb, hq, hsl⟩

theorem registerSlotProducer_equivocates (st : ChainState) (block : Block) (existing : String)
    (hrec : lookupA (lookupD st.slotProducers block.slot []) block.validator = some existing)
    (hne : ¬ existing = block.hash) :
    registerSlotProducer st block =
      (handleEquivocation st block.validator block.slot existing block.hash,
       some Err.equivocation) := by
  simp only [registerSlotProducer, hrec]
  rw [if_pos hne]

theorem acceptAndFinalize_after_equiv (st : ChainState) (block : Block) (v existing : String)
    (hrec : lookupA (lookupD st.slotProducers block.slot []) block.validator = some existing)
    (hne : ¬ existing = block.hash) :
    (acceptAndFinalize st block v).2 = some Err.equivocation ∧
    lookupA ((acceptAndFinalize st block v).1).blocks block.hash = some block ∧
    ((acceptAndFinalize st block v).1).equivocations =
      st.equivocations ++
        [{ slot := block.slot, validator := block.validator, blockA := existing,
           blockB := block.hash }] ∧
    (lookupD ((acceptAndFinalize st block v).1).stats block.validator zeroStats).slashed =
      true := by
  have hreg := registerSlotProducer_equivocates st block existing hrec hne
  simp only [acceptAndFinalize, hreg]
  rcases huc : updateCanonical
      (insertBlockF (handleEquivocation st block.validator block.slot existing block.hash)
        block) block.hash with ⟨st3, moved⟩
  have hobs0 := ok_updateCanonical
    (insertBlockF (handleEquivocation st block.validator block.slot existing block.hash)
      block) block.hash
  rw [huc] at hobs0
  have hobs : obsKept
      (insertBlockF (handleEquivocation st block.validator block.slot existing block.hash)
        block) st3 := hobs0
  rcases processMissedSlots_obs
      { st3 with validators := RewardValidatorF st3.validators v }
      (chainTipSlot { st3 with validators := RewardValidatorF st3.validators v })
      block.validator with ⟨hpb, hpq, hps⟩
  refine ⟨?_, ?_, ?_, ?_⟩
  · trivial
  · rw [hpb]
    show lookupA st3.blocks block.hash = some block
    rw [hobs.1]
    show lookupA (insertA _ block.hash block) block.hash = some block
    exact lookupA_insertA_self _ _ _
  · rw [hpq]
    show st3.equivocations = _
    rw [hobs.2.1]
    rfl
  · rw [hps]
    show (lookupD st3.stats block.validator zeroStats).slashed = true
    rw [hobs.2.2]
    show (lookupD (insertA st.stats block.validator _) block.validator zeroStats).slashed
      = true
    unfold lookupD
    rw [lookupA_insertA_self]
    rfl

/-- C6: a second distinct block by the recorded slot producer triggers the
equivocation path: one proof is appended, the validator's stats are marked
slashed and jailed until `slot / SlotsPerEpoch + JailEpochs`, its stake is
slashed by `SlashPercent` percent, and the accepting call still inserts the
block, keeps the appended proof and the slashed mark, and returns the
distinguished equivocation error. -/
theorem equivocation_spec (st : ChainState) (block : Block) (v existing : String)
    (hrec : lookupA (lookupD st.slotProducers block.slot []) block.validator = some existing)
    (hne : ¬ existing = block.hash) :
    registerSlotProducer st block =
      (handleEquivocation st block.validator block.slot existing block.hash,
       some Err.equivocation) ∧
    (handleEquivocation st block.validator block.slot existing block.hash).equivocations =
      st.equivocations ++
        [{ slot := block.slot, validator := block.validator, blockA := existing,
           blockB := block.hash }] ∧
    lookupA (handleEquivocation st block.validator block.slot existing block.hash).stats
        block.validator =
      some { missedSlots := (lookupD st.stats block.validator zeroStats).missedSlots,
             jailedUntilEpoch := addU64 (block.slot / SlotsPerEpoch) JailEpochs,
             slashed := true } ∧
    (handleEquivocation st block.validator block.slot existing block.hash).validators =
      SlashValidatorPercentF st.validators block.validator SlashPercent ∧
    (acceptAndFinalize st block v).2 = some Err.equivocation ∧
    lookupA ((acceptAndFinalize st block v).1).blocks block.hash = some block ∧
    ((acceptAndFinalize st block v).1).equivocations =
      st.equivocations ++
        [{ slot := block.slot, validator := block.validator, blockA := existing,
           blockB := block.hash }] ∧
    (lookupD ((acceptAndFinalize st block v).1).stats block.validator zeroStats).slashed =
      true := by
  rcases acceptAndFinalize_after_equiv st block v existing hrec hne with ⟨h5, h6, h7, h8⟩
  refine ⟨registerSlotProducer_equivocates st block existing hrec hne, rfl, ?_, rfl,
    h5, h6, h7, h8⟩
  show lookupA (insertA st.stats block.validator _) block.validator = _
  rw [lookupA_insertA_self]

/-- C6 witness: the concrete pre-recorded producer in `stC6` and the
conflicting block `blkC6`. -/
theorem equivocation_spec_witness :
    (lookupA (lookupD stC6.slotProducers blkC6.slot []) blkC6.validator = some "hx") ∧
    (¬ "hx" = blkC6.hash) ∧
    ((acceptAndFinalize stC6 blkC6 "v").2 = some Err.equivocation) :=
  ⟨by decide, by decide,
   (equivocation_spec stC6 blkC6 "v" "hx" (by decide) (by decide)).2.2.2.2.1⟩

/-! ## C9: the equivocation path still rewards the producer -/

theorem verifyTransactionsAt_msg (V : VerOracle) :
    ∀ (txs : List Transaction) (i : Nat) (e : Err),
      verifyTransactionsAt V txs i = some e → ∃ s, e = Err.msg s := by
  intro txs
  induction txs with
  | nil =>
    intro i e h
    simp [verifyTransactionsAt] at h
  | cons tx rest ih =>
    intro i e h
    unfold verifyTransactionsAt at h
    by_cases hs : txSigOk V tx
    · rw [if_pos hs] at h
      exact ih (i + 1) e h
    · rw [if_neg hs] at h
      cases h
      exact ⟨_, rfl⟩

theorem verifyBlockSignatureF_msg (V : VerOracle) (block : Block) (pub : String) (e : Err)
    (h : verifyBlockSignatureF V block pub = some e) : ∃ s, e = Err.msg s := by
  unfold verifyBlockSignatureF at h
  split at h
  · cases h
    exact ⟨_, rfl⟩
  · split at h
    · cases h
      exact ⟨_, rfl⟩
    · split at h
      · cases h
        exact ⟨_, rfl⟩
      · split at h
        · cases h
          exact ⟨_, rfl⟩
        · split at h
          · cases h
            exact ⟨_, rfl⟩
          · split at h
            · cases h
              exact ⟨_, rfl⟩
            · exact Option.noConfusion h

theorem verifyBlockOnAccept_msg (V : VerOracle) (st : ChainState) (prev block : Block)
    (state : StateMap) (st' : ChainState) (e : Err)
    (h : verifyBlockOnAccept V st prev block state = (st', some e)) : ∃ s, e = Err.msg s := by
  unfold verifyBlockOnAccept at h
  split at h
  · cases h
    exact ⟨_, rfl⟩
  · split at h
    next x st1 heq =>
      cases h
      exact ⟨_, rfl⟩
    next x st1 snap heq =>
      split at h
      · cases h
        exact ⟨_, rfl⟩
      · split at h
        next e0 heqV =>
          cases h
          exact verifyTransactionsAt_msg V block.transactions 0 _ heqV
        next heqV =>
          split at h
          · cases h
            exact ⟨_, rfl⟩
          · split at h
            next e0 heqA =>
              cases h
              exact ⟨_, rfl⟩
            next ns heqA =>
              split at h
              · cases h
                exact ⟨_, rfl⟩
              · split at h
                next heqL =>
                  cases h
                  exact ⟨_, rfl⟩
                next v heqL =>
                  split at h
                  next e0 heqS =>
                    cases h
                    exact verifyBlockSignatureF_msg V block v.pubKey _ heqS
                  next heqS =>
                    have h2 := congrArg Prod.snd h
                    simp at h2

theorem addBlockCore_equiv_src (V : VerOracle) (S : SignOracle) (st : ChainState) (p1 : PoH)
    (txs : List Transaction) (st' : ChainState) (o : Option Err)
    (h : addBlockCore V S st p1 txs = (st', o)) (ho : o = some Err.equivocation) :
    ∃ stx blk val, st' = (acceptAndFinalize stx blk val).1 ∧
      (acceptAndFinalize stx blk val).2 = some Err.equivocation ∧ blk.validator = val := by
  simp only [addBlockCore] at h
  split at h
  next e0 heqV =>
    cases h
    obtain ⟨s, hs⟩ := verifyTransactionsAt_msg V txs 0 e0 heqV
    simp [hs] at ho
  next heqV =>
    split at h
    next e0 heqA =>
      cases h
      simp at ho
    next ns heqA =>
      split at h
      · cases h
        simp at ho
      next v heqL =>
        split at h
        · cases h
          simp at ho
        next k heqK =>
          split at h
          next e0 heqS =>
            cases h
            simp at ho
          next sig heqS =>
            split at h
            next st4 e4 heq4 =>
              cases h
              obtain ⟨s, hs⟩ := verifyBlockOnAccept_msg V _ _ _ _ st4 e4 heq4
              simp [hs] at ho
            next st4 heq4 =>
              exact ⟨st4, _, _, (congrArg Prod.fst h).symm,
                (congrArg Prod.snd h).trans ho, rfl⟩

theorem addBlockExtCore_equiv_src (V : VerOracle) (S : SignOracle) (st : ChainState)
    (prevHash : String) (parent : Block) (p1 : PoH) (txs : List Transaction)
    (st' : ChainState) (rest : String × Option Err)
    (h : addBlockExtCore V S st prevHash parent p1 txs = (st', rest))
    (ho : rest.2 = some Err.equivocation) :
    ∃ stx blk val, st' = (acceptAndFinalize stx blk val).1 ∧
      (acceptAndFinalize stx blk val).2 = some Err.equivocation ∧ blk.validator = val := by
  simp only [addBlockExtCore] at h
  split at h
  next e0 heqV =>
    cases h
    obtain ⟨s, hs⟩ := verifyTransactionsAt_msg V txs 0 e0 heqV
    simp [hs] at ho
  next heqV =>
    split at h
    next e0 heqP =>
      cases h
      simp at ho
    next parentState heqP =>
      split at h
      next e0 heqA =>
        cases h
        simp at ho
      next ns heqA =>
        split at h
        · cases h
          simp at ho
        next v heqL =>
          split at h
          · cases h
            simp at ho
          next k heqK =>
            split at h
            next e0 heqS =>
              cases h
              simp at ho
            next sig heqS =>
              split at h
              next st4 e4 heq4 =>
                cases h
                obtain ⟨s, hs⟩ := verifyBlockOnAccept_msg V _ _ _ _ st4 e4 heq4
                simp [hs] at ho
              next st4 heq4 =>
                cases h
                exact ⟨st4, _, _, rfl, ho, rfl⟩

theorem AddBlock_equiv_src (V : VerOracle) (S : SignOracle) (st : ChainState)
    (txs : List Transaction) (h : (AddBlock V S st txs).2 = some Err.equivocation) :
    ∃ stx blk val, (AddBlock V S st txs).1 = (acceptAndFinalize stx blk val).1 ∧
      (acceptAndFinalize stx blk val).2 = some Err.equivocation ∧ blk.validator = val := by
  rcases hr : AddBlock V S st txs with ⟨st', o⟩
  rw [hr] at h
  unfold AddBlock at hr
  by_cases h0 : st.validators = []
  · rw [if_pos h0] at hr
    cases hr
    simp at h
  · rw [if_neg h0] at hr
    split at hr
    · cases hr
      simp at h
    next p heqp =>
      obtain ⟨stx, blk, val, h1, h2, h3⟩ :=
        addBlockCore_equiv_src V S st (pohTick p TicksPerSlot) txs st' o hr h
      exact ⟨stx, blk, val, h1, h2, h3⟩

theorem AddBlockExternal_equiv_src (V : VerOracle) (S : SignOracle) (st : ChainState)
    (prevHash : String) (txs : List Transaction)
    (h : (AddBlockExternal V S st prevHash txs).2.2 = some Err.equivocation) :
    ∃ stx blk val,
      (AddBlockExternal V S st prevHash txs).1 = (acceptAndFinalize stx blk val).1 ∧
      (acceptAndFinalize stx blk val).2 = some Err.equivocation ∧ blk.validator = val := by
  rcases hr : AddBlockExternal V S st prevHash txs with ⟨st', rest⟩
  rw [hr] at h
  unfold AddBlockExternal at hr
  by_cases h0 : st.validators = []
  · rw [if_pos h0] at hr
    cases hr
    simp at h
  · rw [if_neg h0] at hr
    split at hr
    · cases hr
      simp at h
    next p heqp =>
      split at hr
      · cases hr
        simp at h
      next parent heqpar =>
        obtain ⟨stx, blk, val, h1, h2, h3⟩ :=
          addBlockExtCore_equiv_src V S st prevHash parent (pohTick p TicksPerSlot) txs
            st' rest hr h
        exact ⟨stx, blk, val, h1, h2, h3⟩

theorem RewardValidatorF_some (vals : List (String × Validator)) (name : String)
    (val : Validator) (h : lookupA vals name = some val) :
    RewardValidatorF vals name =
      insertA vals name { val with stake := addI64 val.stake BlockReward } := by
  unfold RewardValidatorF
  rw [h]

theorem RewardValidatorF_none (vals : List (String × Validator)) (name : String)
    (h : lookupA vals name = none) : RewardValidatorF vals name = vals := by
  unfold RewardValidatorF
  rw [h]

theorem acceptAndFinalize_shape (st : ChainState) (block : Block) (v : String) :
    acceptAndFinalize st block v =
      (processMissedSlots
        { (updateCanonical (insertBlockF (registerSlotProducer st block).1 block)
            block.hash).1 with
            validators := RewardValidatorF
              (updateCanonical (insertBlockF (registerSlotProducer st block).1 block)
                block.hash).1.validators v }
        (chainTipSlot
          { (updateCanonical (insertBlockF (registerSlotProducer st block).1 block)
              block.hash).1 with
              validators := RewardValidatorF
                (updateCanonical (insertBlockF (registerSlotProducer st block).1 block)
                  block.hash).1.validators v }),
       (registerSlotProducer st block).2) := by
  simp only [acceptAndFinalize]

theorem c9poh : pohTick pohW TicksPerSlot = pohT20 := by
  have t1 : pohTick1 pohW = pohT1 := by decide
  have t2 : pohTick1 pohT1 = pohT2 := by decide
  have t3 : pohTick1 pohT2 = pohT3 := by decide
  have t4 : pohTick1 pohT3 = pohT4 := by decide
  have t5 : pohTick1 pohT4 = pohT5 := by decide
  have t6 : pohTick1 pohT5 = pohT6 := by decide
  have t7 : pohTick1 pohT6 = pohT7 := by decide
  have t8 : pohTick1 pohT7 = pohT8 := by decide
  have t9 : pohTick1 pohT8 = pohT9 := by decide
  have t10 : pohTick1 pohT9 = pohT10 := by decide
  have t11 : pohTick1 pohT10 = pohT11 := by decide
  have t12 : pohTick1 pohT11 = pohT12 := by decide
  have t13 : pohTick1 pohT12 = pohT13 := by decide
  have t14 : pohTick1 pohT13 = pohT14 := by decide
  have t15 : pohTick1 pohT14 = pohT15 := by decide
  have t16 : pohTick1 pohT15 = pohT16 := by decide
  have t17 : pohTick1 pohT16 = pohT17 := by decide
  have t18 : pohTick1 pohT17 = pohT18 := by decide
  have t19 : pohTick1 pohT18 = pohT19 := by decide
  have t20 : pohTick1 pohT19 = pohT20 := by decide
  show pohTick pohW 20 = pohT20
  rw [show pohTick pohW 20 = pohTick (pohTick1 pohW) 19 from rfl, t1]
  rw [show pohTick pohT1 19 = pohTick (pohTick1 pohT1) 18 from rfl, t2]
  rw [show pohTick pohT2 18 = pohTick (pohTick1 pohT2) 17 from rfl, t3]
  rw [show pohTick pohT3 17 = pohTick (pohTick1 pohT3) 16 from rfl, t4]
  rw [show pohTick pohT4 16 = pohTick (pohTick1 pohT4) 15 from rfl, t5]
  rw [show pohTick pohT5 15 = pohTick (pohTick1 pohT5) 14 from rfl, t6]
  rw [show pohTick pohT6 14 = pohTick (pohTick1 pohT6) 13 from rfl, t7]
  rw [show pohTick pohT7 13 = pohTick (pohTick1 pohT7) 12 from rfl, t8]
  rw [show pohTick pohT8 12 = pohTick (pohTick1 pohT8) 11 from rfl, t9]
  rw [show pohTick pohT9 11 = pohTick (pohTick1 pohT9) 10 from rfl, t10]
  rw [show pohTick pohT10 10 = pohTick (pohTick1 pohT10) 9 from rfl, t11]
  rw [show pohTick pohT11 9 = pohTick (pohTick1 pohT11) 8 from rfl, t12]
  rw [show pohTick pohT12 8 = pohTick (pohTick1 pohT12) 7 from rfl, t13]
  rw [show pohTick pohT13 7 = pohTick (pohTick1 pohT13) 6 from rfl, t14]
  rw [show pohTick pohT14 6 = pohTick (pohTick1 pohT14) 5 from rfl, t15]
  rw [show pohTick pohT15 5 = pohTick (pohTick1 pohT15) 4 from rfl, t16]
  rw [show pohTick pohT16 4 = pohTick (pohTick1 pohT16) 3 from rfl, t17]
  rw [show pohTick pohT17 3 = pohTick (pohTick1 pohT17) 2 from rfl, t18]
  rw [show pohTick pohT18 2 = pohTick (pohTick1 pohT18) 1 from rfl, t19]
  rw [show pohTick pohT19 1 = pohTick (pohTick1 pohT19) 0 from rfl, t20]
  rfl

theorem stC9_equiv : (AddBlock okVer okSign stC9 []).2 = some Err.equivocation := by
  have e : AddBlock okVer okSign stC9 [] =
      addBlockCore okVer okSign stC9 (pohTick pohW TicksPerSlot) [] := by
    unfold AddBlock
    rw [if_neg (show ¬ stC9.validators = [] by decide)]
    rfl
  rw [e, c9poh]
  decide

/-- C9: the accepting tail applies RewardValidator (credit BlockReward when
the validator is still registered, no-op when it is gone) and missed-slot
processing after the canonical update, returning the registration error
unchanged; whenever `AddBlock` or `AddBlockExternal` returns the equivocation
error, its result state is such a fully processed `acceptAndFinalize` state
for the produced block's validator; the concrete run on `stC9` shows the
equivocation return is reachable. -/
theorem equivocation_reward_spec :
    (∀ (st : ChainState) (block : Block) (v : String),
      acceptAndFinalize st block v =
        (processMissedSlots
          { (updateCanonical (insertBlockF (registerSlotProducer st block).1 block)
              block.hash).1 with
              validators := RewardValidatorF
                (updateCanonical (insertBlockF (registerSlotProducer st block).1 block)
                  block.hash).1.validators v }
          (chainTipSlot
            { (updateCanonical (insertBlockF (registerSlotProducer st block).1 block)
                block.hash).1 with
                validators := RewardValidatorF
                  (updateCanonical (insertBlockF (registerSlotProducer st block).1 block)
                    block.hash).1.validators v }),
         (registerSlotProducer st block).2)) ∧
    (∀ (vals : List (String × Validator)) (name : String) (val : Validator),
      lookupA vals name = some val →
      RewardValidatorF vals name =
        insertA vals name { val with stake := addI64 val.stake BlockReward }) ∧
    (∀ (vals : List (String × Validator)) (name : String),
      lookupA vals name = none → RewardValidatorF vals name = vals) ∧
    (∀ (V : VerOracle) (S : SignOracle) (st : ChainState) (txs : List Transaction),
      (AddBlock V S st txs).2 = some Err.equivocation →
      ∃ stx blk val, (AddBlock V S st txs).1 = (acceptAndFinalize stx blk val).1 ∧
        (acceptAndFinalize stx blk val).2 = some Err.equivocation ∧ blk.validator = val) ∧
    (∀ (V : VerOracle) (S : SignOracle) (st : ChainState) (prevHash : String)
        (txs : List Transaction),
      (AddBlockExternal V S st prevHash txs).2.2 = some Err.equivocation →
      ∃ stx blk val,
        (AddBlockExternal V S st prevHash txs).1 = (acceptAndFinalize stx blk val).1 ∧
        (acceptAndFinalize stx blk val).2 = some Err.equivocation ∧ blk.validator = val) ∧
    (AddBlock okVer okSign stC9 []).2 = some Err.equivocation :=
  ⟨acceptAndFinalize_shape, RewardValidatorF_some, RewardValidatorF_none,
   AddBlock_equiv_src, AddBlockExternal_equiv_src, stC9_equiv⟩

/-! ## C2: finality is monotone and guards reorgs -/

theorem fsm_refl (st : ChainState) : fsMono st st := Nat.le_refl _

theorem fsm_trans {a b c : ChainState} (h₁ : fsMono a b) (h₂ : fsMono b c) : fsMono a c :=
  Nat.le_trans h₁ h₂

theorem fsm_of_eq {st st' : ChainState} (h : st'.finalizedSlot = st.finalizedSlot) :
    fsMono st st' := Nat.le_of_eq h.symm

theorem fsm_evolve {st st' : ChainState} (h : EnsureEvolve st st') : fsMono st st' :=
  fsm_of_eq (ensureEvolve_finalizedSlot h)

theorem fsm_updateFinality (st : ChainState) : fsMono st (updateFinality st) := by
  unfold updateFinality
  by_cases h : chainTipSlot st < st.config.finalitySlots
  · simpa [h] using fsm_refl st
  · simp only [h, if_false, ite_false]
    by_cases h2 : st.finalizedSlot < chainTipSlot st - st.config.finalitySlots
    · simp only [h2, if_true, ite_true]
      exact Nat.le_of_lt h2
    · simpa [h2] using fsm_refl st

theorem rebuildStateFromCanonical_fs (st : ChainState) :
    (rebuildStateFromCanonical st).finalizedSlot = st.finalizedSlot := by
  unfold rebuildStateFromCanonical
  rcases replayTxs st.genesis (st.chain.drop 1) with e | s <;> rfl

theorem rebuildCanonicalChain_fs (st : ChainState) :
    (rebuildCanonicalChain st).finalizedSlot = st.finalizedSlot := by
  unfold rebuildCanonicalChain
  by_cases h : st.canonicalTip = ""
  · simp [h]
  · simp only [h, if_false, ite_false]
    rw [rebuildStateFromCanonical_fs]
    rfl

theorem fsm_updateCanonical (st : ChainState) (tipHash : String) :
    fsMono st (updateCanonical st tipHash).1 := by
  unfold updateCanonical
  by_cases h0 : st.canonicalTip = ""
  · simp only [h0, if_true, ite_true]
    refine fsm_trans (fsm_of_eq ?_) (fsm_trans
      (fsm_of_eq (rebuildCanonicalChain_fs { st with canonicalTip := tipHash }))
      (fsm_updateFinality _))
    rfl
  · simp only [h0, if_false, ite_false]
    have e1 := ensureEvolve_scoreTip st st.canonicalTip
    rcases h1 : scoreTip st st.canonicalTip with ⟨st1, currentScore⟩
    rw [h1] at e1
    have e2 := ensureEvolve_scoreTip st1 tipHash
    rcases h2 : scoreTip st1 tipHash with ⟨st2, newScore⟩
    rw [h2] at e2
    have sp2 : fsMono st st2 := fsm_evolve (ensureEvolve_trans e1 e2)
    by_cases hbs : betterScore newScore currentScore
    · simp only [hbs, if_true, ite_true]
      rcases hc : chainFromTip st2 tipHash with _ | newChain
      · exact sp2
      · simp only []
        by_cases hf : 0 < st2.finalizedSlot ∧
            (computeReorgDepthAndSlot st2.chain newChain).2 ≤ st2.finalizedSlot
        · simpa [hf] using fsm_trans sp2 (fsm_of_eq rfl)
        · simp only [hf, if_false, ite_false]
          by_cases hd : st2.config.maxReorgDepth <
              ((computeReorgDepthAndSlot st2.chain newChain).1 : Int)
          · simpa [hd] using fsm_trans sp2 (fsm_of_eq rfl)
          · simp only [hd, if_false, ite_false]
            have e3 := weightDeltaSatisfied_fst st2 currentScore.cumulativeWeight
              newScore.cumulativeWeight
            rcases h3 : weightDeltaSatisfied st2 currentScore.cumulativeWeight
                newScore.cumulativeWeight with ⟨st3, okb⟩
            rw [h3] at e3
            have sp3 : fsMono st st3 := fsm_trans sp2 (fsm_evolve e3)
            by_cases hok : okb
            · simp only [hok, if_true, ite_true]
              refine fsm_trans sp3 (fsm_trans (fsm_of_eq ?_) (fsm_trans
                (fsm_of_eq (rebuildStateFromCanonical_fs _)) (fsm_updateFinality _)))
              show (rebuildSlotMap _).finalizedSlot = st3.finalizedSlot
              by_cases hr1 : 0 < (computeReorgDepthAndSlot st2.chain newChain).1
              · by_cases hr2 : 1 < (computeReorgDepthAndSlot st2.chain newChain).1 <;>
                  simp [hr1, hr2, rebuildSlotMap]
              · simp [hr1, rebuildSlotMap]
            · simp only [hok, if_false, ite_false]
              have e4 := weightDeltaRequired_fst st3 currentScore.cumulativeWeight
                newScore.cumulativeWeight
              rcases h4 : weightDeltaRequired st3 currentScore.cumulativeWeight
                  newScore.cumulativeWeight with ⟨st4, rest⟩
              rw [h4] at e4
              exact fsm_trans sp3 (fsm_trans (fsm_evolve e4) (fsm_of_eq rfl))
    · simp only [hbs, if_false, ite_false]
      exact sp2

theorem fsm_missedStep (st : ChainState) (slot : Nat) : fsMono st (missedStep st slot) := by
  suffices H : ∀ st', missedStep st slot = st' → fsMono st st' from H _ rfl
  intro st' h
  simp only [missedStep] at h
  have sp1 : fsMono st (leaderForSlot st slot).1 :=
    fsm_evolve (ensureEvolve_leaderForSlot st slot)
  split at h
  · rw [← h]
    exact sp1
  · split at h
    · split at h
      · rw [← h]
        exact fsm_trans sp1 (fsm_of_eq rfl)
      · rw [← h]
        exact fsm_trans sp1 (fsm_of_eq rfl)
    · rw [← h]
      exact sp1

theorem fsm_foldl_missed :
    ∀ (l : List Nat) (st : ChainState), fsMono st (l.foldl missedStep st) := by
  intro l
  induction l with
  | nil => intro st; exact fsm_refl st
  | cons x xs ih =>
    intro st
    exact fsm_trans (fsm_missedStep st x) (ih (missedStep st x))

theorem fsm_processMissedSlots (st : ChainState) (target : Nat) :
    fsMono st (processMissedSlots st target) := by
  simp only [processMissedSlots]
  by_cases h : target ≤ st.lastProcessedSlot
  · simpa [h] using fsm_refl st
  · simp only [h, if_false, ite_false]
    exact fsm_trans
      (fsm_foldl_missed (List.range' (st.lastProcessedSlot + 1) (target - st.lastProcessedSlot)) st)
      (fsm_of_eq rfl)

theorem fsm_acceptAndFinalize (st : ChainState) (block : Block) (validator : String) :
    fsMono st (acceptAndFinalize st block validator).1 := by
  simp only [acceptAndFinalize]
  have hr : (registerSlotProducer st block).1.finalizedSlot = st.finalizedSlot := by
    simp only [registerSlotProducer]
    rcases h : lookupA (lookupD st.slotProducers block.slot []) block.validator with _ | ex
    · simp [h]
    · simp only [h]
      by_cases he : ex = block.hash
      · simp [he]
      · simp [he, handleEquivocation]
  rcases h1 : registerSlotProducer st block with ⟨st1, eqErr⟩
  rw [h1] at hr
  have sp1 : fsMono st st1 := fsm_of_eq hr
  have sp3 := fsm_updateCanonical (insertBlockF st1 block) block.hash
  rcases h3 : updateCanonical (insertBlockF st1 block) block.hash with ⟨st3, moved⟩
  rw [h3] at sp3
  refine fsm_trans sp1 (fsm_trans
    (@fsm_of_eq st1 (insertBlockF st1 block) rfl)
    (fsm_trans sp3 (fsm_trans
      (@fsm_of_eq st3
        { st3 with validators := RewardValidatorF st3.validators validator } rfl)
      (fsm_processMissedSlots _ _))))

theorem fsm_leaderEnsure (st : ChainState) (p1 : PoH) :
    fsMono st
      (leaderForSlot (ensureSnapshotForSlot { st with poh := some p1 } (pohSlot p1))
        (pohSlot p1)).1 :=
  fsm_trans
    (fsm_trans (@fsm_of_eq st { st with poh := some p1 } rfl)
      (fsm_evolve (ensureEvolve_ensureSnapshot { st with poh := some p1 }
        (epochForSlot { st with poh := some p1 } (pohSlot p1)))))
    (fsm_evolve (ensureEvolve_leaderForSlot
      (ensureSnapshotForSlot { st with poh := some p1 } (pohSlot p1)) (pohSlot p1)))

theorem fsm_addBlockCore (V : VerOracle) (S : SignOracle) (st : ChainState) (p1 : PoH)
    (txs : List Transaction) : fsMono st (addBlockCore V S st p1 txs).1 := by
  rcases h : addBlockCore V S st p1 txs with ⟨st', o⟩
  rw [show ((st', o).1) = st' from rfl]
  simp only [addBlockCore] at h
  have sp3 := fsm_leaderEnsure st p1
  have spS : ∀ v, fsMono st
      (slashLeader (leaderForSlot (ensureSnapshotForSlot { st with poh := some p1 }
        (pohSlot p1)) (pohSlot p1)).1 v) :=
    fun v => fsm_trans sp3 (fsm_of_eq rfl)
  split at h
  · cases h
    exact spS _
  · split at h
    · cases h
      exact spS _
    next nextState heqA =>
      split at h
      · cases h
        exact spS _
      next v heqV =>
        split at h
        · cases h
          exact spS _
        next k heqK =>
          split at h
          · cases h
            exact spS _
          next sig heqS =>
            split at h
            next st4 e4 heq4 =>
              cases h
              have hsp4 : fsMono
                  (leaderForSlot (ensureSnapshotForSlot { st with poh := some p1 }
                    (pohSlot p1)) (pohSlot p1)).1 st4 := by
                rcases verifyBlockOnAccept_fst V _ _ _ _ st4 (some e4) heq4 with h1 | h1 <;>
                  rw [h1]
                · exact fsm_refl _
                · exact fsm_evolve (ensureEvolve_snapshotForSlot _ _)
              exact fsm_trans sp3 (fsm_trans hsp4 (fsm_of_eq rfl))
            next st4 heq4 =>
              have hsp4 : fsMono
                  (leaderForSlot (ensureSnapshotForSlot { st with poh := some p1 }
                    (pohSlot p1)) (pohSlot p1)).1 st4 := by
                rcases verifyBlockOnAccept_fst V _ _ _ _ st4 none heq4 with h1 | h1 <;>
                  rw [h1]
                · exact fsm_refl _
                · exact fsm_evolve (ensureEvolve_snapshotForSlot _ _)
              have sp5 : fsMono st4 st' := by
                rw [show st' = ((st', o).1) from rfl, ← h]
                exact fsm_acceptAndFinalize _ _ _
              exact fsm_trans sp3 (fsm_trans hsp4 sp5)

theorem fsm_addBlockExtCore (V : VerOracle) (S : SignOracle) (st : ChainState)
    (prevHash : String) (parent : Block) (p1 : PoH) (txs : List Transaction) :
    fsMono st (addBlockExtCore V S st prevHash parent p1 txs).1 := by
  rcases h : addBlockExtCore V S st prevHash parent p1 txs with ⟨st', rest⟩
  rw [show ((st', rest).1) = st' from rfl]
  simp only [addBlockExtCore] at h
  have sp3 := fsm_leaderEnsure st p1
  have spS : ∀ v, fsMono st
      (slashLeader (leaderForSlot (ensureSnapshotForSlot { st with poh := some p1 }
        (pohSlot p1)) (pohSlot p1)).1 v) :=
    fun v => fsm_trans sp3 (fsm_of_eq rfl)
  split at h
  · cases h
    exact spS _
  · split at h
    · cases h
      exact sp3
    next parentState heqP =>
      split at h
      · cases h
        exact spS _
      next nextState heqA =>
        split at h
        · cases h
          exact spS _
        next v heqV =>
          split at h
          · cases h
            exact spS _
          next k heqK =>
            split at h
            · cases h
              exact spS _
            next sig heqS =>
              split at h
              next st4 e4 heq4 =>
                cases h
                have hsp4 : fsMono
                    (leaderForSlot (ensureSnapshotForSlot { st with poh := some p1 }
                      (pohSlot p1)) (pohSlot p1)).1 st4 := by
                  rcases verifyBlockOnAccept_fst V _ _ _ _ st4 (some e4) heq4 with h1 | h1 <;>
                    rw [h1]
                  · exact fsm_refl _
                  · exact fsm_evolve (ensureEvolve_snapshotForSlot _ _)
                exact fsm_trans sp3 (fsm_trans hsp4 (fsm_of_eq rfl))
              next st4 heq4 =>
                have hsp4 : fsMono
                    (leaderForSlot (ensureSnapshotForSlot { st with poh := some p1 }
                      (pohSlot p1)) (pohSlot p1)).1 st4 := by
                  rcases verifyBlockOnAccept_fst V _ _ _ _ st4 none heq4 with h1 | h1 <;>
                    rw [h1]
                  · exact fsm_refl _
                  · exact fsm_evolve (ensureEvolve_snapshotForSlot _ _)
                cases h
                exact fsm_trans sp3 (fsm_trans hsp4 (fsm_acceptAndFinalize _ _ _))

theorem fsm_AddBlock (V : VerOracle) (S : SignOracle) (st : ChainState)
    (txs : List Transaction) : fsMono st (AddBlock V S st txs).1 := by
  simp only [AddBlock]
  by_cases h0 : st.validators = []
  · simpa [h0] using fsm_refl st
  · simp only [h0, if_false, ite_false]
    rcases st.poh with _ | p
    · exact fsm_refl st
    · exact fsm_addBlockCore V S st (pohTick p TicksPerSlot) txs

theorem fsm_AddBlockExternal (V : VerOracle) (S : SignOracle) (st : ChainState)
    (prevHash : String) (txs : List Transaction) :
    fsMono st (AddBlockExternal V S st prevHash txs).1 := by
  simp only [AddBlockExternal]
  by_cases h0 : st.validators = []
  · simpa [h0] using fsm_refl st
  · simp only [h0, if_false, ite_false]
    rcases st.poh with _ | p
    · exact fsm_refl st
    · rcases lookupA st.blocks prevHash with _ | parent
      · exact fsm_refl st
      · exact fsm_addBlockExtCore V S st prevHash parent (pohTick p TicksPerSlot) txs

theorem fsm_setBalance (st : ChainState) (address : String) (amount : Int) :
    fsMono st (setBalance st address amount) := by
  unfold setBalance
  by_cases h : amount < 0
  · simpa [h] using fsm_refl st
  · by_cases h2 : ({ st with state := insertA st.state address amount } : ChainState).chain.length ≤ 1 <;>
      simp [h, h2] <;> exact fsm_of_eq rfl

theorem fsm_addValidatorB (st : ChainState) (name : String) (stake : Int) (pubKey : String)
    (priv : Option Nat) : fsMono st (addValidatorB st name stake pubKey priv).1 := by
  unfold addValidatorB
  rcases AddValidatorF st.validators st.stats name stake pubKey priv with ⟨vs, ss, e⟩
  exact fsm_of_eq rfl

theorem updateFinality_formula (s : ChainState) :
    (updateFinality s).finalizedSlot =
      if s.config.finalitySlots ≤ chainTipSlot s
      then max s.finalizedSlot (chainTipSlot s - s.config.finalitySlots)
      else s.finalizedSlot := by
  unfold updateFinality
  by_cases h : chainTipSlot s < s.config.finalitySlots
  · rw [if_neg (not_le.mpr h)]
    simp [h]
  · rw [if_pos (not_lt.mp h)]
    by_cases h2 : s.finalizedSlot < chainTipSlot s - s.config.finalitySlots
    · simp only [h, if_false, ite_false, h2, if_true, ite_true]
      exact (Nat.max_eq_right (Nat.le_of_lt h2)).symm
    · simp only [h, if_false, ite_false, h2]
      exact (Nat.max_eq_left (not_lt.mp h2)).symm

theorem updateCanonical_diverge_guard (st : ChainState) (tipHash : String)
    (st1 st2 : ChainState) (cur new : ChainScore)
    (h0 : ¬ st.canonicalTip = "")
    (h1 : scoreTip st st.canonicalTip = (st1, cur))
    (h2 : scoreTip st1 tipHash = (st2, new))
    (hacc : (updateCanonical st tipHash).2 = true)
    (hfs : 0 < st2.finalizedSlot) :
    ∀ newChain, chainFromTip st2 tipHash = some newChain →
      st2.finalizedSlot < (computeReorgDepthAndSlot st2.chain newChain).2 := by
  intro newChain hchain
  rcases hr : updateCanonical st tipHash with ⟨st', b⟩
  rw [hr] at hacc
  unfold updateCanonical at hr
  rw [if_neg h0] at hr
  split at hr
  next st1x curx heq1 =>
    rw [h1] at heq1
    cases heq1
    split at hr
    next st2x newx heq2 =>
      rw [h2] at heq2
      cases heq2
      by_cases hb : betterScore new cur = true
      · rw [if_pos hb] at hr
        split at hr
        · cases hr
          simp at hacc
        next newChainx heqC =>
          rw [hchain] at heqC
          cases heqC
          simp only [] at hr
          by_cases g1 : 0 < st2.finalizedSlot ∧
              (computeReorgDepthAndSlot st2.chain newChain).2 ≤ st2.finalizedSlot
          · rw [if_pos g1] at hr
            cases hr
            simp at hacc
          · by_cases hlt : (computeReorgDepthAndSlot st2.chain newChain).2 ≤ st2.finalizedSlot
            · exact absurd ⟨hfs, hlt⟩ g1
            · exact not_le.mp hlt
      · rw [if_neg (fun hh => hb hh)] at hr
        cases hr
        simp at hacc

/-- C2: the finalized slot never decreases across any engine operation;
`updateFinality` — the only writer — sets it to
`max finalized (tip_slot - FinalitySlots)` when `tip_slot ≥ FinalitySlots`
and leaves it unchanged otherwise; and once anything is finalized
(`finalized_slot > 0`), no accepted canonical-tip change diverges at or
below the finalized slot. -/
theorem finality_spec (st : ChainState) (tipHash : String)
    (st1 st2 : ChainState) (cur new : ChainScore)
    (h0 : ¬ st.canonicalTip = "")
    (h1 : scoreTip st st.canonicalTip = (st1, cur))
    (h2 : scoreTip st1 tipHash = (st2, new)) :
    (∀ V S txs, st.finalizedSlot ≤ ((AddBlock V S st txs).1).finalizedSlot) ∧
    (∀ V S prevHash txs,
      st.finalizedSlot ≤ ((AddBlockExternal V S st prevHash txs).1).finalizedSlot) ∧
    (∀ address amount, st.finalizedSlot ≤ (setBalance st address amount).finalizedSlot) ∧
    (∀ name stake pubKey priv,
      st.finalizedSlot ≤ ((addValidatorB st name stake pubKey priv).1).finalizedSlot) ∧
    (∀ s : ChainState, (updateFinality s).finalizedSlot =
      if s.config.finalitySlots ≤ chainTipSlot s
      then max s.finalizedSlot (chainTipSlot s - s.config.finalitySlots)
      else s.finalizedSlot) ∧
    ((updateCanonical st tipHash).2 = true → 0 < st2.finalizedSlot →
      ∀ newChain, chainFromTip st2 tipHash = some newChain →
        st2.finalizedSlot < (computeReorgDepthAndSlot st2.chain newChain).2) :=
  ⟨fun V S txs => fsm_AddBlock V S st txs,
   fun V S prevHash txs => fsm_AddBlockExternal V S st prevHash txs,
   fun address amount => fsm_setBalance st address amount,
   fun name stake pubKey priv => fsm_addValidatorB st name stake pubKey priv,
   updateFinality_formula,
   fun hacc hfs => updateCanonical_diverge_guard st tipHash st1 st2 cur new h0 h1 h2
     hacc hfs⟩

/-- C2 witness: the theorem applied to the concrete reorg state `stC3`. -/
theorem finality_spec_witness :
    (¬ stC3.canonicalTip = "") ∧
    (∀ V S txs, stC3.finalizedSlot ≤ ((AddBlock V S stC3 txs).1).finalizedSlot) :=
  ⟨by decide,
   (finality_spec stC3 "b2" (scoreTip stC3 stC3.canonicalTip).1
     (scoreTip (scoreTip stC3 stC3.canonicalTip).1 "b2").1
     (scoreTip stC3 stC3.canonicalTip).2
     (scoreTip (scoreTip stC3 stC3.canonicalTip).1 "b2").2
     (by decide) rfl rfl).1⟩

/-! ## C8: runs agree up to signature bytes -/

theorem ebIndex {c d : Block} (h : eraseB c = eraseB d) : c.index = d.index :=
  show (eraseB c).index = (eraseB d).index from congrArg Block.index h

theorem ebPrevHash {c d : Block} (h : eraseB c = eraseB d) : c.prevHash = d.prevHash :=
  show (eraseB c).prevHash = (eraseB d).prevHash from congrArg Block.prevHash h

theorem ebSlot {c d : Block} (h : eraseB c = eraseB d) : c.slot = d.slot :=
  show (eraseB c).slot = (eraseB d).slot from congrArg Block.slot h

theorem ebTick {c d : Block} (h : eraseB c = eraseB d) : c.tick = d.tick :=
  show (eraseB c).tick = (eraseB d).tick from congrArg Block.tick h

theorem ebValidator {c d : Block} (h : eraseB c = eraseB d) : c.validator = d.validator :=
  show (eraseB c).validator = (eraseB d).validator from congrArg Block.validator h

theorem ebTxRoot {c d : Block} (h : eraseB c = eraseB d) : c.txRoot = d.txRoot :=
  show (eraseB c).txRoot = (eraseB d).txRoot from congrArg Block.txRoot h

theorem ebStateRoot {c d : Block} (h : eraseB c = eraseB d) : c.stateRoot = d.stateRoot :=
  show (eraseB c).stateRoot = (eraseB d).stateRoot from congrArg Block.stateRoot h

theorem ebPohHash {c d : Block} (h : eraseB c = eraseB d) : c.pohHash = d.pohHash :=
  show (eraseB c).pohHash = (eraseB d).pohHash from congrArg Block.pohHash h

theorem ebHash {c d : Block} (h : eraseB c = eraseB d) : c.hash = d.hash :=
  show (eraseB c).hash = (eraseB d).hash from congrArg Block.hash h

theorem ebTxs {c d : Block} (h : eraseB c = eraseB d) :
    c.transactions = d.transactions :=
  show (eraseB c).transactions = (eraseB d).transactions from congrArg Block.transactions h

theorem ebDigest {c d : Block} (h : eraseB c = eraseB d) : blockDigest c = blockDigest d := by
  unfold blockDigest
  rw [ebIndex h, ebPrevHash h, ebSlot h, ebTick h, ebValidator h, ebTxRoot h,
    ebStateRoot h, ebPohHash h]

theorem esChain {a b : ChainState} (h : ES a b) :
    a.chain.map eraseB = b.chain.map eraseB := show (eraseS a).chain = (eraseS b).chain from congrArg ChainState.chain h

theorem esBlocks {a b : ChainState} (h : ES a b) :
    a.blocks.map (fun p => (p.1, eraseB p.2)) = b.blocks.map (fun p => (p.1, eraseB p.2)) :=
  show (eraseS a).blocks = (eraseS b).blocks from congrArg ChainState.blocks h

theorem esParents {a b : ChainState} (h : ES a b) : a.parents = b.parents :=
  show (eraseS a).parents = (eraseS b).parents from congrArg ChainState.parents h

theorem esTip {a b : ChainState} (h : ES a b) : a.canonicalTip = b.canonicalTip :=
  show (eraseS a).canonicalTip = (eraseS b).canonicalTip from congrArg ChainState.canonicalTip h

theorem esVals {a b : ChainState} (h : ES a b) : a.validators = b.validators :=
  show (eraseS a).validators = (eraseS b).validators from congrArg ChainState.validators h

theorem esStats {a b : ChainState} (h : ES a b) : a.stats = b.stats :=
  show (eraseS a).stats = (eraseS b).stats from congrArg ChainState.stats h

theorem esPoh {a b : ChainState} (h : ES a b) : a.poh = b.poh :=
  show (eraseS a).poh = (eraseS b).poh from congrArg ChainState.poh h

theorem esState {a b : ChainState} (h : ES a b) : a.state = b.state :=
  show (eraseS a).state = (eraseS b).state from congrArg ChainState.state h

theorem esGen {a b : ChainState} (h : ES a b) : a.genesis = b.genesis :=
  show (eraseS a).genesis = (eraseS b).genesis from congrArg ChainState.genesis h

theorem esSlotProd {a b : ChainState} (h : ES a b) : a.slotProduced = b.slotProduced :=
  show (eraseS a).slotProduced = (eraseS b).slotProduced from congrArg ChainState.slotProduced h

theorem esSlotProds {a b : ChainState} (h : ES a b) : a.slotProducers = b.slotProducers :=
  show (eraseS a).slotProducers = (eraseS b).slotProducers from congrArg ChainState.slotProducers h

theorem esEquiv {a b : ChainState} (h : ES a b) : a.equivocations = b.equivocations :=
  show (eraseS a).equivocations = (eraseS b).equivocations from congrArg ChainState.equivocations h

theorem esLast {a b : ChainState} (h : ES a b) :
    a.lastProcessedSlot = b.lastProcessedSlot :=
  show (eraseS a).lastProcessedSlot = (eraseS b).lastProcessedSlot from congrArg ChainState.lastProcessedSlot h

theorem esFin {a b : ChainState} (h : ES a b) : a.finalizedSlot = b.finalizedSlot :=
  show (eraseS a).finalizedSlot = (eraseS b).finalizedSlot from congrArg ChainState.finalizedSlot h

theorem esConfig {a b : ChainState} (h : ES a b) : a.config = b.config :=
  show (eraseS a).config = (eraseS b).config from congrArg ChainState.config h

theorem esReorg {a b : ChainState} (h : ES a b) : a.reorgStats = b.reorgStats :=
  show (eraseS a).reorgStats = (eraseS b).reorgStats from congrArg ChainState.reorgStats h

theorem esEpoch {a b : ChainState} (h : ES a b) : a.currentEpoch = b.currentEpoch :=
  show (eraseS a).currentEpoch = (eraseS b).currentEpoch from congrArg ChainState.currentEpoch h

theorem esSnaps {a b : ChainState} (h : ES a b) : a.snapshots = b.snapshots :=
  show (eraseS a).snapshots = (eraseS b).snapshots from congrArg ChainState.snapshots h

theorem ES_of_fields {a b : ChainState}
    (h1 : a.chain.map eraseB = b.chain.map eraseB)
    (h2 : a.blocks.map (fun p => (p.1, eraseB p.2)) = b.blocks.map (fun p => (p.1, eraseB p.2)))
    (h3 : a.parents = b.parents) (h4 : a.canonicalTip = b.canonicalTip)
    (h5 : a.validators = b.validators) (h6 : a.stats = b.stats) (h7 : a.poh = b.poh)
    (h8 : a.state = b.state) (h9 : a.genesis = b.genesis)
    (h10 : a.slotProduced = b.slotProduced) (h11 : a.slotProducers = b.slotProducers)
    (h12 : a.equivocations = b.equivocations)
    (h13 : a.lastProcessedSlot = b.lastProcessedSlot)
    (h14 : a.finalizedSlot = b.finalizedSlot) (h15 : a.config = b.config)
    (h16 : a.reorgStats = b.reorgStats) (h17 : a.currentEpoch = b.currentEpoch)
    (h18 : a.snapshots = b.snapshots) : ES a b := by
  unfold ES eraseS
  rw [h1, h2, h3, h4, h5, h6]
  rw [h7, h8, h9, h10, h11, h12]
  rw [h13, h14, h15, h16, h17, h18]

theorem ES_refl (a : ChainState) : ES a a := rfl

theorem ES_trans {a b c : ChainState} (h₁ : ES a b) (h₂ : ES b c) : ES a c := h₁.trans h₂

theorem lookup_map_erase (l : List (String × Block)) (k : String) :
    lookupA (l.map (fun p => (p.1, eraseB p.2))) k = Option.map eraseB (lookupA l k) := by
  induction l with
  | nil => rfl
  | cons p rest ih =>
    by_cases h : p.1 = k
    · simp [lookupA, h]
    · simp [lookupA, h, ih]

theorem esLookupB {a b : ChainState} (h : ES a b) (k : String) :
    Option.map eraseB (lookupA a.blocks k) = Option.map eraseB (lookupA b.blocks k) := by
  rw [← lookup_map_erase, ← lookup_map_erase, esBlocks h]

theorem esBlocksLen {a b : ChainState} (h : ES a b) : a.blocks.length = b.blocks.length := by
  have := congrArg List.length (esBlocks h)
  simpa using this

theorem esChainTipSlot {a b : ChainState} (h : ES a b) : chainTipSlot a = chainTipSlot b := by
  unfold chainTipSlot
  have hc := esChain h
  have hl : Option.map eraseB a.chain.getLast? = Option.map eraseB b.chain.getLast? := by
    rw [← List.getLast?_map, ← List.getLast?_map, hc]
  rcases ha : a.chain.getLast? with _ | x <;> rcases hb : b.chain.getLast? with _ | y
  · rfl
  · rw [ha, hb] at hl
    simp at hl
  · rw [ha, hb] at hl
    simp at hl
  · rw [ha, hb] at hl
    have h2 : eraseB x = eraseB y := Option.some.inj hl
    show x.slot = y.slot
    exact ebSlot h2

theorem ES_mk {c1 c2 : List Block} {bk1 bk2 : List (String × Block)}
    {p1 p2 : List (String × String)} {t1 t2 : String}
    {v1 v2 : List (String × Validator)} {s1 s2 : List (String × ValidatorStats)}
    {ph1 ph2 : Option PoH} {st1 st2 : StateMap} {g1 g2 : StateMap}
    {sp1 sp2 : List (Nat × String)} {sps1 sps2 : List (Nat × List (String × String))}
    {eq1 eq2 : List EquivocationProof} {l1 l2 : Nat} {f1 f2 : Nat}
    {cf1 cf2 : ChainConfig} {rs1 rs2 : ReorgMetrics} {ce1 ce2 : Nat}
    {sn1 sn2 : List (Nat × EpochSnapshot)}
    (hc : c1.map eraseB = c2.map eraseB)
    (hb : bk1.map (fun p => (p.1, eraseB p.2)) = bk2.map (fun p => (p.1, eraseB p.2)))
    (h3 : p1 = p2) (h4 : t1 = t2) (h5 : v1 = v2) (h6 : s1 = s2) (h7 : ph1 = ph2)
    (h8 : st1 = st2) (h9 : g1 = g2) (h10 : sp1 = sp2) (h11 : sps1 = sps2)
    (h12 : eq1 = eq2) (h13 : l1 = l2) (h14 : f1 = f2) (h15 : cf1 = cf2)
    (h16 : rs1 = rs2) (h17 : ce1 = ce2) (h18 : sn1 = sn2) :
    ES (ChainState.mk c1 bk1 p1 t1 v1 s1 ph1 st1 g1 sp1 sps1 eq1 l1 f1 cf1 rs1 ce1 sn1)
      (ChainState.mk c2 bk2 p2 t2 v2 s2 ph2 st2 g2 sp2 sps2 eq2 l2 f2 cf2 rs2 ce2 sn2) := by
  subst h3 h4 h5 h6 h7 h8 h9 h10 h11 h12 h13 h14 h15 h16 h17 h18
  show ChainState.mk (c1.map eraseB) (bk1.map (fun p => (p.1, eraseB p.2)))
      p1 t1 v1 s1 ph1 st1 g1 sp1 sps1 eq1 l1 f1 cf1 rs1 ce1 sn1 =
    ChainState.mk (c2.map eraseB) (bk2.map (fun p => (p.1, eraseB p.2)))
      p1 t1 v1 s1 ph1 st1 g1 sp1 sps1 eq1 l1 f1 cf1 rs1 ce1 sn1
  rw [hc, hb]

theorem ensureSnapshot_cong {a b : ChainState} (h : ES a b) (e : Nat) :
    ES (ensureSnapshot a e) (ensureSnapshot b e) := by
  unfold ensureSnapshot
  rcases hx : lookupA a.snapshots e with _ | s
  · have hx2 : lookupA b.snapshots e = none := by
      rw [← esSnaps h]
      exact hx
    rw [hx2]
    show ES { a with snapshots := insertA a.snapshots e (buildSnapshot a e),
                     currentEpoch := e }
      { b with snapshots := insertA b.snapshots e (buildSnapshot b e), currentEpoch := e }
    exact ES_mk (esChain h) (esBlocks h) (esParents h) (esTip h) (esVals h) (esStats h)
      (esPoh h) (esState h) (esGen h) (esSlotProd h) (esSlotProds h) (esEquiv h)
      (esLast h) (esFin h) (esConfig h) (esReorg h) rfl
      (by rw [esSnaps h, buildSnapshot_congr e (esVals h) (esStats h) (esConfig h)])
  · have hx2 : lookupA b.snapshots e = some s := by
      rw [← esSnaps h]
      exact hx
    rw [hx2]
    exact h

theorem epochForSlot_cong {a b : ChainState} (h : ES a b) (s : Nat) :
    epochForSlot a s = epochForSlot b s := by
  unfold epochForSlot
  rw [esConfig h]

theorem snapshotForSlot_cong {a b : ChainState} (h : ES a b) (s : Nat) :
    ES (snapshotForSlot a s).1 (snapshotForSlot b s).1 ∧
    (snapshotForSlot a s).2 = (snapshotForSlot b s).2 := by
  have he := epochForSlot_cong h s
  constructor
  · show ES (ensureSnapshot a (epochForSlot a s)) (ensureSnapshot b (epochForSlot b s))
    rw [he]
    exact ensureSnapshot_cong h _
  · show lookupA (ensureSnapshot a (epochForSlot a s)).snapshots (epochForSlot a s) =
      lookupA (ensureSnapshot b (epochForSlot b s)).snapshots (epochForSlot b s)
    rw [he, esSnaps (ensureSnapshot_cong h (epochForSlot b s))]

theorem getSnapshotStake_cong {a b : ChainState} (h : ES a b) (s : Nat) (v : String) :
    ES (getSnapshotStake a s v).1 (getSnapshotStake b s v).1 ∧
    (getSnapshotStake a s v).2 = (getSnapshotStake b s v).2 := by
  unfold getSnapshotStake
  obtain ⟨hE, hO⟩ := snapshotForSlot_cong h s
  rcases h1 : snapshotForSlot a s with ⟨a1, oa⟩
  rcases h2 : snapshotForSlot b s with ⟨b1, ob⟩
  rw [h1, h2] at hE hO
  have hE2 : ES a1 b1 := hE
  have hO2 : oa = ob := hO
  subst hO2
  rcases oa with _ | snap
  · exact ⟨hE2, rfl⟩
  · exact ⟨hE2, rfl⟩

theorem leaderForSlot_cong {a b : ChainState} (h : ES a b) (s : Nat) :
    ES (leaderForSlot a s).1 (leaderForSlot b s).1 ∧
    (leaderForSlot a s).2 = (leaderForSlot b s).2 := by
  unfold leaderForSlot
  obtain ⟨hE, hO⟩ := snapshotForSlot_cong h s
  rcases h1 : snapshotForSlot a s with ⟨a1, oa⟩
  rcases h2 : snapshotForSlot b s with ⟨b1, ob⟩
  rw [h1, h2] at hE hO
  have hE2 : ES a1 b1 := hE
  have hO2 : oa = ob := hO
  subst hO2
  rcases oa with _ | snap
  · exact ⟨hE2, rfl⟩
  · exact ⟨hE2, rfl⟩

theorem scoreWalk_cong :
    ∀ (n : Nat) {a b : ChainState}, ES a b → ∀ (c d : Block) (acc : Nat),
      eraseB c = eraseB d →
      ES (scoreWalk n a c acc).1 (scoreWalk n b d acc).1 ∧
      (scoreWalk n a c acc).2 = (scoreWalk n b d acc).2 := by
  intro n
  induction n with
  | zero =>
    intro a b h c d acc hcd
    exact ⟨h, rfl⟩
  | succ m ih =>
    intro a b h c d acc hcd
    simp only [scoreWalk]
    rw [ebSlot hcd, ebValidator hcd, ebPrevHash hcd]
    obtain ⟨hE1, hS1⟩ := getSnapshotStake_cong h d.slot d.validator
    rcases g1 : getSnapshotStake a d.slot d.validator with ⟨a1, s1⟩
    rcases g2 : getSnapshotStake b d.slot d.validator with ⟨b1, s2⟩
    rw [g1, g2] at hE1 hS1
    have hE2 : ES a1 b1 := hE1
    have hS2 : s1 = s2 := hS1
    subst hS2
    by_cases hg : d.prevHash = "GENESIS"
    · simp only [hg, if_true, ite_true]
      exact ⟨hE2, by trivial⟩
    · simp only [hg, if_false, ite_false]
      have hlb := esLookupB hE2 d.prevHash
      rcases l1 : lookupA a1.blocks d.prevHash with _ | pa <;>
        rcases l2 : lookupA b1.blocks d.prevHash with _ | pb
      · exact ⟨hE2, by trivial⟩
      · rw [l1, l2] at hlb
        simp at hlb
      · rw [l1, l2] at hlb
        simp at hlb
      · rw [l1, l2] at hlb
        have hpd : eraseB pa = eraseB pb := Option.some.inj hlb
        exact ih hE2 pa pb _ hpd

theorem scoreTip_cong {a b : ChainState} (h : ES a b) (tip : String) :
    ES (scoreTip a tip).1 (scoreTip b tip).1 ∧ (scoreTip a tip).2 = (scoreTip b tip).2 := by
  suffices H : ∀ r1 r2, scoreTip a tip = r1 → scoreTip b tip = r2 →
      ES r1.1 r2.1 ∧ r1.2 = r2.2 from H _ _ rfl rfl
  intro r1 r2 h1 h2
  have hlb := esLookupB h tip
  unfold scoreTip at h1 h2
  split at h1
  next heqa =>
    split at h2
    next heqb =>
      cases h1
      cases h2
      exact ⟨h, rfl⟩
    next cb heqb =>
      rw [heqa, heqb] at hlb
      simp at hlb
  next ca heqa =>
    split at h2
    next heqb =>
      rw [heqa, heqb] at hlb
      simp at hlb
    next cb heqb =>
      rw [heqa, heqb] at hlb
      have hcd : eraseB ca = eraseB cb := Option.some.inj hlb
      obtain ⟨hE, hW⟩ := scoreWalk_cong (a.blocks.length + 1) h ca cb 0 hcd
      rw [esBlocksLen h] at hW hE
      split at h1
      next a1 wa heqw1 =>
        split at h2
        next b1 wb heqw2 =>
          cases h1
          cases h2
          rw [esBlocksLen h] at heqw1
          rw [heqw1, heqw2] at hE hW
          have hE2 : ES a1 b1 := hE
          have hW2 : wa = wb := hW
          subst hW2
          refine ⟨hE2, ?_⟩
          show ({ slot := ca.slot, cumulativeWeight := wa, hash := ca.hash } : ChainScore) =
            { slot := cb.slot, cumulativeWeight := wa, hash := cb.hash }
          rw [ebSlot hcd, ebHash hcd]

theorem chainWalk_cong {a b : ChainState} (h : ES a b) :
    ∀ (n : Nat) (k : String) (acc acc' : List Block), acc.map eraseB = acc'.map eraseB →
      Option.map (List.map eraseB) (chainWalk n a k acc) =
      Option.map (List.map eraseB) (chainWalk n b k acc') := by
  intro n
  induction n with
  | zero =>
    intro k acc acc' hacc
    rfl
  | succ m ih =>
    intro k acc acc' hacc
    simp only [chainWalk]
    have hlb := esLookupB h k
    rcases l1 : lookupA a.blocks k with _ | ca <;> rcases l2 : lookupA b.blocks k with _ | cb
    · rfl
    · rw [l1, l2] at hlb
      simp at hlb
    · rw [l1, l2] at hlb
      simp at hlb
    · rw [l1, l2] at hlb
      have hcd : eraseB ca = eraseB cb := Option.some.inj hlb
      show Option.map (List.map eraseB)
          (if ca.prevHash = "GENESIS" then some (ca :: acc)
           else chainWalk m a ca.prevHash (ca :: acc)) =
        Option.map (List.map eraseB)
          (if cb.prevHash = "GENESIS" then some (cb :: acc')
           else chainWalk m b cb.prevHash (cb :: acc'))
      rw [ebPrevHash hcd]
      by_cases hg : cb.prevHash = "GENESIS"
      · simp only [hg, if_true, ite_true]
        simp [List.map_cons, hcd, hacc]
      · simp only [hg, if_false, ite_false]
        exact ih cb.prevHash (ca :: acc) (cb :: acc') (by simp [List.map_cons, hcd, hacc])

theorem chainFromTip_cong {a b : ChainState} (h : ES a b) (tip : String) :
    Option.map (List.map eraseB) (chainFromTip a tip) =
    Option.map (List.map eraseB) (chainFromTip b tip) := by
  unfold chainFromTip
  by_cases ht : tip = ""
  · simp [ht]
  · simp only [ht, if_false, ite_false]
    rw [esBlocksLen h]
    exact chainWalk_cong h (b.blocks.length + 1) tip [] [] rfl

theorem rebuildWalk_cong {a b : ChainState} (h : ES a b) :
    ∀ (n : Nat) (k : String) (acc acc' : List Block), acc.map eraseB = acc'.map eraseB →
      (rebuildWalk n a k acc).map eraseB = (rebuildWalk n b k acc').map eraseB := by
  intro n
  induction n with
  | zero =>
    intro k acc acc' hacc
    exact hacc
  | succ m ih =>
    intro k acc acc' hacc
    simp only [rebuildWalk]
    have hlb := esLookupB h k
    rcases l1 : lookupA a.blocks k with _ | ca <;> rcases l2 : lookupA b.blocks k with _ | cb
    · exact hacc
    · rw [l1, l2] at hlb
      simp at hlb
    · rw [l1, l2] at hlb
      simp at hlb
    · rw [l1, l2] at hlb
      have hcd : eraseB ca = eraseB cb := Option.some.inj hlb
      show (if ca.prevHash = "GENESIS" then ca :: acc
            else rebuildWalk m a ca.prevHash (ca :: acc)).map eraseB =
        (if cb.prevHash = "GENESIS" then cb :: acc'
         else rebuildWalk m b cb.prevHash (cb :: acc')).map eraseB
      rw [ebPrevHash hcd]
      by_cases hg : cb.prevHash = "GENESIS"
      · simp only [hg, if_true, ite_true]
        simp [List.map_cons, hcd, hacc]
      · simp only [hg, if_false, ite_false]
        exact ih cb.prevHash (ca :: acc) (cb :: acc') (by simp [List.map_cons, hcd, hacc])

theorem findDiverge_cong :
    ∀ (a1 a2 b1 b2 : List Block), a1.map eraseB = a2.map eraseB →
      b1.map eraseB = b2.map eraseB → findDiverge a1 b1 = findDiverge a2 b2 := by
  intro a1
  induction a1 with
  | nil =>
    intro a2 b1 b2 ha hb
    cases a2 with
    | nil => cases b1 <;> cases b2 <;> rfl
    | cons y ys => simp at ha
  | cons x xs ih =>
    intro a2 b1 b2 ha hb
    cases a2 with
    | nil => simp at ha
    | cons y ys =>
      simp only [List.map_cons, List.cons.injEq] at ha
      cases b1 with
      | nil =>
        cases b2 with
        | nil => rfl
        | cons v vs => simp at hb
      | cons u us =>
        cases b2 with
        | nil => simp at hb
        | cons v vs =>
          simp only [List.map_cons, List.cons.injEq] at hb
          show (if x.hash = u.hash then findDiverge xs us + 1 else 0) =
            (if y.hash = v.hash then findDiverge ys vs + 1 else 0)
          rw [ebHash ha.1, ebHash hb.1, ih ys us vs ha.2 hb.2]

theorem getD_erase :
    ∀ (l1 l2 : List Block), l1.map eraseB = l2.map eraseB → ∀ i,
      eraseB (l1.getD i zeroBlock) = eraseB (l2.getD i zeroBlock) := by
  intro l1
  induction l1 with
  | nil =>
    intro l2 h i
    cases l2 with
    | nil => rfl
    | cons y ys => simp at h
  | cons x xs ih =>
    intro l2 h i
    cases l2 with
    | nil => simp at h
    | cons y ys =>
      simp only [List.map_cons, List.cons.injEq] at h
      cases i with
      | zero => exact h.1
      | succ j => exact ih ys h.2 j

theorem mapErase_length {l1 l2 : List Block} (h : l1.map eraseB = l2.map eraseB) :
    l1.length = l2.length := by
  have := congrArg List.length h
  simpa using this

theorem computeReorg_cong (a1 a2 b1 b2 : List Block)
    (ha : a1.map eraseB = a2.map eraseB) (hb : b1.map eraseB = b2.map eraseB) :
    computeReorgDepthAndSlot a1 b1 = computeReorgDepthAndSlot a2 b2 := by
  simp only [computeReorgDepthAndSlot]
  have hd := findDiverge_cong a1 a2 b1 b2 ha hb
  rw [hd, mapErase_length ha, mapErase_length hb]
  by_cases c1 : findDiverge a2 b2 < a2.length
  · simp only [c1, if_true, ite_true]
    rw [ebSlot (getD_erase a1 a2 ha (findDiverge a2 b2))]
  · simp only [c1, if_false, ite_false]
    by_cases c2 : findDiverge a2 b2 < b2.length
    · simp only [c2, if_true, ite_true]
      rw [ebSlot (getD_erase b1 b2 hb (findDiverge a2 b2))]
    · simp only [c2, if_false, ite_false]

theorem replayTxs_cong :
    ∀ (l1 l2 : List Block), l1.map eraseB = l2.map eraseB → ∀ (g : StateMap),
      replayTxs g l1 = replayTxs g l2 := by
  intro l1
  induction l1 with
  | nil =>
    intro l2 h g
    cases l2 with
    | nil => rfl
    | cons y ys => simp at h
  | cons x xs ih =>
    intro l2 h g
    cases l2 with
    | nil => simp at h
    | cons y ys =>
      simp only [List.map_cons, List.cons.injEq] at h
      show (match ApplyTransactions g x.transactions with
            | Except.error e => Except.error e
            | Except.ok s => replayTxs s xs) =
        (match ApplyTransactions g y.transactions with
         | Except.error e => Except.error e
         | Except.ok s => replayTxs s ys)
      rw [ebTxs h.1]
      rcases ApplyTransactions g y.transactions with e | s
      · rfl
      · exact ih ys h.2 s

theorem dropErase {l1 l2 : List Block} (h : l1.map eraseB = l2.map eraseB) (n : Nat) :
    (l1.drop n).map eraseB = (l2.drop n).map eraseB := by
  rw [List.map_drop, List.map_drop, h]

theorem slotmap_fold_cong :
    ∀ (l1 l2 : List Block), l1.map eraseB = l2.map eraseB →
      ∀ (m : List (Nat × String)),
      l1.foldl (fun m b => insertA m b.slot b.validator) m =
      l2.foldl (fun m b => insertA m b.slot b.validator) m := by
  intro l1
  induction l1 with
  | nil =>
    intro l2 h m
    cases l2 with
    | nil => rfl
    | cons y ys => simp at h
  | cons x xs ih =>
    intro l2 h m
    cases l2 with
    | nil => simp at h
    | cons y ys =>
      simp only [List.map_cons, List.cons.injEq] at h
      show xs.foldl _ (insertA m x.slot x.validator) = ys.foldl _ (insertA m y.slot y.validator)
      rw [ebSlot h.1, ebValidator h.1]
      exact ih ys h.2 _

theorem rebuildSlotMap_cong {a b : ChainState} (h : ES a b) :
    ES (rebuildSlotMap a) (rebuildSlotMap b) := by
  unfold rebuildSlotMap
  exact ES_mk (esChain h) (esBlocks h) (esParents h) (esTip h) (esVals h) (esStats h)
    (esPoh h) (esState h) (esGen h)
    (slotmap_fold_cong _ _ (dropErase (esChain h) 1) [])
    (esSlotProds h) (esEquiv h) (esLast h) (esFin h) (esConfig h) (esReorg h)
    (esEpoch h) (esSnaps h)

theorem rebuildStateFromCanonical_cong {a b : ChainState} (h : ES a b) :
    ES (rebuildStateFromCanonical a) (rebuildStateFromCanonical b) := by
  unfold rebuildStateFromCanonical
  have hr : replayTxs a.genesis (a.chain.drop 1) = replayTxs b.genesis (b.chain.drop 1) := by
    rw [esGen h]
    exact replayTxs_cong _ _ (dropErase (esChain h) 1) b.genesis
  rw [hr]
  rcases replayTxs b.genesis (b.chain.drop 1) with e | s
  · exact h
  · exact ES_mk (esChain h) (esBlocks h) (esParents h) (esTip h) (esVals h) (esStats h)
      (esPoh h) rfl (esGen h) (esSlotProd h) (esSlotProds h) (esEquiv h) (esLast h)
      (esFin h) (esConfig h) (esReorg h) (esEpoch h) (esSnaps h)

theorem updateFinality_cong {a b : ChainState} (h : ES a b) :
    ES (updateFinality a) (updateFinality b) := by
  unfold updateFinality
  rw [esChainTipSlot h, esConfig h, esFin h]
  by_cases c1 : chainTipSlot b < b.config.finalitySlots
  · simp only [c1, if_true, ite_true]
    exact h
  · simp only [c1, if_false, ite_false]
    by_cases c2 : b.finalizedSlot < chainTipSlot b - b.config.finalitySlots
    · simp only [c2, if_true, ite_true]
      exact ES_mk (esChain h) (esBlocks h) (esParents h) (esTip h) (esVals h) (esStats h)
        (esPoh h) (esState h) (esGen h) (esSlotProd h) (esSlotProds h) (esEquiv h)
        (esLast h) rfl rfl (esReorg h) (esEpoch h) (esSnaps h)
    · simp only [c2, if_false, ite_false]
      exact h

theorem rebuildCanonicalChain_cong {a b : ChainState} (h : ES a b) :
    ES (rebuildCanonicalChain a) (rebuildCanonicalChain b) := by
  unfold rebuildCanonicalChain
  rw [esTip h]
  by_cases c1 : b.canonicalTip = ""
  · simp only [c1, if_true, ite_true]
    exact ES_mk rfl (esBlocks h) (esParents h) rfl (esVals h) (esStats h)
      (esPoh h) (esState h) (esGen h) (esSlotProd h) (esSlotProds h) (esEquiv h)
      (esLast h) (esFin h) (esConfig h) (esReorg h) (esEpoch h) (esSnaps h)
  · simp only [c1, if_false, ite_false]
    exact rebuildStateFromCanonical_cong (rebuildSlotMap_cong (ES_mk
      (by rw [esBlocksLen h]
          exact rebuildWalk_cong h (b.blocks.length + 1) b.canonicalTip [] [] rfl)
      (esBlocks h) (esParents h) rfl (esVals h) (esStats h) (esPoh h) (esState h)
      (esGen h) (esSlotProd h) (esSlotProds h) (esEquiv h) (esLast h) (esFin h)
      (esConfig h) (esReorg h) (esEpoch h) (esSnaps h)))

theorem activeStake_cong2 {a b : ChainState} (h : ES a b) :
    ES (activeStake a).1 (activeStake b).1 ∧ (activeStake a).2 = (activeStake b).2 := by
  unfold activeStake
  rw [esChainTipSlot h]
  obtain ⟨hE, hO⟩ := snapshotForSlot_cong h (chainTipSlot b)
  rcases h1 : snapshotForSlot a (chainTipSlot b) with ⟨a1, oa⟩
  rcases h2 : snapshotForSlot b (chainTipSlot b) with ⟨b1, ob⟩
  rw [h1, h2] at hE hO
  have hE2 : ES a1 b1 := hE
  have hO2 : oa = ob := hO
  subst hO2
  rcases oa with _ | snap
  · exact ⟨hE2, rfl⟩
  · exact ⟨hE2, rfl⟩

theorem weightDeltaSatisfied_cong {a b : ChainState} (h : ES a b) (ow nw : Nat) :
    ES (weightDeltaSatisfied a ow nw).1 (weightDeltaSatisfied b ow nw).1 ∧
    (weightDeltaSatisfied a ow nw).2 = (weightDeltaSatisfied b ow nw).2 := by
  unfold weightDeltaSatisfied
  rw [esConfig h]
  by_cases c1 : b.config.minReorgWeightDeltaP ≤ 0
  · simp only [c1, if_true, ite_true]
    exact ⟨h, by trivial⟩
  · simp only [c1, if_false, ite_false]
    by_cases c2 : nw ≤ ow
    · simp only [c2, if_true, ite_true]
      exact ⟨h, by trivial⟩
    · simp only [c2, if_false, ite_false]
      obtain ⟨hE, hO⟩ := activeStake_cong2 h
      rcases h1 : activeStake a with ⟨a1, sa⟩
      rcases h2 : activeStake b with ⟨b1, sb⟩
      rw [h1, h2] at hE hO
      have hE2 : ES a1 b1 := hE
      have hO2 : sa = sb := hO
      subst hO2
      exact ⟨hE2, by trivial⟩

theorem weightDeltaRequired_cong {a b : ChainState} (h : ES a b) (ow nw : Nat) :
    ES (weightDeltaRequired a ow nw).1 (weightDeltaRequired b ow nw).1 := by
  unfold weightDeltaRequired
  obtain ⟨hE, hO⟩ := activeStake_cong2 h
  rcases h1 : activeStake a with ⟨a1, sa⟩
  rcases h2 : activeStake b with ⟨b1, sb⟩
  rw [h1, h2] at hE hO
  have hE2 : ES a1 b1 := hE
  exact hE2

theorem updateCanonical_cong {a b : ChainState} (h : ES a b) (tip : String) :
    ES (updateCanonical a tip).1 (updateCanonical b tip).1 ∧
    (updateCanonical a tip).2 = (updateCanonical b tip).2 := by
  suffices H : ∀ r1 r2, updateCanonical a tip = r1 → updateCanonical b tip = r2 →
      ES r1.1 r2.1 ∧ r1.2 = r2.2 from H _ _ rfl rfl
  intro r1 r2 h1 h2
  unfold updateCanonical at h1 h2
  rw [esTip h] at h1
  by_cases c0 : b.canonicalTip = ""
  · rw [if_pos c0] at h1 h2
    cases h1
    cases h2
    refine ⟨?_, rfl⟩
    exact updateFinality_cong (rebuildCanonicalChain_cong (ES_mk (esChain h) (esBlocks h)
      (esParents h) rfl (esVals h) (esStats h) (esPoh h) (esState h) (esGen h)
      (esSlotProd h) (esSlotProds h) (esEquiv h) (esLast h) (esFin h) (esConfig h)
      (esReorg h) (esEpoch h) (esSnaps h)))
  · rw [if_neg c0] at h1 h2
    simp only [] at h1 h2
    obtain ⟨hE1, hS1⟩ := scoreTip_cong h b.canonicalTip
    obtain ⟨hE2, hS2⟩ := scoreTip_cong hE1 tip
    rw [← hS1, ← hS2] at h2
    by_cases hbs : betterScore (scoreTip (scoreTip a b.canonicalTip).1 tip).2
        (scoreTip a b.canonicalTip).2 = true
    · rw [if_pos hbs] at h1 h2
      have hcf := chainFromTip_cong hE2 tip
      split at h1
      next hc1 =>
        split at h2
        next hc2 =>
          cases h1
          cases h2
          exact ⟨hE2, rfl⟩
        next ncb hc2 =>
          rw [hc1, hc2] at hcf
          simp at hcf
      next nca hc1 =>
        split at h2
        next hc2 =>
          rw [hc1, hc2] at hcf
          simp at hcf
        next ncb hc2 =>
          rw [hc1, hc2] at hcf
          have hnc : nca.map eraseB = ncb.map eraseB := Option.some.inj hcf
          have hrd : computeReorgDepthAndSlot
              (scoreTip (scoreTip a b.canonicalTip).1 tip).1.chain nca =
              computeReorgDepthAndSlot
              (scoreTip (scoreTip b b.canonicalTip).1 tip).1.chain ncb :=
            computeReorg_cong _ _ _ _ (esChain hE2) hnc
          by_cases g1 : 0 < (scoreTip (scoreTip a b.canonicalTip).1 tip).1.finalizedSlot ∧
              (computeReorgDepthAndSlot (scoreTip (scoreTip a b.canonicalTip).1
                tip).1.chain nca).2 ≤
                (scoreTip (scoreTip a b.canonicalTip).1 tip).1.finalizedSlot
          · have g1b : 0 < (scoreTip (scoreTip b b.canonicalTip).1 tip).1.finalizedSlot ∧
                (computeReorgDepthAndSlot (scoreTip (scoreTip b b.canonicalTip).1
                  tip).1.chain ncb).2 ≤
                  (scoreTip (scoreTip b b.canonicalTip).1 tip).1.finalizedSlot := by
              rw [← esFin hE2, ← hrd]
              exact g1
            rw [if_pos g1] at h1
            rw [if_pos g1b] at h2
            cases h1
            cases h2
            refine ⟨?_, rfl⟩
            exact ES_mk (esChain hE2) (esBlocks hE2) (esParents hE2) (esTip hE2)
              (esVals hE2) (esStats hE2) (esPoh hE2) (esState hE2) (esGen hE2)
              (esSlotProd hE2) (esSlotProds hE2) (esEquiv hE2) (esLast hE2) (esFin hE2)
              (esConfig hE2) (by rw [esReorg hE2]) (esEpoch hE2) (esSnaps hE2)
          · have g1b : ¬ (0 < (scoreTip (scoreTip b b.canonicalTip).1
                tip).1.finalizedSlot ∧
                (computeReorgDepthAndSlot (scoreTip (scoreTip b b.canonicalTip).1
                  tip).1.chain ncb).2 ≤
                  (scoreTip (scoreTip b b.canonicalTip).1 tip).1.finalizedSlot) := by
              rw [← esFin hE2, ← hrd]
              exact g1
            rw [if_neg g1] at h1
            rw [if_neg g1b] at h2
            by_cases g2 : (scoreTip (scoreTip a b.canonicalTip).1
                tip).1.config.maxReorgDepth <
                ((computeReorgDepthAndSlot (scoreTip (scoreTip a b.canonicalTip).1
                  tip).1.chain nca).1 : Int)
            · have g2b : (scoreTip (scoreTip b b.canonicalTip).1
                  tip).1.config.maxReorgDepth <
                  ((computeReorgDepthAndSlot (scoreTip (scoreTip b b.canonicalTip).1
                    tip).1.chain ncb).1 : Int) := by
                rw [← esConfig hE2, ← hrd]
                exact g2
              rw [if_pos g2] at h1
              rw [if_pos g2b] at h2
              cases h1
              cases h2
              refine ⟨?_, rfl⟩
              exact ES_mk (esChain hE2) (esBlocks hE2) (esParents hE2) (esTip hE2)
                (esVals hE2) (esStats hE2) (esPoh hE2) (esState hE2) (esGen hE2)
                (esSlotProd hE2) (esSlotProds hE2) (esEquiv hE2) (esLast hE2)
                (esFin hE2) (esConfig hE2) (by rw [esReorg hE2]) (esEpoch hE2)
                (esSnaps hE2)
            · have g2b : ¬ ((scoreTip (scoreTip b b.canonicalTip).1
                  tip).1.config.maxReorgDepth <
                  ((computeReorgDepthAndSlot (scoreTip (scoreTip b b.canonicalTip).1
                    tip).1.chain ncb).1 : Int)) := by
                rw [← esConfig hE2, ← hrd]
                exact g2
              rw [if_neg g2] at h1
              rw [if_neg g2b] at h2
              obtain ⟨hE3, hS3⟩ := weightDeltaSatisfied_cong hE2
                (scoreTip a b.canonicalTip).2.cumulativeWeight
                (scoreTip (scoreTip a b.canonicalTip).1 tip).2.cumulativeWeight
              by_cases hw : (weightDeltaSatisfied
                  (scoreTip (scoreTip a b.canonicalTip).1 tip).1
                  (scoreTip a b.canonicalTip).2.cumulativeWeight
                  (scoreTip (scoreTip a b.canonicalTip).1 tip).2.cumulativeWeight).2 = true
              · have hwb : (weightDeltaSatisfied
                    (scoreTip (scoreTip b b.canonicalTip).1 tip).1
                    (scoreTip a b.canonicalTip).2.cumulativeWeight
                    (scoreTip (scoreTip a b.canonicalTip).1 tip).2.cumulativeWeight).2 =
                    true := by
                  rw [← hS3]
                  exact hw
                rw [if_pos hw] at h1
                rw [if_pos hwb] at h2
                cases h1
                cases h2
                refine ⟨?_, rfl⟩
                apply updateFinality_cong
                apply rebuildStateFromCanonical_cong
                apply rebuildSlotMap_cong
                have hITE : ES
                    (if 0 < (computeReorgDepthAndSlot
                        (scoreTip (scoreTip a b.canonicalTip).1 tip).1.chain nca).1 then
                      if 1 < (computeReorgDepthAndSlot
                          (scoreTip (scoreTip a b.canonicalTip).1 tip).1.chain nca).1 then
                        { (weightDeltaSatisfied (scoreTip (scoreTip a b.canonicalTip).1
                            tip).1 (scoreTip a b.canonicalTip).2.cumulativeWeight
                            (scoreTip (scoreTip a b.canonicalTip).1
                              tip).2.cumulativeWeight).1 with
                          reorgStats := { (weightDeltaSatisfied
                              (scoreTip (scoreTip a b.canonicalTip).1 tip).1
                              (scoreTip a b.canonicalTip).2.cumulativeWeight
                              (scoreTip (scoreTip a b.canonicalTip).1
                                tip).2.cumulativeWeight).1.reorgStats with
                            warn := addU64 (weightDeltaSatisfied
                              (scoreTip (scoreTip a b.canonicalTip).1 tip).1
                              (scoreTip a b.canonicalTip).2.cumulativeWeight
                              (scoreTip (scoreTip a b.canonicalTip).1
                                tip).2.cumulativeWeight).1.reorgStats.warn 1 } }
                      else
                        { (weightDeltaSatisfied (scoreTip (scoreTip a b.canonicalTip).1
                            tip).1 (scoreTip a b.canonicalTip).2.cumulativeWeight
                            (scoreTip (scoreTip a b.canonicalTip).1
                              tip).2.cumulativeWeight).1 with
                          reorgStats := { (weightDeltaSatisfied
                              (scoreTip (scoreTip a b.canonicalTip).1 tip).1
                              (scoreTip a b.canonicalTip).2.cumulativeWeight
                              (scoreTip (scoreTip a b.canonicalTip).1
                                tip).2.cumulativeWeight).1.reorgStats with
                            info := addU64 (weightDeltaSatisfied
                              (scoreTip (scoreTip a b.canonicalTip).1 tip).1
                              (scoreTip a b.canonicalTip).2.cumulativeWeight
                              (scoreTip (scoreTip a b.canonicalTip).1
                                tip).2.cumulativeWeight).1.reorgStats.info 1 } }
                    else (weightDeltaSatisfied (scoreTip (scoreTip a b.canonicalTip).1
                        tip).1 (scoreTip a b.canonicalTip).2.cumulativeWeight
                        (scoreTip (scoreTip a b.canonicalTip).1
                          tip).2.cumulativeWeight).1)
                    (if 0 < (computeReorgDepthAndSlot
                        (scoreTip (scoreTip b b.canonicalTip).1 tip).1.chain ncb).1 then
                      if 1 < (computeReorgDepthAndSlot
                          (scoreTip (scoreTip b b.canonicalTip).1 tip).1.chain ncb).1 then
                        { (weightDeltaSatisfied (scoreTip (scoreTip b b.canonicalTip).1
                            tip).1 (scoreTip a b.canonicalTip).2.cumulativeWeight
                            (scoreTip (scoreTip a b.canonicalTip).1
                              tip).2.cumulativeWeight).1 with
                          reorgStats := { (weightDeltaSatisfied
                              (scoreTip (scoreTip b b.canonicalTip).1 tip).1
                              (scoreTip a b.canonicalTip).2.cumulativeWeight
                              (scoreTip (scoreTip a b.canonicalTip).1
                                tip).2.cumulativeWeight).1.reorgStats with
                            warn := addU64 (weightDeltaSatisfied
                              (scoreTip (scoreTip b b.canonicalTip).1 tip).1
                              (scoreTip a b.canonicalTip).2.cumulativeWeight
                              (scoreTip (scoreTip a b.canonicalTip).1
                                tip).2.cumulativeWeight).1.reorgStats.warn 1 } }
                      else
                        { (weightDeltaSatisfied (scoreTip (scoreTip b b.canonicalTip).1
                            tip).1 (scoreTip a b.canonicalTip).2.cumulativeWeight
                            (scoreTip (scoreTip a b.canonicalTip).1
                              tip).2.cumulativeWeight).1 with
                          reorgStats := { (weightDeltaSatisfied
                              (scoreTip (scoreTip b b.canonicalTip).1 tip).1
                              (scoreTip a b.canonicalTip).2.cumulativeWeight
                              (scoreTip (scoreTip a b.canonicalTip).1
                                tip).2.cumulativeWeight).1.reorgStats with
                            info := addU64 (weightDeltaSatisfied
                              (scoreTip (scoreTip b b.canonicalTip).1 tip).1
                              (scoreTip a b.canonicalTip).2.cumulativeWeight
                              (scoreTip (scoreTip a b.canonicalTip).1
                                tip).2.cumulativeWeight).1.reorgStats.info 1 } }
                    else (weightDeltaSatisfied (scoreTip (scoreTip b b.canonicalTip).1
                        tip).1 (scoreTip a b.canonicalTip).2.cumulativeWeight
                        (scoreTip (scoreTip a b.canonicalTip).1
                          tip).2.cumulativeWeight).1) := by
                  rw [hrd]
                  by_cases rr1 : 0 < (computeReorgDepthAndSlot
                      (scoreTip (scoreTip b b.canonicalTip).1 tip).1.chain ncb).1
                  · by_cases rr2 : 1 < (computeReorgDepthAndSlot
                        (scoreTip (scoreTip b b.canonicalTip).1 tip).1.chain ncb).1
                    · simp only [rr1, rr2, if_true, ite_true]
                      exact ES_mk (esChain hE3) (esBlocks hE3) (esParents hE3)
                        (esTip hE3) (esVals hE3) (esStats hE3) (esPoh hE3)
                        (esState hE3) (esGen hE3) (esSlotProd hE3) (esSlotProds hE3)
                        (esEquiv hE3) (esLast hE3) (esFin hE3) (esConfig hE3)
                        (by rw [esReorg hE3]) (esEpoch hE3) (esSnaps hE3)
                    · simp only [rr1, rr2, if_true, ite_true, if_false, ite_false]
                      exact ES_mk (esChain hE3) (esBlocks hE3) (esParents hE3)
                        (esTip hE3) (esVals hE3) (esStats hE3) (esPoh hE3)
                        (esState hE3) (esGen hE3) (esSlotProd hE3) (esSlotProds hE3)
                        (esEquiv hE3) (esLast hE3) (esFin hE3) (esConfig hE3)
                        (by rw [esReorg hE3]) (esEpoch hE3) (esSnaps hE3)
                  · simp only [rr1, if_false, ite_false]
                    exact hE3
                exact ES_mk hnc (esBlocks hITE) (esParents hITE) rfl (esVals hITE)
                  (esStats hITE) (esPoh hITE) (esState hITE) (esGen hITE)
                  (esSlotProd hITE) (esSlotProds hITE) (esEquiv hITE) (esLast hITE)
                  (esFin hITE) (esConfig hITE) (esReorg hITE) (esEpoch hITE)
                  (esSnaps hITE)
              · have hwb : ¬ (weightDeltaSatisfied
                    (scoreTip (scoreTip b b.canonicalTip).1 tip).1
                    (scoreTip a b.canonicalTip).2.cumulativeWeight
                    (scoreTip (scoreTip a b.canonicalTip).1 tip).2.cumulativeWeight).2 =
                    true := by
                  rw [← hS3]
                  exact hw
                rw [if_neg hw] at h1
                rw [if_neg hwb] at h2
                have hE4 := weightDeltaRequired_cong hE3
                  (scoreTip a b.canonicalTip).2.cumulativeWeight
                  (scoreTip (scoreTip a b.canonicalTip).1 tip).2.cumulativeWeight
                cases h1
                cases h2
                refine ⟨?_, rfl⟩
                exact ES_mk (esChain hE4) (esBlocks hE4) (esParents hE4) (esTip hE4)
                  (esVals hE4) (esStats hE4) (esPoh hE4) (esState hE4) (esGen hE4)
                  (esSlotProd hE4) (esSlotProds hE4) (esEquiv hE4) (esLast hE4)
                  (esFin hE4) (esConfig hE4) (by rw [esReorg hE4]) (esEpoch hE4)
                  (esSnaps hE4)
    · rw [if_neg hbs] at h1 h2
      cases h1
      cases h2
      exact ⟨hE2, rfl⟩

theorem map_insertA_erase :
    ∀ (l : List (String × Block)) (k : String) (v : Block),
      (insertA l k v).map (fun p => (p.1, eraseB p.2)) =
      insertA (l.map (fun p => (p.1, eraseB p.2))) k (eraseB v) := by
  intro l k v
  induction l with
  | nil => rfl
  | cons p rest ih =>
    by_cases hp : p.1 = k
    · simp [insertA, hp]
    · simp [insertA, hp, ih]

theorem insertBlockF_cong {a b : ChainState} (h : ES a b) {c d : Block}
    (hcd : eraseB c = eraseB d) : ES (insertBlockF a c) (insertBlockF b d) := by
  unfold insertBlockF
  refine ES_mk (esChain h) ?_ ?_ (esTip h) (esVals h) (esStats h) (esPoh h) (esState h)
    (esGen h) (esSlotProd h) (esSlotProds h) (esEquiv h) (esLast h) (esFin h)
    (esConfig h) (esReorg h) (esEpoch h) (esSnaps h)
  · rw [map_insertA_erase, map_insertA_erase, esBlocks h, ebHash hcd, hcd]
  · rw [esParents h, ebHash hcd, ebPrevHash hcd]

theorem handleEquivocation_cong {a b : ChainState} (h : ES a b) (v : String) (slot : Nat)
    (x y : String) : ES (handleEquivocation a v slot x y) (handleEquivocation b v slot x y) := by
  simp only [handleEquivocation]
  exact ES_mk (esChain h) (esBlocks h) (esParents h) (esTip h)
    (by rw [esVals h]) (by rw [esStats h]) (esPoh h) (esState h) (esGen h)
    (esSlotProd h) (esSlotProds h) (by rw [esEquiv h]) (esLast h) (esFin h)
    (esConfig h) (esReorg h) (esEpoch h) (esSnaps h)

theorem registerSlotProducer_cong {a b : ChainState} (h : ES a b) {c d : Block}
    (hcd : eraseB c = eraseB d) :
    ES (registerSlotProducer a c).1 (registerSlotProducer b d).1 ∧
    (registerSlotProducer a c).2 = (registerSlotProducer b d).2 := by
  simp only [registerSlotProducer]
  rw [ebSlot hcd, ebValidator hcd, ebHash hcd, esSlotProds h]
  rcases lookupA (lookupD b.slotProducers d.slot []) d.validator with _ | ex
  · refine ⟨?_, rfl⟩
    exact ES_mk (esChain h) (esBlocks h) (esParents h) (esTip h) (esVals h) (esStats h)
      (esPoh h) (esState h) (esGen h) (esSlotProd h) rfl (esEquiv h) (esLast h)
      (esFin h) (esConfig h) (esReorg h) (esEpoch h) (esSnaps h)
  · simp only []
    by_cases hne : ex ≠ d.hash
    · rw [if_pos hne, if_pos hne]
      exact ⟨handleEquivocation_cong h d.validator d.slot ex d.hash, rfl⟩
    · rw [if_neg hne, if_neg hne]
      refine ⟨?_, rfl⟩
      exact ES_mk (esChain h) (esBlocks h) (esParents h) (esTip h) (esVals h) (esStats h)
        (esPoh h) (esState h) (esGen h) (esSlotProd h) rfl (esEquiv h) (esLast h)
        (esFin h) (esConfig h) (esReorg h) (esEpoch h) (esSnaps h)

theorem missedStep_cong {a b : ChainState} (h : ES a b) (slot : Nat) :
    ES (missedStep a slot) (missedStep b slot) := by
  simp only [missedStep]
  obtain ⟨hL1, hL2⟩ := leaderForSlot_cong h slot
  rw [hL2]
  by_cases hg : (leaderForSlot b slot).2 = "genesis"
  · simp only [hg, if_true, ite_true]
    exact hL1
  · simp only [hg, if_false, ite_false]
    rw [esSlotProd hL1, esStats hL1]
    by_cases hp : lookupD (leaderForSlot b slot).1.slotProduced slot "" ≠
        (leaderForSlot b slot).2
    · rw [if_pos hp, if_pos hp]
      by_cases hm : MaxMissedSlots < addU64 (lookupD (leaderForSlot b slot).1.stats
          (leaderForSlot b slot).2 zeroStats).missedSlots 1
      · simp only [hm, if_true, ite_true]
        exact ES_mk (esChain hL1) (esBlocks hL1) (esParents hL1) (esTip hL1)
          (by rw [esVals hL1]) rfl (esPoh hL1) (esState hL1) (esGen hL1)
          rfl (esSlotProds hL1) (esEquiv hL1) (esLast hL1) (esFin hL1)
          (esConfig hL1) (esReorg hL1) (esEpoch hL1) (esSnaps hL1)
      · simp only [hm, if_false, ite_false]
        exact ES_mk (esChain hL1) (esBlocks hL1) (esParents hL1) (esTip hL1)
          (esVals hL1) rfl (esPoh hL1) (esState hL1) (esGen hL1) rfl
          (esSlotProds hL1) (esEquiv hL1) (esLast hL1) (esFin hL1) (esConfig hL1)
          (esReorg hL1) (esEpoch hL1) (esSnaps hL1)
    · simp only [hp, if_false, ite_false]
      exact hL1

theorem foldl_missed_cong :
    ∀ (l : List Nat) {a b : ChainState}, ES a b →
      ES (l.foldl missedStep a) (l.foldl missedStep b) := by
  intro l
  induction l with
  | nil =>
    intro a b h
    exact h
  | cons x xs ih =>
    intro a b h
    exact ih (missedStep_cong h x)

theorem processMissedSlots_cong {a b : ChainState} (h : ES a b) (target : Nat) :
    ES (processMissedSlots a target) (processMissedSlots b target) := by
  simp only [processMissedSlots]
  rw [esLast h]
  by_cases hc : target ≤ b.lastProcessedSlot
  · simp only [hc, if_true, ite_true]
    exact h
  · simp only [hc, if_false, ite_false]
    have hF := foldl_missed_cong
      (List.range' (b.lastProcessedSlot + 1) (target - b.lastProcessedSlot)) h
    exact ES_mk (esChain hF) (esBlocks hF) (esParents hF) (esTip hF) (esVals hF)
      (esStats hF) (esPoh hF) (esState hF) (esGen hF) (esSlotProd hF) (esSlotProds hF)
      (esEquiv hF) rfl (esFin hF) (esConfig hF) (esReorg hF) (esEpoch hF) (esSnaps hF)

theorem acceptAndFinalize_cong {a b : ChainState} (h : ES a b) {c d : Block}
    (hcd : eraseB c = eraseB d) (v : String) :
    ES (acceptAndFinalize a c v).1 (acceptAndFinalize b d v).1 ∧
    (acceptAndFinalize a c v).2 = (acceptAndFinalize b d v).2 := by
  simp only [acceptAndFinalize]
  obtain ⟨hR1, hR2⟩ := registerSlotProducer_cong h hcd
  rw [ebHash hcd]
  have hI := insertBlockF_cong hR1 hcd
  obtain ⟨hU1, hU2⟩ := updateCanonical_cong hI d.hash
  have hRW : ES
      { (updateCanonical (insertBlockF (registerSlotProducer a c).1 c) d.hash).1 with
          validators := RewardValidatorF (updateCanonical (insertBlockF
            (registerSlotProducer a c).1 c) d.hash).1.validators v }
      { (updateCanonical (insertBlockF (registerSlotProducer b d).1 d) d.hash).1 with
          validators := RewardValidatorF (updateCanonical (insertBlockF
            (registerSlotProducer b d).1 d) d.hash).1.validators v } :=
    ES_mk (esChain hU1) (esBlocks hU1) (esParents hU1) (esTip hU1)
      (by rw [esVals hU1]) (esStats hU1) (esPoh hU1) (esState hU1) (esGen hU1)
      (esSlotProd hU1) (esSlotProds hU1) (esEquiv hU1) (esLast hU1) (esFin hU1)
      (esConfig hU1) (esReorg hU1) (esEpoch hU1) (esSnaps hU1)
  rw [esChainTipSlot hRW]
  exact ⟨processMissedSlots_cong hRW _, hR2⟩

theorem slashLeader_cong {a b : ChainState} (h : ES a b) (v : String) :
    ES (slashLeader a v) (slashLeader b v) := by
  unfold slashLeader
  exact ES_mk (esChain h) (esBlocks h) (esParents h) (esTip h) (by rw [esVals h])
    (esStats h) (esPoh h) (esState h) (esGen h) (esSlotProd h) (esSlotProds h)
    (esEquiv h) (esLast h) (esFin h) (esConfig h) (esReorg h) (esEpoch h) (esSnaps h)

theorem stateAtTip_cong {a b : ChainState} (h : ES a b) (tip : String) :
    stateAtTip a tip = stateAtTip b tip := by
  unfold stateAtTip
  by_cases ht : tip = ""
  · rw [if_pos ht, if_pos ht]
  · rw [if_neg ht, if_neg ht]
    have hw := chainWalk_cong h (a.blocks.length + 1) tip [] [] rfl
    rw [esBlocksLen h] at hw
    rw [esBlocksLen h]
    rcases hA : chainWalk (b.blocks.length + 1) a tip [] with _ | ca <;>
      rcases hB : chainWalk (b.blocks.length + 1) b tip [] with _ | cb
    · rfl
    · rw [hA, hB] at hw
      simp at hw
    · rw [hA, hB] at hw
      simp at hw
    · rw [hA, hB] at hw
      rw [Option.map_some', Option.map_some'] at hw
      have hw2 : ca.map eraseB = cb.map eraseB := Option.some.inj hw
      simp only []
      rw [esGen h]
      exact replayTxs_cong (ca.drop 1) (cb.drop 1) (dropErase hw2 1) b.genesis

theorem verifyBlockSignatureF_cong {V : VerOracle}
    (hVB : ∀ p dg s, V.verifyBlockSig p dg s = true) {c d : Block}
    (hcd : eraseB c = eraseB d) (hc : c.signature ≠ []) (hd : d.signature ≠ [])
    (pk : String) : verifyBlockSignatureF V c pk = verifyBlockSignatureF V d pk := by
  unfold verifyBlockSignatureF
  by_cases h1 : pk = ""
  · rw [if_pos h1, if_pos h1]
  · rw [if_neg h1, if_neg h1]
    by_cases h2 : (hexToBytes pk).isNone = true
    · rw [if_pos h2, if_pos h2]
    · rw [if_neg h2, if_neg h2]
      by_cases h3 : (!V.pubOk pk) = true
      · rw [if_pos h3, if_pos h3]
      · rw [if_neg h3, if_neg h3]
        rw [if_neg hc, if_neg hd]
        rw [hVB pk (blockDigest c) c.signature, hVB pk (blockDigest d) d.signature]
        rw [Bool.not_true]
        rw [if_neg Bool.false_ne_true, if_neg Bool.false_ne_true]
        rw [ebHash hcd, ebDigest hcd]

theorem verifyBlockOnAccept_cong {V : VerOracle}
    (hVB : ∀ p dg s, V.verifyBlockSig p dg s = true) {a b : ChainState} (h : ES a b)
    {p1 p2 : Block} (hp : eraseB p1 = eraseB p2) {c d : Block}
    (hcd : eraseB c = eraseB d) (hc : c.signature ≠ []) (hd : d.signature ≠ [])
    (state : StateMap) :
    ES (verifyBlockOnAccept V a p1 c state).1 (verifyBlockOnAccept V b p2 d state).1 ∧
    (verifyBlockOnAccept V a p1 c state).2 = (verifyBlockOnAccept V b p2 d state).2 := by
  unfold verifyBlockOnAccept
  rw [ebPrevHash hcd, ebHash hp, ebSlot hcd, ebValidator hcd, ebTxs hcd, ebTxRoot hcd,
    ebStateRoot hcd]
  by_cases h1 : d.prevHash ≠ p2.hash
  · rw [if_pos h1, if_pos h1]
    exact ⟨h, rfl⟩
  · rw [if_neg h1, if_neg h1]
    obtain ⟨hS, hO⟩ := snapshotForSlot_cong h d.slot
    rcases hA : snapshotForSlot a d.slot with ⟨a1, oa⟩
    rcases hB : snapshotForSlot b d.slot with ⟨b1, ob⟩
    rw [hA, hB] at hS hO
    simp only [] at hS hO
    cases hO
    rcases oa with _ | snap
    · exact ⟨hS, by trivial⟩
    · simp only []
      by_cases h2 : LeaderFromSnapshot d.slot snap.validators ≠ d.validator
      · rw [if_pos h2, if_pos h2]
        exact ⟨hS, by trivial⟩
      · rw [if_neg h2, if_neg h2]
        rcases hV : VerifyTransactionsF V d.transactions with _ | e
        · simp only []
          by_cases h3 : TxRoot d.transactions ≠ d.txRoot
          · rw [if_pos h3, if_pos h3]
            exact ⟨hS, by trivial⟩
          · rw [if_neg h3, if_neg h3]
            rcases hApp : ApplyTransactions state d.transactions with e | ns
            · simp only []
              exact ⟨hS, by trivial⟩
            · simp only []
              by_cases h4 : StateRootInt ns ≠ d.stateRoot
              · rw [if_pos h4, if_pos h4]
                exact ⟨hS, by trivial⟩
              · rw [if_neg h4, if_neg h4]
                rw [esVals hS]
                rcases hL : lookupA b1.validators d.validator with _ | v
                · simp only []
                  exact ⟨hS, by trivial⟩
                · simp only []
                  rw [verifyBlockSignatureF_cong hVB hcd hc hd v.pubKey]
                  rcases hV2 : verifyBlockSignatureF V d v.pubKey with _ | e2
                  · simp only []
                    exact ⟨hS, by trivial⟩
                  · simp only []
                    exact ⟨hS, by trivial⟩
        · simp only []
          exact ⟨hS, by trivial⟩

theorem esLookupD {a b : ChainState} (h : ES a b) (k : String) :
    eraseB (lookupD a.blocks k zeroBlock) = eraseB (lookupD b.blocks k zeroBlock) := by
  have hpv := esLookupB h k
  unfold lookupD
  rcases h1 : lookupA a.blocks k with _ | x <;> rcases h2 : lookupA b.blocks k with _ | y
  · rfl
  · rw [h1, h2] at hpv
    simp at hpv
  · rw [h1, h2] at hpv
    simp at hpv
  · rw [h1, h2] at hpv
    rw [Option.map_some', Option.map_some'] at hpv
    exact Option.some.inj hpv

theorem addBlockCore_cong {V : VerOracle}
    (hVB : ∀ p dg s, V.verifyBlockSig p dg s = true) {S1 S2 : SignOracle}
    (hs1 : SignOk S1) (hs2 : SignOk S2) {a b : ChainState} (h : ES a b) (p1 : PoH)
    (txs : List Transaction) :
    ES (addBlockCore V S1 a p1 txs).1 (addBlockCore V S2 b p1 txs).1 ∧
    (addBlockCore V S1 a p1 txs).2 = (addBlockCore V S2 b p1 txs).2 := by
  simp only [addBlockCore]
  have hP : ES { a with poh := some p1 } { b with poh := some p1 } :=
    ES_mk (esChain h) (esBlocks h) (esParents h) (esTip h) (esVals h) (esStats h) rfl
      (esState h) (esGen h) (esSlotProd h) (esSlotProds h) (esEquiv h) (esLast h)
      (esFin h) (esConfig h) (esReorg h) (esEpoch h) (esSnaps h)
  have hE2 : ES (ensureSnapshotForSlot { a with poh := some p1 } (pohSlot p1))
      (ensureSnapshotForSlot { b with poh := some p1 } (pohSlot p1)) := by
    unfold ensureSnapshotForSlot
    rw [epochForSlot_cong hP (pohSlot p1)]
    exact ensureSnapshot_cong hP _
  obtain ⟨hL, hLv⟩ := leaderForSlot_cong hE2 (pohSlot p1)
  rw [hLv]
  revert hL
  generalize (leaderForSlot (ensureSnapshotForSlot { a with poh := some p1 }
    (pohSlot p1)) (pohSlot p1)).1 = sA
  generalize (leaderForSlot (ensureSnapshotForSlot { b with poh := some p1 }
    (pohSlot p1)) (pohSlot p1)).1 = sB
  generalize (leaderForSlot (ensureSnapshotForSlot { b with poh := some p1 }
    (pohSlot p1)) (pohSlot p1)).2 = v
  intro hL
  rw [esTip h]
  have hprev := esLookupD h b.canonicalTip
  rw [ebIndex hprev, ebHash hprev]
  revert hprev
  generalize lookupD a.blocks b.canonicalTip zeroBlock = pA
  generalize lookupD b.blocks b.canonicalTip zeroBlock = pB
  intro hprev
  rw [esState hL, esVals hL]
  rcases hV : VerifyTransactionsF V txs with _ | e
  · simp only []
    rcases hApp : ApplyTransactions sB.state txs with e | ns
    · simp only []
      exact ⟨slashLeader_cong hL v, by trivial⟩
    · simp only []
      rcases hLk : lookupA sB.validators v with _ | vv
      · simp only []
        exact ⟨slashLeader_cong hL v, by trivial⟩
      · simp only []
        rcases hPk : vv.privKey with _ | k
        · simp only []
          exact ⟨slashLeader_cong hL v, by trivial⟩
        · simp only []
          generalize hdg : blockDigest {
              index := addU64 pB.index 1,
              prevHash := pB.hash,
              slot := pohSlot p1,
              tick := p1.currentTick,
              validator := v,
              txRoot := TxRoot txs,
              stateRoot := StateRootInt ns,
              pohHash := PoHHashHex p1.hash,
              signature := [],
              hash := "",
              transactions := txs } = dg
          obtain ⟨sg1, hsg1, hne1⟩ := hs1 k dg
          obtain ⟨sg2, hsg2, hne2⟩ := hs2 k dg
          rw [hsg1, hsg2]
          simp only []
          generalize hB1 : ({
              index := addU64 pB.index 1,
              prevHash := pB.hash,
              slot := pohSlot p1,
              tick := p1.currentTick,
              validator := v,
              txRoot := TxRoot txs,
              stateRoot := StateRootInt ns,
              pohHash := PoHHashHex p1.hash,
              signature := sg1,
              hash := dg,
              transactions := txs } : Block) = blkA
          generalize hB2 : ({
              index := addU64 pB.index 1,
              prevHash := pB.hash,
              slot := pohSlot p1,
              tick := p1.currentTick,
              validator := v,
              txRoot := TxRoot txs,
              stateRoot := StateRootInt ns,
              pohHash := PoHHashHex p1.hash,
              signature := sg2,
              hash := dg,
              transactions := txs } : Block) = blkB
          have hblk : eraseB blkA = eraseB blkB := by
            rw [← hB1, ← hB2]
            rfl
          have hcA : blkA.signature ≠ [] := by
            rw [← hB1]
            exact hne1
          have hcB : blkB.signature ≠ [] := by
            rw [← hB2]
            exact hne2
          obtain ⟨hV1, hV2⟩ := verifyBlockOnAccept_cong hVB hL hprev hblk hcA hcB sB.state
          revert hV1 hV2
          generalize verifyBlockOnAccept V sA pA blkA sB.state = r1
          generalize verifyBlockOnAccept V sB pB blkB sB.state = r2
          intro hV1 hV2
          rcases r1 with ⟨a4, oa⟩
          rcases r2 with ⟨b4, ob⟩
          simp only [] at hV1 hV2
          cases hV2
          rcases oa with _ | e2
          · simp only []
            exact acceptAndFinalize_cong hV1 hblk v
          · simp only []
            exact ⟨slashLeader_cong hV1 v, by trivial⟩
  · simp only []
    exact ⟨slashLeader_cong hL v, by trivial⟩

theorem addBlockExtCore_cong {V : VerOracle}
    (hVB : ∀ p dg s, V.verifyBlockSig p dg s = true) {S1 S2 : SignOracle}
    (hs1 : SignOk S1) (hs2 : SignOk S2) {a b : ChainState} (h : ES a b)
    (prevHash : String) {par1 par2 : Block} (hpar : eraseB par1 = eraseB par2)
    (p1 : PoH) (txs : List Transaction) :
    ES (addBlockExtCore V S1 a prevHash par1 p1 txs).1
      (addBlockExtCore V S2 b prevHash par2 p1 txs).1 ∧
    (addBlockExtCore V S1 a prevHash par1 p1 txs).2 =
      (addBlockExtCore V S2 b prevHash par2 p1 txs).2 := by
  simp only [addBlockExtCore]
  have hP : ES { a with poh := some p1 } { b with poh := some p1 } :=
    ES_mk (esChain h) (esBlocks h) (esParents h) (esTip h) (esVals h) (esStats h) rfl
      (esState h) (esGen h) (esSlotProd h) (esSlotProds h) (esEquiv h) (esLast h)
      (esFin h) (esConfig h) (esReorg h) (esEpoch h) (esSnaps h)
  have hE2 : ES (ensureSnapshotForSlot { a with poh := some p1 } (pohSlot p1))
      (ensureSnapshotForSlot { b with poh := some p1 } (pohSlot p1)) := by
    unfold ensureSnapshotForSlot
    rw [epochForSlot_cong hP (pohSlot p1)]
    exact ensureSnapshot_cong hP _
  obtain ⟨hL, hLv⟩ := leaderForSlot_cong hE2 (pohSlot p1)
  rw [hLv]
  revert hL
  generalize (leaderForSlot (ensureSnapshotForSlot { a with poh := some p1 }
    (pohSlot p1)) (pohSlot p1)).1 = sA
  generalize (leaderForSlot (ensureSnapshotForSlot { b with poh := some p1 }
    (pohSlot p1)) (pohSlot p1)).1 = sB
  generalize (leaderForSlot (ensureSnapshotForSlot { b with poh := some p1 }
    (pohSlot p1)) (pohSlot p1)).2 = v
  intro hL
  rw [ebIndex hpar, ebHash hpar]
  rw [esVals hL]
  rcases hV : VerifyTransactionsF V txs with _ | e
  · simp only []
    rw [stateAtTip_cong hL prevHash]
    rcases hST : stateAtTip sB prevHash with e | ps
    · simp only []
      exact ⟨hL, by trivial⟩
    · simp only []
      rcases hApp : ApplyTransactions ps txs with e | ns
      · simp only []
        exact ⟨slashLeader_cong hL v, by trivial⟩
      · simp only []
        rcases hLk : lookupA sB.validators v with _ | vv
        · simp only []
          exact ⟨slashLeader_cong hL v, by trivial⟩
        · simp only []
          rcases hPk : vv.privKey with _ | k
          · simp only []
            exact ⟨slashLeader_cong hL v, by trivial⟩
          · simp only []
            generalize hdg : blockDigest {
                index := addU64 par2.index 1,
                prevHash := par2.hash,
                slot := pohSlot p1,
                tick := p1.currentTick,
                validator := v,
                txRoot := TxRoot txs,
                stateRoot := StateRootInt ns,
                pohHash := PoHHashHex p1.hash,
                signature := [],
                hash := "",
                transactions := txs } = dg
            obtain ⟨sg1, hsg1, hne1⟩ := hs1 k dg
            obtain ⟨sg2, hsg2, hne2⟩ := hs2 k dg
            rw [hsg1, hsg2]
            simp only []
            generalize hB1 : ({
                index := addU64 par2.index 1,
                prevHash := par2.hash,
                slot := pohSlot p1,
                tick := p1.currentTick,
                validator := v,
                txRoot := TxRoot txs,
                stateRoot := StateRootInt ns,
                pohHash := PoHHashHex p1.hash,
                signature := sg1,
                hash := dg,
                transactions := txs } : Block) = blkA
            generalize hB2 : ({
                index := addU64 par2.index 1,
                prevHash := par2.hash,
                slot := pohSlot p1,
                tick := p1.currentTick,
                validator := v,
                txRoot := TxRoot txs,
                stateRoot := StateRootInt ns,
                pohHash := PoHHashHex p1.hash,
                signature := sg2,
                hash := dg,
                transactions := txs } : Block) = blkB
            have hblk : eraseB blkA = eraseB blkB := by
              rw [← hB1, ← hB2]
              rfl
            have hcA : blkA.signature ≠ [] := by
              rw [← hB1]
              exact hne1
            have hcB : blkB.signature ≠ [] := by
              rw [← hB2]
              exact hne2
            obtain ⟨hV1, hV2⟩ := verifyBlockOnAccept_cong hVB hL hpar hblk hcA hcB ps
            revert hV1 hV2
            generalize verifyBlockOnAccept V sA par1 blkA ps = r1
            generalize verifyBlockOnAccept V sB par2 blkB ps = r2
            intro hV1 hV2
            rcases r1 with ⟨a4, oa⟩
            rcases r2 with ⟨b4, ob⟩
            simp only [] at hV1 hV2
            cases hV2
            rcases oa with _ | e2
            · simp only []
              obtain ⟨hAF1, hAF2⟩ := acceptAndFinalize_cong hV1 hblk v
              refine ⟨hAF1, ?_⟩
              rw [hAF2]
            · simp only []
              exact ⟨slashLeader_cong hV1 v, by trivial⟩
  · simp only []
    exact ⟨slashLeader_cong hL v, by trivial⟩

theorem AddBlock_cong {V : VerOracle}
    (hVB : ∀ p dg s, V.verifyBlockSig p dg s = true) {S1 S2 : SignOracle}
    (hs1 : SignOk S1) (hs2 : SignOk S2) {a b : ChainState} (h : ES a b)
    (txs : List Transaction) :
    ES (AddBlock V S1 a txs).1 (AddBlock V S2 b txs).1 ∧
    (AddBlock V S1 a txs).2 = (AddBlock V S2 b txs).2 := by
  unfold AddBlock
  rw [esVals h]
  by_cases hv : b.validators = []
  · rw [if_pos hv, if_pos hv]
    exact ⟨h, rfl⟩
  · rw [if_neg hv, if_neg hv]
    rw [esPoh h]
    rcases hp : b.poh with _ | p
    · exact ⟨h, rfl⟩
    · simp only []
      exact addBlockCore_cong hVB hs1 hs2 h (pohTick p TicksPerSlot) txs

theorem AddBlockExternal_cong {V : VerOracle}
    (hVB : ∀ p dg s, V.verifyBlockSig p dg s = true) {S1 S2 : SignOracle}
    (hs1 : SignOk S1) (hs2 : SignOk S2) {a b : ChainState} (h : ES a b)
    (prevHash : String) (txs : List Transaction) :
    ES (AddBlockExternal V S1 a prevHash txs).1 (AddBlockExternal V S2 b prevHash txs).1 ∧
    (AddBlockExternal V S1 a prevHash txs).2 = (AddBlockExternal V S2 b prevHash txs).2 := by
  unfold AddBlockExternal
  rw [esVals h]
  by_cases hv : b.validators = []
  · rw [if_pos hv, if_pos hv]
    exact ⟨h, rfl⟩
  · rw [if_neg hv, if_neg hv]
    rw [esPoh h]
    rcases hp : b.poh with _ | p
    · exact ⟨h, rfl⟩
    · simp only []
      have hlk := esLookupB h prevHash
      rcases h1 : lookupA a.blocks prevHash with _ | par1 <;>
        rcases h2 : lookupA b.blocks prevHash with _ | par2
      · exact ⟨h, rfl⟩
      · rw [h1, h2] at hlk
        simp at hlk
      · rw [h1, h2] at hlk
        simp at hlk
      · rw [h1, h2] at hlk
        rw [Option.map_some', Option.map_some'] at hlk
        have hpar : eraseB par1 = eraseB par2 := Option.some.inj hlk
        simp only []
        exact addBlockExtCore_cong hVB hs1 hs2 h prevHash hpar (pohTick p TicksPerSlot) txs

theorem setBalance_cong {a b : ChainState} (h : ES a b) (addr : String) (amt : Int) :
    ES (setBalance a addr amt) (setBalance b addr amt) := by
  have hlen : a.chain.length = b.chain.length := by
    have h2 := congrArg List.length (esChain h)
    simpa using h2
  simp only [setBalance]
  by_cases hn : amt < 0
  · rw [if_pos hn, if_pos hn]
    exact h
  · rw [if_neg hn, if_neg hn]
    rw [hlen]
    by_cases hc : b.chain.length ≤ 1
    · rw [if_pos hc, if_pos hc]
      exact ES_mk (esChain h) (esBlocks h) (esParents h) (esTip h) (esVals h) (esStats h)
        (esPoh h) (by rw [esState h]) (by rw [esGen h]) (esSlotProd h) (esSlotProds h)
        (esEquiv h) (esLast h) (esFin h) (esConfig h) (esReorg h) (esEpoch h) (esSnaps h)
    · rw [if_neg hc, if_neg hc]
      exact ES_mk (esChain h) (esBlocks h) (esParents h) (esTip h) (esVals h) (esStats h)
        (esPoh h) (by rw [esState h]) (esGen h) (esSlotProd h) (esSlotProds h)
        (esEquiv h) (esLast h) (esFin h) (esConfig h) (esReorg h) (esEpoch h) (esSnaps h)

theorem addValidatorB_cong {a b : ChainState} (h : ES a b) (n : String) (s : Int)
    (pk : String) (priv : Option Nat) :
    ES (addValidatorB a n s pk priv).1 (addValidatorB b n s pk priv).1 ∧
    (addValidatorB a n s pk priv).2 = (addValidatorB b n s pk priv).2 := by
  simp only [addValidatorB]
  rw [esVals h, esStats h]
  constructor
  · exact ES_mk (esChain h) (esBlocks h) (esParents h) (esTip h) rfl rfl (esPoh h)
      (esState h) (esGen h) (esSlotProd h) (esSlotProds h) (esEquiv h) (esLast h)
      (esFin h) (esConfig h) (esReorg h) (esEpoch h) (esSnaps h)
  · rfl

theorem runOps_cong {V : VerOracle} (hVB : ∀ p dg s, V.verifyBlockSig p dg s = true)
    {S1 S2 : SignOracle} (hs1 : SignOk S1) (hs2 : SignOk S2) :
    ∀ (ops : List Op) {a b : ChainState}, ES a b →
      ES (runOps V S1 a ops) (runOps V S2 b ops) := by
  intro ops
  induction ops with
  | nil =>
    intro a b h
    exact h
  | cons op rest ih =>
    intro a b h
    cases op with
    | addValidator n s p k =>
      exact ih (addValidatorB_cong h n s p k).1
    | setBal ad m =>
      exact ih (setBalance_cong h ad m)
    | addBlock txs =>
      exact ih (AddBlock_cong hVB hs1 hs2 h txs).1
    | addBlockExternal ph txs =>
      exact ih (AddBlockExternal_cong hVB hs1 hs2 h ph txs).1

theorem newBlockchain_det (R : Int → Int) (cfg : ChainConfig)
    (hd : (defaultConfig cfg).deterministicPoH = true) (c1 c2 : Option Int) :
    newBlockchain R cfg c1 = newBlockchain R cfg c2 := by
  simp only [newBlockchain]
  rw [hd]
  rfl

theorem mapHash_of_mapErase {l1 l2 : List Block} (h : l1.map eraseB = l2.map eraseB) :
    l1.map (fun b => b.hash) = l2.map (fun b => b.hash) := by
  have h2 := congrArg (List.map Block.hash) h
  rw [List.map_map, List.map_map] at h2
  exact h2

/-- C8 (corrected): with `DeterministicPoH` enabled, the same `PoHSeed`, the same
pseudo-random generator, the same wall clock or not, the same engine-call
sequence (validator registrations, balance writes and block productions, in
order) and honest ECDSA oracles — verification accepts the produced blocks and
signing always yields a nonempty signature — two independent runs agree on the
entire final state after stripping stored signature bytes: the canonical chains
agree on every field of every block except `Signature`, and in particular every
block hash is byte-identical.  The literal claim's "every field" fails only for
the `Signature` bytes, which `ecdsa.SignASN1` draws from `rand.Reader`; see the
counterexample. -/
theorem det_chain_spec {V : VerOracle}
    (hVB : ∀ p dg s, V.verifyBlockSig p dg s = true) {S1 S2 : SignOracle}
    (hs1 : SignOk S1) (hs2 : SignOk S2) (R : Int → Int) (cfg : ChainConfig)
    (hdet : (defaultConfig cfg).deterministicPoH = true) (c1 c2 : Option Int)
    (ops : List Op) :
    ES (runOps V S1 (newBlockchain R cfg c1) ops)
      (runOps V S2 (newBlockchain R cfg c2) ops) ∧
    (runOps V S1 (newBlockchain R cfg c1) ops).chain.map eraseB =
      (runOps V S2 (newBlockchain R cfg c2) ops).chain.map eraseB ∧
    (runOps V S1 (newBlockchain R cfg c1) ops).chain.map (fun b => b.hash) =
      (runOps V S2 (newBlockchain R cfg c2) ops).chain.map (fun b => b.hash) := by
  have h0 : ES (newBlockchain R cfg c1) (newBlockchain R cfg c2) := by
    unfold ES
    rw [newBlockchain_det R cfg hdet c1 c2]
  have hr := runOps_cong hVB hs1 hs2 ops h0
  exact ⟨hr, esChain hr, mapHash_of_mapErase (esChain hr)⟩

/-- C8 witness: the determinism theorem instantiated at the accept-everything
verifier, the honest signer, the deterministic test configuration and two
different wall clocks. -/
theorem det_chain_spec_witness :
    (∀ p dg s, okVer.verifyBlockSig p dg s = true) ∧ SignOk okSign ∧
    (defaultConfig testConfig).deterministicPoH = true ∧
    (ES (runOps okVer okSign (newBlockchain (fun z => z) testConfig none) [])
        (runOps okVer okSign (newBlockchain (fun z => z) testConfig (some 7)) []) ∧
      (runOps okVer okSign (newBlockchain (fun z => z) testConfig none) []).chain.map
          eraseB =
        (runOps okVer okSign (newBlockchain (fun z => z) testConfig (some 7)) []).chain.map
          eraseB ∧
      (runOps okVer okSign (newBlockchain (fun z => z) testConfig none) []).chain.map
          (fun b => b.hash) =
        (runOps okVer okSign (newBlockchain (fun z => z) testConfig (some 7)) []).chain.map
          (fun b => b.hash)) :=
  ⟨fun _ _ _ => rfl, fun k d => ⟨[1], rfl, by decide⟩, by decide,
    det_chain_spec (fun _ _ _ => rfl) (fun k d => ⟨[1], rfl, by decide⟩)
      (fun k d => ⟨[1], rfl, by decide⟩) (fun z => z) testConfig (by decide) none
      (some 7) []⟩

/-- C8 counterexample to the literal claim: the same production-ready state,
the same verifier and the same empty transaction list, but two honest signers
whose entropy differs ([1] versus [2]), give two successful `AddBlock` calls
whose canonical chains are NOT byte-identical — they differ exactly in the
stored `Signature` bytes, while the signature-stripped states (hence all other
block fields and all hashes) coincide. -/
theorem det_chain_signature_counterexample :
    (AddBlock okVer okSign stC8 []).1.chain ≠ (AddBlock okVer okSign2 stC8 []).1.chain ∧
    ES (AddBlock okVer okSign stC8 []).1 (AddBlock okVer okSign2 stC8 []).1 ∧
    (AddBlock okVer okSign stC8 []).2 = none ∧
    (AddBlock okVer okSign2 stC8 []).2 = none := by
  have e1 : AddBlock okVer okSign stC8 [] =
      addBlockCore okVer okSign stC8 (pohTick pohW TicksPerSlot) [] := by
    unfold AddBlock
    rw [if_neg (show ¬ stC8.validators = [] by decide)]
    rfl
  have e2 : AddBlock okVer okSign2 stC8 [] =
      addBlockCore okVer okSign2 stC8 (pohTick pohW TicksPerSlot) [] := by
    unfold AddBlock
    rw [if_neg (show ¬ stC8.validators = [] by decide)]
    rfl
  refine ⟨?_, ?_, ?_, ?_⟩
  · rw [e1, e2, c9poh]
    decide
  · exact (AddBlock_cong
      (show ∀ p dg s, okVer.verifyBlockSig p dg s = true from fun _ _ _ => rfl)
      (show SignOk okSign from fun k d => ⟨[1], rfl, by decide⟩)
      (show SignOk okSign2 from fun k d => ⟨[2], rfl, by decide⟩)
      (ES_refl stC8) []).1
  · rw [e1, c9poh]
    decide
  · rw [e2, c9poh]
    decide

end Xenium
